import Mathlib

/-!
Verification of the lcubed scanner (lexical front end).

This file contains a shallow embedding of `src/scanner.rs` and `src/token.rs`
into Lean.  Source text is modelled as a `List Char`; byte offsets are
computed from each codepoint's UTF-8 width (`Char.utf8Size`), matching Rust's
`char_indices` and `len_utf8`.  Rust's `&str[a..b]` byte slicing, which
panics when the bounds are out of range or not on codepoint boundaries, is
modelled by `byteSlice`, returning `none` in the panicking cases.  Every
fallible scanner operation returns a `ScanOutcome`: `ok` and `err` carry the
scanner state after the call (Rust mutates `&mut self` in place and the
caller keeps the mutated scanner even on error), and `panicked` carries the
state at the moment a slicing panic occurs.
-/

namespace Lcubed

/-- Character constants, to keep quote/backslash characters out of literals. -/
def quoteChar : Char := Char.ofNat 34

def backslashChar : Char := Char.ofNat 92

def apostropheChar : Char := Char.ofNat 39

def newlineChar : Char := Char.ofNat 10

def crChar : Char := Char.ofNat 13

def tabChar : Char := Char.ofNat 9

/-- Unicode White_Space property, as decided by Rust's `char::is_whitespace`. -/
def rustIsWhitespace (c : Char) : Bool :=
  let n := c.toNat
  (0x09 ≤ n && n ≤ 0x0D) || n == 0x20 || n == 0x85 || n == 0xA0 ||
  n == 0x1680 || (0x2000 ≤ n && n ≤ 0x200A) || n == 0x2028 || n == 0x2029 ||
  n == 0x202F || n == 0x205F || n == 0x3000

/-- Byte length of a codepoint sequence under UTF-8, Rust's `str::len`. -/
def byteLen : List Char → Nat
  | [] => 0
  | c :: cs => c.utf8Size + byteLen cs

/-- Codepoints paired with their byte offsets, starting at offset `ofs`. -/
def charIndicesFrom (ofs : Nat) : List Char → List (Nat × Char)
  | [] => []
  | c :: cs => (ofs, c) :: charIndicesFrom (ofs + c.utf8Size) cs

/-- Rust's `str::char_indices`: codepoints with their byte offsets. -/
def charIndices (cs : List Char) : List (Nat × Char) :=
  charIndicesFrom 0 cs

/-- Whether byte index `i` lies on a codepoint boundary of `cs` (including
the end of the text), Rust's `str::is_char_boundary`. -/
def isBoundary (cs : List Char) (i : Nat) : Bool :=
  decide (i = byteLen cs) || (charIndices cs).any (fun p => decide (p.1 = i))

/-- Rust's `&s[a..b]` byte-range slicing: the codepoints whose offsets lie in
`[a, b)` when `a <= b <= len` and both ends are codepoint boundaries;
`none` models the panic otherwise. -/
def byteSlice (cs : List Char) (a b : Nat) : Option (List Char) :=
  if a ≤ b ∧ b ≤ byteLen cs ∧ isBoundary cs a ∧ isBoundary cs b then
    some (((charIndices cs).filter (fun p => decide (a ≤ p.1 ∧ p.1 < b))).map Prod.snd)
  else none

/-- The position the cursor reports once the char iterator is exhausted:
the last codepoint's offset plus the width of the codepoint before it
(`last_char`), falling back to `position + 1` when fewer than two codepoints
were seen.  This is the value `scan_char` computes in its `else` branch. -/
def eofPosition (cs : List Char) : Nat :=
  match cs.reverse with
  | [] => 1
  | [_] => 1
  | c :: d :: _ => (byteLen cs - c.utf8Size) + d.utf8Size

/-- Punctuation forms, from `token.rs`. -/
inductive Symbol where
  | Eq | EqEq | Comma | Colon | DoubleColon | Semicolon | Backslash
  | Arrow | Dot | Plus | Minus | Slash | Star
deriving DecidableEq, Repr

/-- Reserved identifier spellings, from `token.rs`. -/
inductive Keyword where
  | If | Else | End | Fun
deriving DecidableEq, Repr

/-- Token tags, from `token.rs`. -/
inductive TokenKind where
  | Eof
  | Identifier
  | Number
  | Symbol (s : Symbol)
  | String
  | Keyword (k : Keyword)
deriving DecidableEq, Repr

/-- A token: kind, half-open byte span `[start, endPos)` (named `end` in the
Rust source, a reserved word in Lean), raw source slice and decoded text. -/
structure Token where
  kind : TokenKind
  start : Nat
  endPos : Nat
  raw_text : List Char
  text : List Char
deriving DecidableEq, Repr

/-- Token constructor `Token::new`. -/
def Token.new (kind : TokenKind) : Token :=
  { kind := kind, start := 0, endPos := 0, raw_text := [], text := [] }

/-- Scan errors, from `scanner.rs`. -/
inductive ScanError where
  | UnexpectedEndOfInput (offset : Nat)
  | UnexpectedCharacter (offset : Nat) (unexpected : Char)
  | UnexpectedCharacterInEscapeSequence (offset : Nat) (unexpected : Char)
  | UnexpectedEndOfInputInString (offset : Nat) (string_start : Nat)
  | UnexpectedEndOfInputInEscapeSequence (offset : Nat)
deriving DecidableEq, Repr

/-- Scanner state, from `scanner.rs`: the borrowed input, the remaining
`CharIndices` iterator, the last two codepoints seen, the reported byte
position and the current token. -/
structure Scanner where
  input : List Char
  chars : List (Nat × Char)
  last_char : Option Char
  current_char : Option Char
  position : Nat
  token : Token
deriving DecidableEq, Repr

/-- Outcome of a scanner operation.  `ok` and `err` carry the state after
the call (Rust mutates in place); `panicked` carries the state at the moment
an out-of-bounds or off-boundary string slice occurs. -/
inductive ScanOutcome where
  | ok (s : Scanner)
  | err (s : Scanner) (e : ScanError)
  | panicked (s : Scanner)
deriving DecidableEq, Repr

def ScanOutcome.isPanicked : ScanOutcome → Prop
  | .panicked _ => True
  | _ => False

namespace Scanner

/-- Termination measure: codepoints the cursor can still move over. -/
def M (s : Scanner) : Nat :=
  2 * s.chars.length + (if s.current_char.isSome then 1 else 0)

/-- Move the scanner to the next character (`Scanner::scan_char`).  The Rust
function returns `Result` but never fails, so it is modelled as pure. -/
def scan_char (s : Scanner) : Scanner :=
  match s.chars with
  | (ofs, ch) :: rest =>
      { s with chars := rest, last_char := s.current_char,
               current_char := some ch, position := ofs }
  | [] =>
      { s with position := s.position +
                 (match s.last_char with | some c => c.utf8Size | none => 1),
               current_char := none }

theorem M_scan_char_lt (s : Scanner) (h : s.current_char.isSome) :
    M (scan_char s) < M s := by
  unfold M scan_char
  cases hx : s.chars with
  | nil => simp [h]
  | cons a l => cases a with | mk o c => simp [h]

theorem M_scan_char_le (s : Scanner) : M (scan_char s) ≤ M s := by
  unfold M scan_char
  cases hx : s.chars with
  | nil => cases hc : s.current_char <;> simp
  | cons a l => cases a with | mk o c => cases hc : s.current_char <;> simp <;> omega

/-- Move the scanner to the next non-whitespace character
(`Scanner::skip_whitespace`). -/
def skip_whitespace (s : Scanner) : Scanner :=
  match h : s.current_char with
  | some ch => if rustIsWhitespace ch then skip_whitespace (scan_char s) else s
  | none => s
termination_by M s
decreasing_by
  exact M_scan_char_lt s (by simp [h])

theorem skip_whitespace_eq (s : Scanner) : skip_whitespace s =
    match s.current_char with
    | some ch => if rustIsWhitespace ch then skip_whitespace (scan_char s) else s
    | none => s := by
  rw [skip_whitespace]
  split <;> simp [*]

theorem M_skip_whitespace_le (s : Scanner) : M (skip_whitespace s) ≤ M s := by
  induction s using skip_whitespace.induct with
  | case1 s ch h hws ih =>
      rw [skip_whitespace_eq, h]
      simp only [hws, if_true]
      exact le_trans ih (M_scan_char_le s)
  | case2 s ch h hws => rw [skip_whitespace_eq, h]; simp [hws]
  | case3 s h => rw [skip_whitespace_eq, h]

/-- Skip the rest of a line comment (`Scanner::skip_line_comment`). -/
def skip_line_comment (s : Scanner) : Scanner :=
  match h : s.current_char with
  | some ch =>
      if ch = newlineChar then scan_char s
      else skip_line_comment (scan_char s)
  | none => s
termination_by M s
decreasing_by
  exact M_scan_char_lt s (by simp [h])

theorem skip_line_comment_eq (s : Scanner) : skip_line_comment s =
    match s.current_char with
    | some ch =>
        if ch = newlineChar then scan_char s
        else skip_line_comment (scan_char s)
    | none => s := by
  rw [skip_line_comment]
  split <;> simp [*]

theorem M_skip_line_comment_le (s : Scanner) : M (skip_line_comment s) ≤ M s := by
  induction s using skip_line_comment.induct with
  | case1 s h => rw [skip_line_comment_eq, h]; simp [M_scan_char_le s]
  | case2 s ch h hnl ih =>
      rw [skip_line_comment_eq, h]
      simp only [hnl, if_false]
      exact le_trans ih (M_scan_char_le s)
  | case3 s h => rw [skip_line_comment_eq, h]

/-- Set kind, end position, raw text and text of the current token from the
scanned portion of the input (`Scanner::finish_token`).  The Rust code first
assigns `kind` and `end`, then slices `input[start..end]`; the slice panics
when the span is out of bounds or off a codepoint boundary. -/
def finish_token (s : Scanner) (kind : TokenKind) : ScanOutcome :=
  let t := { s.token with kind := kind, endPos := s.position }
  match byteSlice s.input t.start t.endPos with
  | some raw => .ok { s with token := { t with raw_text := raw, text := raw } }
  | none => .panicked { s with token := t }

/-- Post-processing variant (`Scanner::finish_token_with`). -/
def finish_token_with (s : Scanner) (kind : TokenKind)
    (modifier : Token → Except ScanError Token) : ScanOutcome :=
  match finish_token s kind with
  | .ok s1 =>
      match modifier s1.token with
      | .ok t => .ok { s1 with token := t }
      | .error e => .err s1 e
  | other => other

/-- Identifier continuation characters: the `'a'..='z' | 'A'..='Z' | '_' |
'0'..='9'` arm in `scan_identifier_or_keyword` (97-122 = a-z, 65-90 = A-Z,
95 = underscore, 48-57 = digits). -/
def is_ident_char (c : Char) : Bool :=
  decide ((97 ≤ c.toNat ∧ c.toNat ≤ 122) ∨ (65 ≤ c.toNat ∧ c.toNat ≤ 90) ∨
    c.toNat = 95 ∨ (48 ≤ c.toNat ∧ c.toNat ≤ 57))

/-- The characters that dispatch to identifier/keyword scanning in `scan`:
the `'a'..='z' | 'A'..='Z' | '_'` arm. -/
def is_ident_start (c : Char) : Bool :=
  decide ((97 ≤ c.toNat ∧ c.toNat ≤ 122) ∨ (65 ≤ c.toNat ∧ c.toNat ≤ 90) ∨
    c.toNat = 95)

/-- Keyword table from `scan_identifier_or_keyword`. -/
def keyword_of (cs : List Char) : Option Keyword :=
  if cs = "if".toList then some Keyword.If
  else if cs = "else".toList then some Keyword.Else
  else if cs = "end".toList then some Keyword.End
  else if cs = "fun".toList then some Keyword.Fun
  else none

/-- The `finish` closure in `scan_identifier_or_keyword`: finish as an
identifier, then reclassify as a keyword on an exact table match. -/
def finish_ident (s : Scanner) : ScanOutcome :=
  match finish_token s TokenKind.Identifier with
  | .ok s1 =>
      match keyword_of s1.token.raw_text with
      | some kw => .ok { s1 with token := { s1.token with kind := TokenKind.Keyword kw } }
      | none => .ok s1
  | other => other

/-- The `while let` loop of `scan_identifier_or_keyword`.  Note the Rust
code only performs the keyword lookup when the loop stops at a
non-identifier character; at end of input it finishes as a plain
identifier. -/
def ident_loop (s : Scanner) : ScanOutcome :=
  match h : s.current_char with
  | some ch =>
      if is_ident_char ch then ident_loop (scan_char s)
      else finish_ident s
  | none => finish_token s TokenKind.Identifier
termination_by M s
decreasing_by
  exact M_scan_char_lt s (by simp [h])

theorem ident_loop_eq (s : Scanner) : ident_loop s =
    match s.current_char with
    | some ch =>
        if is_ident_char ch then ident_loop (scan_char s)
        else finish_ident s
    | none => finish_token s TokenKind.Identifier := by
  rw [ident_loop]
  split <;> simp [*]

def scan_identifier_or_keyword (s : Scanner) : ScanOutcome :=
  ident_loop (scan_char s)

/-- Digit test: the `'0'..='9'` pattern (48-57). -/
def is_digit_char (c : Char) : Bool :=
  decide (48 ≤ c.toNat ∧ c.toNat ≤ 57)

/-- Number continuation characters: the `'0'..='9' | '_'` arm. -/
def is_number_char (c : Char) : Bool :=
  is_digit_char c || c == '_'

/-- The `cleanup_number` modifier: decoded text keeps only the digits of the
raw text. -/
def cleanup_number (t : Token) : Except ScanError Token :=
  Except.ok { t with text := t.raw_text.filter (fun c => is_digit_char c) }

/-- The `while let` loop of `scan_number`. -/
def number_loop (s : Scanner) : ScanOutcome :=
  match h : s.current_char with
  | some ch =>
      if is_number_char ch then number_loop (scan_char s)
      else finish_token_with s TokenKind.Number cleanup_number
  | none => finish_token_with s TokenKind.Number cleanup_number
termination_by M s
decreasing_by
  exact M_scan_char_lt s (by simp [h])

theorem number_loop_eq (s : Scanner) : number_loop s =
    match s.current_char with
    | some ch =>
        if is_number_char ch then number_loop (scan_char s)
        else finish_token_with s TokenKind.Number cleanup_number
    | none => finish_token_with s TokenKind.Number cleanup_number := by
  rw [number_loop]
  split <;> simp [*]

def scan_number (s : Scanner) : ScanOutcome :=
  number_loop (scan_char s)

/-- Consume one character and emit a single-character symbol
(`Scanner::single_symbol`). -/
def single_symbol (s : Scanner) (symbol : Symbol) : ScanOutcome :=
  finish_token (scan_char s) (TokenKind.Symbol symbol)

/-- One-codepoint lookahead for two-character symbols
(`Scanner::maybe_double_symbol`). -/
def maybe_double_symbol (s : Scanner) (expected : Char)
    (single : Symbol) (double : Symbol) : ScanOutcome :=
  let s1 := scan_char s
  match s1.current_char with
  | some ch =>
      if ch = expected then single_symbol s1 double
      else finish_token s1 (TokenKind.Symbol single)
  | none => finish_token s1 (TokenKind.Symbol single)

/-- The source slice from the current token's start to the current position
(`Scanner::current_text`); `none` models the slicing panic. -/
def current_text (s : Scanner) : Option (List Char) :=
  byteSlice s.input s.token.start s.position

/-- The recognized escape set: `"nrt\\\"'".contains(ch)`. -/
def is_escape_char (c : Char) : Bool :=
  c == 'n' || c == 'r' || c == 't' || c == backslashChar ||
  c == quoteChar || c == apostropheChar

/-- The character an escape designator decodes to (the `match ch` in
`scan_string`'s escape arm; the default case models `unreachable!()` and is
never hit under `is_escape_char`). -/
def escape_result (c : Char) : Char :=
  if c = 'n' then newlineChar
  else if c = 'r' then crChar
  else if c = 't' then tabChar
  else if c = backslashChar then backslashChar
  else if c = quoteChar then quoteChar
  else if c = apostropheChar then apostropheChar
  else c

/-- The closing-quote branch of `scan_string`'s loop: after consuming the
closing quote, compute the decoded text (the accumulated `clean_string`
buffer if an escape occurred, otherwise the raw text with the two quotes
trimmed), finish the token as a String and overwrite its text. -/
def string_close (s1 : Scanner) (clean_string : Option (List Char)) : ScanOutcome :=
  match clean_string with
  | some cs =>
      match finish_token s1 TokenKind.String with
      | .ok s2 => .ok { s2 with token := { s2.token with text := cs } }
      | other => other
  | none =>
      match current_text s1 with
      | none => .panicked s1
      | some ct =>
          match byteSlice ct 1 (byteLen ct - 1) with
          | none => .panicked s1
          | some txt =>
              match finish_token s1 TokenKind.String with
              | .ok s2 => .ok { s2 with token := { s2.token with text := txt } }
              | other => other

/-- The buffer materialized when an escape sequence is processed
(`clean_string.take()` in the Rust): the existing buffer if one exists,
otherwise the text scanned so far with the opening quote and the pending
backslash trimmed; `none` models the slicing panics. -/
def escape_buffer (s1 : Scanner) (clean_string : Option (List Char)) :
    Option (List Char) :=
  match clean_string with
  | some str => some str
  | none =>
      match current_text s1 with
      | none => none
      | some ct =>
          match byteSlice ct 1 (byteLen ct - 1) with
          | none => none
          | some str => some str

/-- The `while let` loop of `scan_string`, with the `clean_string` buffer as
an explicit parameter.  `clean_string` stays `none` until the first escape
sequence. -/
def string_loop (s : Scanner) (clean_string : Option (List Char)) : ScanOutcome :=
  match h : s.current_char with
  | some ch =>
      if ch = quoteChar then string_close (scan_char s) clean_string
      else if ch = backslashChar then
        match h2 : (scan_char s).current_char with
        | some c =>
            if is_escape_char c then
              match escape_buffer (scan_char s) clean_string with
              | none => .panicked (scan_char s)
              | some str =>
                  string_loop (scan_char (scan_char s))
                    (some (str ++ [escape_result c]))
            else .err (scan_char s)
              (.UnexpectedCharacterInEscapeSequence (scan_char s).position c)
        | none => .err (scan_char s)
            (.UnexpectedEndOfInputInEscapeSequence (scan_char s).position)
      else
        string_loop (scan_char s)
          (match clean_string with
           | some str => some (str ++ [ch])
           | none => none)
  | none => .err s (.UnexpectedEndOfInputInString s.position s.token.start)
termination_by M s
decreasing_by
  · have h1 : M (scan_char s) < M s := M_scan_char_lt s (by simp [h])
    have h3 : M (scan_char (scan_char s)) ≤ M (scan_char s) := M_scan_char_le _
    omega
  · exact M_scan_char_lt s (by simp [h])

theorem string_loop_none (s : Scanner) (clean : Option (List Char))
    (hc : s.current_char = none) :
    string_loop s clean =
      .err s (.UnexpectedEndOfInputInString s.position s.token.start) := by
  rw [string_loop]
  split <;> simp_all

theorem string_loop_quote (s : Scanner) (clean : Option (List Char))
    (hc : s.current_char = some quoteChar) :
    string_loop s clean = string_close (scan_char s) clean := by
  rw [string_loop]
  split
  · rename_i ch heq
    rw [hc] at heq
    injection heq with heq2
    subst heq2
    rw [if_pos rfl]
  · rename_i heq
    rw [hc] at heq
    cases heq

theorem string_loop_backslash_escape (s : Scanner) (clean : Option (List Char))
    (c : Char) (hc : s.current_char = some backslashChar)
    (h2 : (scan_char s).current_char = some c) (hesc : is_escape_char c) :
    string_loop s clean =
      match escape_buffer (scan_char s) clean with
      | none => .panicked (scan_char s)
      | some str =>
          string_loop (scan_char (scan_char s))
            (some (str ++ [escape_result c])) := by
  rw [string_loop]
  split
  · rename_i ch heq
    rw [hc] at heq
    injection heq with heq2
    subst heq2
    rw [if_neg (by decide), if_pos rfl]
    split
    · rename_i c2 heq3
      rw [h2] at heq3
      injection heq3 with heq4
      subst heq4
      rw [if_pos hesc]
    · rename_i heq3
      rw [h2] at heq3
      cases heq3
  · rename_i heq
    rw [hc] at heq
    cases heq

theorem string_loop_backslash_bad (s : Scanner) (clean : Option (List Char))
    (c : Char) (hc : s.current_char = some backslashChar)
    (h2 : (scan_char s).current_char = some c) (hesc : ¬ is_escape_char c) :
    string_loop s clean =
      .err (scan_char s)
        (.UnexpectedCharacterInEscapeSequence (scan_char s).position c) := by
  rw [string_loop]
  split
  · rename_i ch heq
    rw [hc] at heq
    injection heq with heq2
    subst heq2
    rw [if_neg (by decide), if_pos rfl]
    split
    · rename_i c2 heq3
      rw [h2] at heq3
      injection heq3 with heq4
      subst heq4
      rw [if_neg hesc]
    · rename_i heq3
      rw [h2] at heq3
      cases heq3
  · rename_i heq
    rw [hc] at heq
    cases heq

theorem string_loop_backslash_eoi (s : Scanner) (clean : Option (List Char))
    (hc : s.current_char = some backslashChar)
    (h2 : (scan_char s).current_char = none) :
    string_loop s clean =
      .err (scan_char s)
        (.UnexpectedEndOfInputInEscapeSequence (scan_char s).position) := by
  rw [string_loop]
  split
  · rename_i ch heq
    rw [hc] at heq
    injection heq with heq2
    subst heq2
    rw [if_neg (by decide), if_pos rfl]
    split
    · rename_i c2 heq3
      rw [h2] at heq3
      cases heq3
    · rfl
  · rename_i heq
    rw [hc] at heq
    cases heq

theorem string_loop_other (s : Scanner) (clean : Option (List Char)) (ch : Char)
    (hc : s.current_char = some ch) (hq : ch ≠ quoteChar)
    (hb : ch ≠ backslashChar) :
    string_loop s clean =
      string_loop (scan_char s)
        (match clean with
         | some str => some (str ++ [ch])
         | none => none) := by
  rw [string_loop]
  split
  · rename_i ch2 heq
    rw [hc] at heq
    injection heq with heq2
    subst heq2
    rw [if_neg hq, if_neg hb]
  · rename_i heq
    rw [hc] at heq
    cases heq

/-- Scan a string literal (`Scanner::scan_string`): consume the opening
quote and run the loop with an empty `clean_string`. -/
def scan_string (s : Scanner) : ScanOutcome :=
  string_loop (scan_char s) none

/-- The assignment `self.token.start = self.position` at the top of the
`scan` loop. -/
def set_token_start (s : Scanner) : Scanner :=
  { s with token := { s.token with start := s.position } }

theorem M_set_token_start (s : Scanner) : M (set_token_start s) = M s := rfl

/-- Advance the scanner to the next token, skipping whitespace and comments
(`Scanner::scan`).  The Rust `loop` re-enters the skip phase after each line
comment; this is modelled by the recursive call. -/
def scan (s : Scanner) : ScanOutcome :=
  match h : (set_token_start (skip_whitespace s)).current_char with
  | some ch =>
      if ch = '/' then
        match (scan_char (set_token_start (skip_whitespace s))).current_char with
        | some c2 =>
            if c2 = '/' then
              scan (skip_line_comment (scan_char (set_token_start (skip_whitespace s))))
            else
              finish_token (scan_char (set_token_start (skip_whitespace s)))
                (TokenKind.Symbol Symbol.Slash)
        | none =>
            finish_token (scan_char (set_token_start (skip_whitespace s)))
              (TokenKind.Symbol Symbol.Slash)
      else if is_ident_start ch then
        scan_identifier_or_keyword (set_token_start (skip_whitespace s))
      else if is_digit_char ch then
        scan_number (set_token_start (skip_whitespace s))
      else if ch = ':' then
        maybe_double_symbol (set_token_start (skip_whitespace s)) ':'
          Symbol.Colon Symbol.DoubleColon
      else if ch = '=' then
        maybe_double_symbol (set_token_start (skip_whitespace s)) '='
          Symbol.Eq Symbol.EqEq
      else if ch = ';' then
        single_symbol (set_token_start (skip_whitespace s)) Symbol.Semicolon
      else if ch = ',' then
        single_symbol (set_token_start (skip_whitespace s)) Symbol.Comma
      else if ch = '.' then
        single_symbol (set_token_start (skip_whitespace s)) Symbol.Dot
      else if ch = '+' then
        single_symbol (set_token_start (skip_whitespace s)) Symbol.Plus
      else if ch = '*' then
        single_symbol (set_token_start (skip_whitespace s)) Symbol.Star
      else if ch = '-' then
        maybe_double_symbol (set_token_start (skip_whitespace s)) '>'
          Symbol.Minus Symbol.Arrow
      else if ch = backslashChar then
        single_symbol (set_token_start (skip_whitespace s)) Symbol.Backslash
      else if ch = quoteChar then
        scan_string (set_token_start (skip_whitespace s))
      else
        .err (set_token_start (skip_whitespace s))
          (.UnexpectedCharacter (set_token_start (skip_whitespace s)).position ch)
  | none => finish_token (set_token_start (skip_whitespace s)) TokenKind.Eof
termination_by M s
decreasing_by
  have h1 : M (set_token_start (skip_whitespace s)) ≤ M s := by
    rw [M_set_token_start]
    exact M_skip_whitespace_le s
  have h2 : M (scan_char (set_token_start (skip_whitespace s))) <
      M (set_token_start (skip_whitespace s)) :=
    M_scan_char_lt _ (by simp [h])
  have h3 := M_skip_line_comment_le (scan_char (set_token_start (skip_whitespace s)))
  omega

theorem scan_eq (s : Scanner) : scan s =
    match (set_token_start (skip_whitespace s)).current_char with
    | some ch =>
        if ch = '/' then
          match (scan_char (set_token_start (skip_whitespace s))).current_char with
          | some c2 =>
              if c2 = '/' then
                scan (skip_line_comment (scan_char (set_token_start (skip_whitespace s))))
              else
                finish_token (scan_char (set_token_start (skip_whitespace s)))
                  (TokenKind.Symbol Symbol.Slash)
          | none =>
              finish_token (scan_char (set_token_start (skip_whitespace s)))
                (TokenKind.Symbol Symbol.Slash)
        else if is_ident_start ch then
          scan_identifier_or_keyword (set_token_start (skip_whitespace s))
        else if is_digit_char ch then
          scan_number (set_token_start (skip_whitespace s))
        else if ch = ':' then
          maybe_double_symbol (set_token_start (skip_whitespace s)) ':'
            Symbol.Colon Symbol.DoubleColon
        else if ch = '=' then
          maybe_double_symbol (set_token_start (skip_whitespace s)) '='
            Symbol.Eq Symbol.EqEq
        else if ch = ';' then
          single_symbol (set_token_start (skip_whitespace s)) Symbol.Semicolon
        else if ch = ',' then
          single_symbol (set_token_start (skip_whitespace s)) Symbol.Comma
        else if ch = '.' then
          single_symbol (set_token_start (skip_whitespace s)) Symbol.Dot
        else if ch = '+' then
          single_symbol (set_token_start (skip_whitespace s)) Symbol.Plus
        else if ch = '*' then
          single_symbol (set_token_start (skip_whitespace s)) Symbol.Star
        else if ch = '-' then
          maybe_double_symbol (set_token_start (skip_whitespace s)) '>'
            Symbol.Minus Symbol.Arrow
        else if ch = backslashChar then
          single_symbol (set_token_start (skip_whitespace s)) Symbol.Backslash
        else if ch = quoteChar then
          scan_string (set_token_start (skip_whitespace s))
        else
          .err (set_token_start (skip_whitespace s))
            (.UnexpectedCharacter (set_token_start (skip_whitespace s)).position ch)
    | none => finish_token (set_token_start (skip_whitespace s)) TokenKind.Eof := by
  rw [scan]
  split <;> simp [*]

theorem scan_colon_eq (s : Scanner)
    (hcc : (set_token_start (skip_whitespace s)).current_char = some ':') :
    scan s = maybe_double_symbol (set_token_start (skip_whitespace s)) ':'
        Symbol.Colon Symbol.DoubleColon := by
  rw [scan_eq, hcc]
  dsimp only
  rw [if_neg (by decide), if_neg (by decide), if_neg (by decide), if_pos rfl]

theorem scan_equals_eq (s : Scanner)
    (hcc : (set_token_start (skip_whitespace s)).current_char = some '=') :
    scan s = maybe_double_symbol (set_token_start (skip_whitespace s)) '='
        Symbol.Eq Symbol.EqEq := by
  rw [scan_eq, hcc]
  dsimp only
  rw [if_neg (by decide), if_neg (by decide), if_neg (by decide), if_neg (by decide), if_pos rfl]

theorem scan_semicolon_eq (s : Scanner)
    (hcc : (set_token_start (skip_whitespace s)).current_char = some ';') :
    scan s = single_symbol (set_token_start (skip_whitespace s)) Symbol.Semicolon := by
  rw [scan_eq, hcc]
  dsimp only
  rw [if_neg (by decide), if_neg (by decide), if_neg (by decide), if_neg (by decide), if_neg (by decide), if_pos rfl]

theorem scan_comma_eq (s : Scanner)
    (hcc : (set_token_start (skip_whitespace s)).current_char = some ',') :
    scan s = single_symbol (set_token_start (skip_whitespace s)) Symbol.Comma := by
  rw [scan_eq, hcc]
  dsimp only
  rw [if_neg (by decide), if_neg (by decide), if_neg (by decide), if_neg (by decide), if_neg (by decide), if_neg (by decide), if_pos rfl]

theorem scan_dot_eq (s : Scanner)
    (hcc : (set_token_start (skip_whitespace s)).current_char = some '.') :
    scan s = single_symbol (set_token_start (skip_whitespace s)) Symbol.Dot := by
  rw [scan_eq, hcc]
  dsimp only
  rw [if_neg (by decide), if_neg (by decide), if_neg (by decide), if_neg (by decide), if_neg (by decide), if_neg (by decide), if_neg (by decide), if_pos rfl]

theorem scan_plus_eq (s : Scanner)
    (hcc : (set_token_start (skip_whitespace s)).current_char = some '+') :
    scan s = single_symbol (set_token_start (skip_whitespace s)) Symbol.Plus := by
  rw [scan_eq, hcc]
  dsimp only
  rw [if_neg (by decide), if_neg (by decide), if_neg (by decide), if_neg (by decide), if_neg (by decide), if_neg (by decide), if_neg (by decide), if_neg (by decide), if_pos rfl]

theorem scan_star_eq (s : Scanner)
    (hcc : (set_token_start (skip_whitespace s)).current_char = some '*') :
    scan s = single_symbol (set_token_start (skip_whitespace s)) Symbol.Star := by
  rw [scan_eq, hcc]
  dsimp only
  rw [if_neg (by decide), if_neg (by decide), if_neg (by decide), if_neg (by decide), if_neg (by decide), if_neg (by decide), if_neg (by decide), if_neg (by decide), if_neg (by decide), if_pos rfl]

theorem scan_minus_eq (s : Scanner)
    (hcc : (set_token_start (skip_whitespace s)).current_char = some '-') :
    scan s = maybe_double_symbol (set_token_start (skip_whitespace s)) '>'
        Symbol.Minus Symbol.Arrow := by
  rw [scan_eq, hcc]
  dsimp only
  rw [if_neg (by decide), if_neg (by decide), if_neg (by decide), if_neg (by decide), if_neg (by decide), if_neg (by decide), if_neg (by decide), if_neg (by decide), if_neg (by decide), if_neg (by decide), if_pos rfl]

theorem scan_backslash_eq (s : Scanner)
    (hcc : (set_token_start (skip_whitespace s)).current_char = some backslashChar) :
    scan s = single_symbol (set_token_start (skip_whitespace s)) Symbol.Backslash := by
  rw [scan_eq, hcc]
  dsimp only
  rw [if_neg (by decide), if_neg (by decide), if_neg (by decide), if_neg (by decide), if_neg (by decide), if_neg (by decide), if_neg (by decide), if_neg (by decide), if_neg (by decide), if_neg (by decide), if_neg (by decide), if_pos rfl]

theorem scan_quote_eq (s : Scanner)
    (hcc : (set_token_start (skip_whitespace s)).current_char = some quoteChar) :
    scan s = scan_string (set_token_start (skip_whitespace s)) := by
  rw [scan_eq, hcc]
  dsimp only
  rw [if_neg (by decide), if_neg (by decide), if_neg (by decide), if_neg (by decide), if_neg (by decide), if_neg (by decide), if_neg (by decide), if_neg (by decide), if_neg (by decide), if_neg (by decide), if_neg (by decide), if_neg (by decide), if_pos rfl]

theorem scan_eof_eq (s : Scanner)
    (hcc : (set_token_start (skip_whitespace s)).current_char = none) :
    scan s = finish_token (set_token_start (skip_whitespace s)) TokenKind.Eof := by
  rw [scan_eq, hcc]

theorem scan_comment_eq (s : Scanner)
    (hcc : (set_token_start (skip_whitespace s)).current_char = some '/')
    (hcc2 : (scan_char (set_token_start (skip_whitespace s))).current_char = some '/') :
    scan s = scan (skip_line_comment (scan_char (set_token_start (skip_whitespace s)))) := by
  rw [scan_eq, hcc]
  dsimp only
  rw [if_pos rfl, hcc2]
  dsimp only
  rw [if_pos rfl]

theorem scan_slash_some_eq (s : Scanner) (c2 : Char)
    (hcc : (set_token_start (skip_whitespace s)).current_char = some '/')
    (hcc2 : (scan_char (set_token_start (skip_whitespace s))).current_char = some c2) (hne : c2 ≠ '/') :
    scan s = finish_token (scan_char (set_token_start (skip_whitespace s)))
      (TokenKind.Symbol Symbol.Slash) := by
  rw [scan_eq, hcc]
  dsimp only
  rw [if_pos rfl, hcc2]
  dsimp only
  rw [if_neg hne]

theorem scan_slash_none_eq (s : Scanner)
    (hcc : (set_token_start (skip_whitespace s)).current_char = some '/')
    (hcc2 : (scan_char (set_token_start (skip_whitespace s))).current_char = none) :
    scan s = finish_token (scan_char (set_token_start (skip_whitespace s)))
      (TokenKind.Symbol Symbol.Slash) := by
  rw [scan_eq, hcc]
  dsimp only
  rw [if_pos rfl, hcc2]

theorem scan_ident_eq (s : Scanner) (ch : Char)
    (hcc : (set_token_start (skip_whitespace s)).current_char = some ch)
    (hst : is_ident_start ch) :
    scan s = scan_identifier_or_keyword (set_token_start (skip_whitespace s)) := by
  have h1 : ch ≠ '/' := by
    intro h
    rw [h] at hst
    exact absurd hst (by decide)
  rw [scan_eq, hcc]
  dsimp only
  rw [if_neg h1, if_pos hst]

theorem scan_digit_eq (s : Scanner) (ch : Char)
    (hcc : (set_token_start (skip_whitespace s)).current_char = some ch)
    (hd : is_digit_char ch) :
    scan s = scan_number (set_token_start (skip_whitespace s)) := by
  have h1 : ch ≠ '/' := by
    intro h
    rw [h] at hd
    exact absurd hd (by decide)
  have h2 : ¬ is_ident_start ch := by
    simp only [is_digit_char, decide_eq_true_eq] at hd
    simp only [is_ident_start, decide_eq_true_eq]
    omega
  rw [scan_eq, hcc]
  dsimp only
  rw [if_neg h1, if_neg h2, if_pos hd]

theorem scan_unexpected_eq (s : Scanner) (ch : Char)
    (hcc : (set_token_start (skip_whitespace s)).current_char = some ch)
    (h1 : ch ≠ '/') (h2 : ¬ is_ident_start ch) (h3 : ¬ is_digit_char ch)
    (h4 : ch ≠ ':') (h5 : ch ≠ '=') (h6 : ch ≠ ';') (h7 : ch ≠ ',')
    (h8 : ch ≠ '.') (h9 : ch ≠ '+') (h10 : ch ≠ '*') (h11 : ch ≠ '-')
    (h12 : ch ≠ backslashChar) (h13 : ch ≠ quoteChar) :
    scan s = .err (set_token_start (skip_whitespace s))
      (.UnexpectedCharacter (set_token_start (skip_whitespace s)).position ch) := by
  rw [scan_eq, hcc]
  dsimp only
  rw [if_neg h1, if_neg h2, if_neg h3, if_neg h4, if_neg h5, if_neg h6,
    if_neg h7, if_neg h8, if_neg h9, if_neg h10, if_neg h11, if_neg h12,
    if_neg h13]

/-- Create a new scanner over the given input (`Scanner::new`): build the
initial state, load the first character, and scan the first token. -/
def new (input : List Char) : ScanOutcome :=
  let s : Scanner :=
    { input := input, chars := charIndices input, last_char := none,
      current_char := none, position := 0, token := Token.new TokenKind.Eof }
  scan (scan_char s)

end Scanner

/-- Result of driving the scanner to completion, mirroring the `run` helper
in the scanner's test module. -/
inductive RunResult where
  | ok (tokens : List Token)
  | scanError (e : ScanError)
  | panicked
  | outOfFuel
deriving DecidableEq, Repr

def runAux : Nat → Scanner → List Token → RunResult
  | 0, _, _ => .outOfFuel
  | fuel + 1, s, acc =>
      if s.token.kind = TokenKind.Eof then .ok (acc ++ [s.token])
      else
        match Scanner.scan s with
        | .ok s2 => runAux fuel s2 (acc ++ [s.token])
        | .err _ e => .scanError e
        | .panicked _ => .panicked

/-- Collect all tokens of an input, like the test helper `run`. -/
def run (fuel : Nat) (input : List Char) : RunResult :=
  match Scanner.new input with
  | .ok s => runAux fuel s []
  | .err _ e => .scanError e
  | .panicked _ => .panicked


/-! Infrastructure: facts about byte offsets, `charIndices`, boundaries and
`byteSlice`. -/

theorem byteLen_append (xs ys : List Char) :
    byteLen (xs ++ ys) = byteLen xs + byteLen ys := by
  induction xs with
  | nil => simp [byteLen]
  | cons c cs ih => simp [byteLen, ih]; omega

theorem charIndicesFrom_append (ofs : Nat) (xs ys : List Char) :
    charIndicesFrom ofs (xs ++ ys) =
      charIndicesFrom ofs xs ++ charIndicesFrom (ofs + byteLen xs) ys := by
  induction xs generalizing ofs with
  | nil => simp [charIndicesFrom, byteLen]
  | cons c cs ih =>
      simp [charIndicesFrom, byteLen, ih, Nat.add_assoc]

theorem charIndicesFrom_map_snd (ofs : Nat) (cs : List Char) :
    (charIndicesFrom ofs cs).map Prod.snd = cs := by
  induction cs generalizing ofs with
  | nil => rfl
  | cons c cs ih => simp [charIndicesFrom, ih]

theorem mem_charIndicesFrom_bounds (ofs : Nat) (cs : List Char) :
    ∀ x ∈ charIndicesFrom ofs cs, ofs ≤ x.1 ∧ x.1 + x.2.utf8Size ≤ ofs + byteLen cs := by
  induction cs generalizing ofs with
  | nil => intro x hx; cases hx
  | cons c cs ih =>
      intro x hx
      simp only [charIndicesFrom, List.mem_cons] at hx
      rcases hx with rfl | hx
      · refine ⟨le_refl _, ?_⟩
        simp only [byteLen]
        have := c.utf8Size_pos
        omega
      · have h2 := ih (ofs + c.utf8Size) x hx
        simp only [byteLen]
        omega

theorem charIndicesFrom_decomp (cs : List Char) (ofs : Nat)
    (l1 l2 : List (Nat × Char)) (h : charIndicesFrom ofs cs = l1 ++ l2) :
    ∃ xs ys, cs = xs ++ ys ∧ l1 = charIndicesFrom ofs xs ∧
      l2 = charIndicesFrom (ofs + byteLen xs) ys := by
  induction cs generalizing ofs l1 with
  | nil =>
      simp only [charIndicesFrom] at h
      have h1 : l1 = [] := by
        cases l1 with
        | nil => rfl
        | cons a t => simp at h
      subst h1
      refine ⟨[], [], rfl, rfl, ?_⟩
      simpa [charIndicesFrom] using h.symm
  | cons c cs ih =>
      cases l1 with
      | nil =>
          exact ⟨[], c :: cs, rfl, rfl, by simpa [byteLen] using h.symm⟩
      | cons a l1' =>
          simp only [charIndicesFrom, List.cons_append, List.cons.injEq] at h
          obtain ⟨rfl, h2⟩ := h
          obtain ⟨xs, ys, rfl, hl1, hl2⟩ := ih (ofs + c.utf8Size) l1' h2
          refine ⟨c :: xs, ys, rfl, ?_, ?_⟩
          · simp [charIndicesFrom, hl1]
          · rw [hl2]
            congr 1
            simp [byteLen]
            omega

theorem charIndicesFrom_cons_eq (ofs : Nat) (ys : List Char) (p : Nat) (c : Char)
    (l : List (Nat × Char)) (h : charIndicesFrom ofs ys = (p, c) :: l) :
    p = ofs ∧ ∃ ys', ys = c :: ys' ∧ l = charIndicesFrom (ofs + c.utf8Size) ys' := by
  cases ys with
  | nil => simp [charIndicesFrom] at h
  | cons d ys' =>
      simp only [charIndicesFrom, List.cons.injEq, Prod.mk.injEq] at h
      obtain ⟨⟨rfl, rfl⟩, rfl⟩ := h
      exact ⟨rfl, ys', rfl, rfl⟩

theorem charIndices_consecutive (input : List Char) (pre rest : List (Nat × Char))
    (p q : Nat) (c d : Char)
    (h : charIndices input = pre ++ (p, c) :: (q, d) :: rest) :
    q = p + c.utf8Size := by
  obtain ⟨xs, ys, hcs, hl1, hl2⟩ :=
    charIndicesFrom_decomp input 0 pre ((p, c) :: (q, d) :: rest) h
  obtain ⟨rfl, ys', rfl, hl3⟩ := charIndicesFrom_cons_eq _ _ _ _ _ hl2.symm
  obtain ⟨rfl, ys'', rfl, _⟩ := charIndicesFrom_cons_eq _ _ _ _ _ hl3.symm
  omega

theorem charIndices_head_ge (input : List Char) (pre rest : List (Nat × Char))
    (p : Nat) (c : Char) (h : charIndices input = pre ++ (p, c) :: rest) :
    ∀ x ∈ pre, x.1 + x.2.utf8Size ≤ p := by
  obtain ⟨xs, ys, hcs, hl1, hl2⟩ := charIndicesFrom_decomp input 0 pre ((p, c) :: rest) h
  obtain ⟨rfl, ys', rfl, _⟩ := charIndicesFrom_cons_eq _ _ _ _ _ hl2.symm
  intro x hx
  rw [hl1] at hx
  have := mem_charIndicesFrom_bounds 0 xs x hx
  omega

theorem charIndices_tail_ge (input : List Char) (pre rest : List (Nat × Char))
    (p : Nat) (c : Char) (h : charIndices input = pre ++ (p, c) :: rest) :
    ∀ x ∈ rest, p + c.utf8Size ≤ x.1 := by
  obtain ⟨xs, ys, hcs, hl1, hl2⟩ := charIndicesFrom_decomp input 0 pre ((p, c) :: rest) h
  obtain ⟨hp, ys', rfl, hl3⟩ := charIndicesFrom_cons_eq _ _ _ _ _ hl2.symm
  intro x hx
  rw [hl3] at hx
  have := mem_charIndicesFrom_bounds (0 + byteLen xs + c.utf8Size) ys' x hx
  omega

theorem mem_charIndices_bound (input : List Char) (p : Nat) (c : Char)
    (h : (p, c) ∈ charIndices input) : p + c.utf8Size ≤ byteLen input := by
  have h2 := mem_charIndicesFrom_bounds 0 input (p, c) h
  simp only [] at h2
  omega

theorem isBoundary_offset (input : List Char) (p : Nat) (c : Char)
    (h : (p, c) ∈ charIndices input) : isBoundary input p := by
  unfold isBoundary
  simp only [Bool.or_eq_true, List.any_eq_true, decide_eq_true_eq]
  exact Or.inr ⟨(p, c), h, rfl⟩

theorem isBoundary_byteLen (input : List Char) : isBoundary input (byteLen input) := by
  unfold isBoundary
  simp

theorem isBoundary_cases (input : List Char) (i : Nat) (h : isBoundary input i) :
    i = byteLen input ∨ ∃ c, (i, c) ∈ charIndices input := by
  unfold isBoundary at h
  simp only [Bool.or_eq_true, List.any_eq_true, decide_eq_true_eq] at h
  rcases h with h | ⟨⟨p, c⟩, hm, hp⟩
  · exact Or.inl h
  · have hp2 : p = i := by simpa using hp
    subst hp2
    exact Or.inr ⟨c, hm⟩

theorem byteSlice_some (input : List Char) (a b : Nat) (raw : List Char)
    (h : byteSlice input a b = some raw) :
    a ≤ b ∧ b ≤ byteLen input ∧ isBoundary input a ∧ isBoundary input b := by
  unfold byteSlice at h
  split at h
  · assumption
  · cases h

theorem byteSlice_eq (input : List Char) (a b : Nat) (raw : List Char)
    (h : byteSlice input a b = some raw) :
    raw = ((charIndices input).filter (fun p => decide (a ≤ p.1 ∧ p.1 < b))).map Prod.snd := by
  unfold byteSlice at h
  split at h
  · exact (Option.some.injEq _ _ ▸ h).symm
  · cases h

theorem mem_byteSlice (input : List Char) (a b : Nat) (raw : List Char)
    (p : Nat) (c : Char) (h : byteSlice input a b = some raw)
    (hm : (p, c) ∈ charIndices input) (h1 : a ≤ p) (h2 : p < b) : c ∈ raw := by
  rw [byteSlice_eq input a b raw h]
  simp only [List.mem_map, List.mem_filter, decide_eq_true_eq]
  exact ⟨(p, c), ⟨hm, ⟨h1, h2⟩⟩, rfl⟩

theorem byteSlice_decomp (input : List Char) (pre mid rest : List (Nat × Char))
    (a b : Nat) (hidx : charIndices input = pre ++ mid ++ rest)
    (hpre : ∀ x ∈ pre, x.1 < a)
    (hmid : ∀ x ∈ mid, a ≤ x.1 ∧ x.1 < b)
    (hrest : ∀ x ∈ rest, b ≤ x.1)
    (hab : a ≤ b) (hblen : b ≤ byteLen input)
    (hba : isBoundary input a) (hbb : isBoundary input b) :
    byteSlice input a b = some (mid.map Prod.snd) := by
  unfold byteSlice
  rw [if_pos ⟨hab, hblen, hba, hbb⟩]
  congr 1
  rw [hidx]
  rw [List.filter_append, List.filter_append]
  have h1 : pre.filter (fun p => decide (a ≤ p.1 ∧ p.1 < b)) = [] := by
    apply List.filter_eq_nil.mpr
    intro x hx
    have := hpre x hx
    simp only [decide_eq_true_eq]
    omega
  have h2 : mid.filter (fun p => decide (a ≤ p.1 ∧ p.1 < b)) = mid := by
    apply List.filter_eq_self.mpr
    intro x hx
    have := hmid x hx
    simp only [decide_eq_true_eq]
    omega
  have h3 : rest.filter (fun p => decide (a ≤ p.1 ∧ p.1 < b)) = [] := by
    apply List.filter_eq_nil.mpr
    intro x hx
    have := hrest x hx
    simp only [decide_eq_true_eq]
    omega
  rw [h1, h2, h3]
  simp

theorem eofPosition_append_last (init : List Char) (c : Char) :
    eofPosition (init ++ [c]) =
      byteLen init + (match init.getLast? with | some d => d.utf8Size | none => 1) := by
  unfold eofPosition
  rw [List.reverse_append]
  cases hr : init.reverse with
  | nil =>
      have h0 : init = [] := by simpa using congrArg List.reverse hr
      subst h0
      simp [byteLen]
  | cons d t =>
      have hlast : init.getLast? = some d := by
        rw [← List.head?_reverse, hr]
        rfl
      simp only [List.reverse_cons, List.reverse_nil, List.nil_append,
        List.singleton_append, hlast]
      rw [byteLen_append]
      simp only [byteLen]
      omega


/-! Scanner state invariant: the cursor fields describe an actual position
inside `charIndices input`.  Established by the first `scan_char` performed
by `Scanner::new` and preserved by every cursor move the scanner makes. -/

theorem charIndicesFrom_eq_nil (ofs : Nat) (ys : List Char)
    (h : charIndicesFrom ofs ys = []) : ys = [] := by
  cases ys with
  | nil => rfl
  | cons c t => simp [charIndicesFrom] at h

namespace Scanner

/-- Coherence of a scanner state: either the current character sits at
`position` inside `charIndices input` with `chars` the remaining iterator
and `last_char` the codepoint just before it, or the iterator is exhausted
and `position` is the value computed by `scan_char`'s end-of-iterator
branch. -/
def Coherent (s : Scanner) : Prop :=
  (∃ c pre, s.current_char = some c ∧
      charIndices s.input = pre ++ (s.position, c) :: s.chars ∧
      s.last_char = (pre.map Prod.snd).getLast?) ∨
  (s.current_char = none ∧ s.chars = [] ∧ s.position = eofPosition s.input)

theorem scan_char_input (s : Scanner) : (scan_char s).input = s.input := by
  unfold scan_char
  cases s.chars with
  | nil => rfl
  | cons a t => cases a; rfl

theorem scan_char_token (s : Scanner) : (scan_char s).token = s.token := by
  unfold scan_char
  cases s.chars with
  | nil => rfl
  | cons a t => cases a; rfl

theorem skip_whitespace_input (s : Scanner) :
    (skip_whitespace s).input = s.input := by
  induction s using skip_whitespace.induct with
  | case1 s ch h hws ih =>
      rw [skip_whitespace_eq, h]
      simp only [hws, if_true]
      rw [ih, scan_char_input]
  | case2 s ch h hws => rw [skip_whitespace_eq, h]; simp [hws]
  | case3 s h => rw [skip_whitespace_eq, h]

theorem skip_whitespace_token (s : Scanner) :
    (skip_whitespace s).token = s.token := by
  induction s using skip_whitespace.induct with
  | case1 s ch h hws ih =>
      rw [skip_whitespace_eq, h]
      simp only [hws, if_true]
      rw [ih, scan_char_token]
  | case2 s ch h hws => rw [skip_whitespace_eq, h]; simp [hws]
  | case3 s h => rw [skip_whitespace_eq, h]

theorem skip_line_comment_input (s : Scanner) :
    (skip_line_comment s).input = s.input := by
  induction s using skip_line_comment.induct with
  | case1 s h => rw [skip_line_comment_eq, h]; simp [scan_char_input]
  | case2 s ch h hnl ih =>
      rw [skip_line_comment_eq, h]
      simp only [hnl, if_false]
      rw [ih, scan_char_input]
  | case3 s h => rw [skip_line_comment_eq, h]

theorem skip_line_comment_token (s : Scanner) :
    (skip_line_comment s).token = s.token := by
  induction s using skip_line_comment.induct with
  | case1 s h => rw [skip_line_comment_eq, h]; simp [scan_char_token]
  | case2 s ch h hnl ih =>
      rw [skip_line_comment_eq, h]
      simp only [hnl, if_false]
      rw [ih, scan_char_token]
  | case3 s h => rw [skip_line_comment_eq, h]

theorem set_token_start_fields (s : Scanner) :
    (set_token_start s).input = s.input ∧ (set_token_start s).chars = s.chars ∧
    (set_token_start s).last_char = s.last_char ∧
    (set_token_start s).current_char = s.current_char ∧
    (set_token_start s).position = s.position ∧
    (set_token_start s).token.start = s.position := by
  exact ⟨rfl, rfl, rfl, rfl, rfl, rfl⟩

/-- Coherence only depends on the cursor fields, not on the token. -/
theorem coherent_congr (s s' : Scanner) (h1 : s'.input = s.input)
    (h2 : s'.chars = s.chars) (h3 : s'.last_char = s.last_char)
    (h4 : s'.current_char = s.current_char) (h5 : s'.position = s.position)
    (hs : Coherent s) : Coherent s' := by
  unfold Coherent at hs ⊢
  rw [h1, h2, h3, h4, h5]
  exact hs

theorem coherent_set_token_start (s : Scanner) (hs : Coherent s) :
    Coherent (set_token_start s) :=
  coherent_congr s _ rfl rfl rfl rfl rfl hs

theorem scan_char_cons (s : Scanner) (p : Nat) (c : Char) (t : List (Nat × Char))
    (h : s.chars = (p, c) :: t) :
    scan_char s =
      { s with
        chars := t
        last_char := s.current_char
        current_char := some c
        position := p } := by
  unfold scan_char
  rw [h]

theorem scan_char_nil (s : Scanner) (h : s.chars = []) :
    scan_char s = { s with
      position := s.position +
        (match s.last_char with | some c => c.utf8Size | none => 1),
      current_char := none } := by
  unfold scan_char
  rw [h]

theorem coherent_scan_char (s : Scanner) (hs : Coherent s)
    (hc : s.current_char.isSome) : Coherent (scan_char s) := by
  rcases hs with ⟨c, pre, hcur, hidx, hlast⟩ | ⟨hcur, hchars, hpos⟩
  · cases hchars : s.chars with
    | cons a t =>
        obtain ⟨p2, c2⟩ := a
        rw [scan_char_cons s p2 c2 t hchars]
        left
        refine ⟨c2, pre ++ [(s.position, c)], rfl, ?_, ?_⟩
        · show charIndices s.input = _
          rw [hidx, hchars]
          simp
        · show s.current_char = _
          rw [hcur]
          simp
    | nil =>
        rw [scan_char_nil s hchars]
        right
        rw [hchars] at hidx
        obtain ⟨xs, ys, hcs, hl1, hl2⟩ :=
          charIndicesFrom_decomp s.input 0 pre [(s.position, c)] hidx
        obtain ⟨hp, ys', hys, hl3⟩ := charIndicesFrom_cons_eq _ _ _ _ _ hl2.symm
        have hys2 : ys' = [] := charIndicesFrom_eq_nil _ _ hl3.symm
        subst hys2
        subst hys
        refine ⟨rfl, hchars, ?_⟩
        show s.position + _ = eofPosition s.input
        rw [hcs, eofPosition_append_last xs c, hlast, hl1, charIndicesFrom_map_snd]
        cases hgl : xs.getLast? <;> simp [hgl] <;> omega
  · rw [hcur] at hc
    simp at hc

theorem coherent_init (input : List Char) :
    Coherent (scan_char
      { input := input, chars := charIndices input, last_char := none,
        current_char := none, position := 0, token := Token.new TokenKind.Eof }) := by
  cases input with
  | nil =>
      right
      exact ⟨rfl, rfl, rfl⟩
  | cons c cs =>
      left
      exact ⟨c, [], rfl, rfl, rfl⟩

theorem position_le_scan_char (s : Scanner) (hs : Coherent s) :
    s.position ≤ (scan_char s).position := by
  cases hchars : s.chars with
  | nil =>
      rw [scan_char_nil s hchars]
      exact Nat.le_add_right _ _
  | cons a t =>
      obtain ⟨p2, c2⟩ := a
      rw [scan_char_cons s p2 c2 t hchars]
      rcases hs with ⟨c, pre, hcur, hidx, hlast⟩ | ⟨hcur, hchars2, hpos⟩
      · rw [hchars] at hidx
        have hc2 := charIndices_consecutive s.input pre t s.position p2 c c2 hidx
        have hw := c.utf8Size_pos
        show s.position ≤ p2
        omega
      · rw [hchars] at hchars2
        cases hchars2

theorem skip_whitespace_ws (s : Scanner) (ch : Char)
    (h : s.current_char = some ch) (hws : rustIsWhitespace ch) :
    skip_whitespace s = skip_whitespace (scan_char s) := by
  rw [skip_whitespace_eq, h]
  simp [hws]

theorem skip_whitespace_stop (s : Scanner) (ch : Char)
    (h : s.current_char = some ch) (hws : ¬ rustIsWhitespace ch) :
    skip_whitespace s = s := by
  rw [skip_whitespace_eq, h]
  simp [hws]

theorem skip_whitespace_none (s : Scanner) (h : s.current_char = none) :
    skip_whitespace s = s := by
  rw [skip_whitespace_eq, h]

theorem skip_line_comment_newline (s : Scanner)
    (h : s.current_char = some newlineChar) :
    skip_line_comment s = scan_char s := by
  rw [skip_line_comment_eq, h]
  simp

theorem skip_line_comment_cont (s : Scanner) (ch : Char)
    (h : s.current_char = some ch) (hnl : ch ≠ newlineChar) :
    skip_line_comment s = skip_line_comment (scan_char s) := by
  rw [skip_line_comment_eq, h]
  simp [hnl]

theorem skip_line_comment_none (s : Scanner) (h : s.current_char = none) :
    skip_line_comment s = s := by
  rw [skip_line_comment_eq, h]

theorem skip_whitespace_spec (s : Scanner) (hs : Coherent s) :
    Coherent (skip_whitespace s) ∧ s.position ≤ (skip_whitespace s).position := by
  induction s using skip_whitespace.induct with
  | case1 s ch h hws ih =>
      rw [skip_whitespace_ws s ch h hws]
      have hcoh := coherent_scan_char s hs (by simp [h])
      have hpos := position_le_scan_char s hs
      obtain ⟨h1, h2⟩ := ih hcoh
      exact ⟨h1, le_trans hpos h2⟩
  | case2 s ch h hws =>
      rw [skip_whitespace_stop s ch h (by simpa using hws)]
      exact ⟨hs, le_refl _⟩
  | case3 s h =>
      rw [skip_whitespace_none s h]
      exact ⟨hs, le_refl _⟩

theorem skip_line_comment_spec (s : Scanner) (hs : Coherent s) :
    Coherent (skip_line_comment s) ∧ s.position ≤ (skip_line_comment s).position := by
  induction s using skip_line_comment.induct with
  | case1 s h =>
      rw [skip_line_comment_newline s h]
      exact ⟨coherent_scan_char s hs (by simp [h]), position_le_scan_char s hs⟩
  | case2 s ch h hnl ih =>
      rw [skip_line_comment_cont s ch h hnl]
      have hcoh := coherent_scan_char s hs (by simp [h])
      have hpos := position_le_scan_char s hs
      obtain ⟨h1, h2⟩ := ih hcoh
      exact ⟨h1, le_trans hpos h2⟩
  | case3 s h =>
      rw [skip_line_comment_none s h]
      exact ⟨hs, le_refl _⟩

/-- Everything `finish_token` guarantees on success.  The bounds and
boundary facts come from the slice's validity check. -/
theorem finish_token_ok (s : Scanner) (k : TokenKind) (s' : Scanner)
    (h : finish_token s k = .ok s') :
    s'.input = s.input ∧ s'.chars = s.chars ∧ s'.last_char = s.last_char ∧
    s'.current_char = s.current_char ∧ s'.position = s.position ∧
    s'.token.kind = k ∧ s'.token.start = s.token.start ∧
    s'.token.endPos = s.position ∧
    byteSlice s.input s.token.start s.position = some s'.token.raw_text ∧
    s'.token.text = s'.token.raw_text := by
  unfold finish_token at h
  dsimp only at h
  split at h
  · rename_i raw hraw
    injection h with h2
    subst h2
    exact ⟨rfl, rfl, rfl, rfl, rfl, rfl, rfl, rfl, hraw, rfl⟩
  · cases h

theorem finish_token_not_err (s : Scanner) (k : TokenKind) (s' : Scanner)
    (e : ScanError) : finish_token s k ≠ .err s' e := by
  unfold finish_token
  dsimp only
  split <;> intro h <;> cases h

end Scanner


/-! More facts about `eofPosition` and trimming slices. -/

theorem offset_le_last (init : List Char) (l : Char) (p : Nat) (c : Char)
    (h : (p, c) ∈ charIndices (init ++ [l])) : p ≤ byteLen init := by
  have hidx : charIndices (init ++ [l]) =
      charIndicesFrom 0 init ++ [(0 + byteLen init, l)] := by
    unfold charIndices
    rw [charIndicesFrom_append]
    rfl
  rw [hidx] at h
  rcases List.mem_append.mp h with h1 | h2
  · have := mem_charIndicesFrom_bounds 0 init (p, c) h1
    have hw := c.utf8Size_pos
    omega
  · simp only [List.mem_singleton, Prod.mk.injEq] at h2
    omega

theorem eofPosition_gt_offsets (cs : List Char) (p : Nat) (c : Char)
    (h : (p, c) ∈ charIndices cs) : p < eofPosition cs := by
  rcases List.eq_nil_or_concat cs with rfl | ⟨init, l, hcat⟩
  · cases h
  · rw [List.concat_eq_append] at hcat
    subst hcat
    have hple := offset_le_last init l p c h
    rw [eofPosition_append_last]
    cases hgl : init.getLast? with
    | none => simp only []; omega
    | some d =>
        have := d.utf8Size_pos
        simp only []
        omega

theorem eofPosition_boundary (cs : List Char)
    (h : isBoundary cs (eofPosition cs)) : eofPosition cs = byteLen cs := by
  rcases isBoundary_cases cs (eofPosition cs) h with h1 | ⟨c, hc⟩
  · exact h1
  · exact absurd (eofPosition_gt_offsets cs (eofPosition cs) c hc) (lt_irrefl _)

/-- When a byte slice trimming one byte at each end succeeds, it removes
exactly the first and last codepoints (validity forces the last codepoint
to be one byte wide, and position `1` only lies in `[1, len-1)` bounds when
codepoints exist there). -/
theorem byteSlice_trim (ct txt : List Char)
    (h : byteSlice ct 1 (byteLen ct - 1) = some txt) :
    txt = (ct.drop 1).dropLast := by
  obtain ⟨hab, hble, hb1, hb2⟩ := byteSlice_some _ _ _ _ h
  cases ct with
  | nil => simp [byteLen] at hab
  | cons c0 rest =>
      rcases List.eq_nil_or_concat rest with rfl | ⟨mid, cl, hcat⟩
      · exfalso
        rcases isBoundary_cases _ 1 hb1 with h1 | ⟨c, hc⟩
        · simp [byteLen] at h1 hab
          omega
        · simp [charIndices, charIndicesFrom] at hc
      · rw [List.concat_eq_append] at hcat
        subst hcat
        have hL : byteLen (c0 :: (mid ++ [cl])) =
            c0.utf8Size + (byteLen mid + cl.utf8Size) := by
          simp [byteLen, byteLen_append]
        have hw0 := c0.utf8Size_pos
        have hwlp := cl.utf8Size_pos
        have hwl1 : cl.utf8Size = 1 := by
          rcases isBoundary_cases _ _ hb2 with h1 | ⟨c, hc⟩
          · rw [hL] at h1 hab
            omega
          · have hre : (c0 :: (mid ++ [cl])) = (c0 :: mid) ++ [cl] := by simp
            rw [hre] at hc
            have hle := offset_le_last (c0 :: mid) cl _ c hc
            rw [← hre] at hle
            have hlen2 : byteLen (c0 :: mid) = c0.utf8Size + byteLen mid := by
              simp [byteLen]
            rw [hlen2, hL] at hle
            omega
        rw [byteSlice_eq _ _ _ _ h]
        have hidx : charIndices (c0 :: (mid ++ [cl])) =
            [((0 : Nat), c0)] ++ (charIndicesFrom c0.utf8Size mid ++
              [(c0.utf8Size + byteLen mid, cl)]) := by
          unfold charIndices
          show (0, c0) :: charIndicesFrom (0 + c0.utf8Size) (mid ++ [cl]) = _
          rw [charIndicesFrom_append]
          simp [charIndicesFrom]
        rw [hidx, List.filter_append, List.filter_append]
        have h0 : ([((0 : Nat), c0)]).filter
            (fun p => decide (1 ≤ p.1 ∧
              p.1 < byteLen (c0 :: (mid ++ [cl])) - 1)) = [] := by
          apply List.filter_eq_nil.mpr
          intro x hx
          simp only [List.mem_singleton] at hx
          subst hx
          simp
        have hmidkeep : (charIndicesFrom c0.utf8Size mid).filter
            (fun p => decide (1 ≤ p.1 ∧
              p.1 < byteLen (c0 :: (mid ++ [cl])) - 1)) =
            charIndicesFrom c0.utf8Size mid := by
          apply List.filter_eq_self.mpr
          intro x hx
          have hb := mem_charIndicesFrom_bounds c0.utf8Size mid x hx
          have hwx := x.2.utf8Size_pos
          simp only [decide_eq_true_eq]
          rw [hL]
          omega
        have hlastdrop : ([((c0.utf8Size + byteLen mid : Nat), cl)]).filter
            (fun p => decide (1 ≤ p.1 ∧
              p.1 < byteLen (c0 :: (mid ++ [cl])) - 1)) = [] := by
          apply List.filter_eq_nil.mpr
          intro x hx
          simp only [List.mem_singleton] at hx
          subst hx
          simp only [decide_eq_true_eq]
          show ¬ (1 ≤ c0.utf8Size + byteLen mid ∧
            c0.utf8Size + byteLen mid < byteLen (c0 :: (mid ++ [cl])) - 1)
          rw [hL]
          omega
        rw [h0, hmidkeep, hlastdrop]
        simp [charIndicesFrom_map_snd]


namespace Scanner

/-! Conditional equations and basic result-shape lemmas for the scanner's
loops. -/

theorem ident_loop_cont (s : Scanner) (ch : Char)
    (h : s.current_char = some ch) (hic : is_ident_char ch) :
    ident_loop s = ident_loop (scan_char s) := by
  rw [ident_loop_eq, h]
  simp [hic]

theorem ident_loop_stop (s : Scanner) (ch : Char)
    (h : s.current_char = some ch) (hic : ¬ is_ident_char ch) :
    ident_loop s = finish_ident s := by
  rw [ident_loop_eq, h]
  simp [hic]

theorem ident_loop_none (s : Scanner) (h : s.current_char = none) :
    ident_loop s = finish_token s TokenKind.Identifier := by
  rw [ident_loop_eq, h]

theorem number_loop_cont (s : Scanner) (ch : Char)
    (h : s.current_char = some ch) (hnc : is_number_char ch) :
    number_loop s = number_loop (scan_char s) := by
  rw [number_loop_eq, h]
  simp [hnc]

theorem number_loop_stop (s : Scanner) (ch : Char)
    (h : s.current_char = some ch) (hnc : ¬ is_number_char ch) :
    number_loop s = finish_token_with s TokenKind.Number cleanup_number := by
  rw [number_loop_eq, h]
  simp [hnc]

theorem number_loop_none (s : Scanner) (h : s.current_char = none) :
    number_loop s = finish_token_with s TokenKind.Number cleanup_number := by
  rw [number_loop_eq, h]

theorem finish_token_with_cleanup_ok (t : Scanner) (s' : Scanner)
    (h : finish_token_with t TokenKind.Number cleanup_number = .ok s') :
    ∃ s1, finish_token t TokenKind.Number = .ok s1 ∧
      s' = { s1 with token := { s1.token with
        text := s1.token.raw_text.filter (fun c => is_digit_char c) } } := by
  unfold finish_token_with at h
  cases hf : finish_token t TokenKind.Number with
  | ok s1 =>
      rw [hf] at h
      refine ⟨s1, rfl, ?_⟩
      simp only [cleanup_number] at h
      injection h with h2
      exact h2.symm
  | err s1 e1 => exact absurd hf (finish_token_not_err _ _ _ _)
  | panicked s1 => rw [hf] at h; cases h

theorem finish_token_with_cleanup_not_err (t : Scanner) (s' : Scanner) (e : ScanError) :
    finish_token_with t TokenKind.Number cleanup_number ≠ .err s' e := by
  intro hcon
  unfold finish_token_with at hcon
  cases hf : finish_token t TokenKind.Number with
  | ok s1 =>
      rw [hf] at hcon
      simp only [cleanup_number] at hcon
      cases hcon
  | err s1 e1 => exact finish_token_not_err _ _ _ _ hf
  | panicked s1 => rw [hf] at hcon; cases hcon

theorem finish_ident_ok (t : Scanner) (s' : Scanner)
    (h : finish_ident t = .ok s') :
    ∃ s1, finish_token t TokenKind.Identifier = .ok s1 ∧
      (s' = s1 ∨ ∃ kw, keyword_of s1.token.raw_text = some kw ∧
        s' = { s1 with token := { s1.token with kind := TokenKind.Keyword kw } }) := by
  unfold finish_ident at h
  cases hf : finish_token t TokenKind.Identifier with
  | ok s1 =>
      rw [hf] at h
      dsimp only at h
      refine ⟨s1, rfl, ?_⟩
      cases hkw : keyword_of s1.token.raw_text with
      | some kw =>
          rw [hkw] at h
          injection h with h2
          exact Or.inr ⟨kw, rfl, h2.symm⟩
      | none =>
          rw [hkw] at h
          injection h with h2
          exact Or.inl h2.symm
  | err s1 e1 => exact absurd hf (finish_token_not_err _ _ _ _)
  | panicked s1 => rw [hf] at h; cases h

theorem finish_ident_not_err (t : Scanner) (s' : Scanner) (e : ScanError) :
    finish_ident t ≠ .err s' e := by
  intro hcon
  unfold finish_ident at hcon
  cases hf : finish_token t TokenKind.Identifier with
  | ok s1 =>
      rw [hf] at hcon
      dsimp only at hcon
      cases hkw : keyword_of s1.token.raw_text with
      | some kw => rw [hkw] at hcon; cases hcon
      | none => rw [hkw] at hcon; cases hcon
  | err s1 e1 => exact finish_token_not_err _ _ _ _ hf
  | panicked s1 => rw [hf] at hcon; cases hcon

theorem number_loop_no_err (s : Scanner) : ∀ s' e, number_loop s ≠ .err s' e := by
  induction s using number_loop.induct with
  | case1 s ch h hnc ih =>
      rw [number_loop_cont s ch h hnc]
      exact ih
  | case2 s ch h hnc =>
      rw [number_loop_stop s ch h hnc]
      exact fun s' e => finish_token_with_cleanup_not_err s s' e
  | case3 s h =>
      rw [number_loop_none s h]
      exact fun s' e => finish_token_with_cleanup_not_err s s' e

theorem ident_loop_no_err (s : Scanner) : ∀ s' e, ident_loop s ≠ .err s' e := by
  induction s using ident_loop.induct with
  | case1 s ch h hic ih =>
      rw [ident_loop_cont s ch h hic]
      exact ih
  | case2 s ch h hic =>
      rw [ident_loop_stop s ch h hic]
      exact fun s' e => finish_ident_not_err s s' e
  | case3 s h =>
      rw [ident_loop_none s h]
      exact fun s' e => finish_token_not_err s TokenKind.Identifier s' e

end Scanner


namespace Scanner

/-- Master specification of `string_loop` on the error path: the token is
untouched, the input unchanged, coherence is preserved, and the error is
one of the three string-specific variants (with the unterminated-string
error carrying the state's own position and token start). -/
theorem string_close_not_err (s1 : Scanner) (clean : Option (List Char))
    (s' : Scanner) (e : ScanError) : string_close s1 clean ≠ .err s' e := by
  intro hcon
  unfold string_close at hcon
  cases clean with
  | some cs =>
      cases hf : finish_token s1 TokenKind.String with
      | ok s2 => rw [hf] at hcon; cases hcon
      | err s2 e2 => exact finish_token_not_err _ _ _ _ hf
      | panicked s2 => rw [hf] at hcon; cases hcon
  | none =>
      cases hct : current_text s1 with
      | none => rw [hct] at hcon; cases hcon
      | some ct =>
          rw [hct] at hcon
          dsimp only at hcon
          cases hsl : byteSlice ct 1 (byteLen ct - 1) with
          | none => rw [hsl] at hcon; cases hcon
          | some txt =>
              rw [hsl] at hcon
              dsimp only at hcon
              cases hf : finish_token s1 TokenKind.String with
              | ok s2 => rw [hf] at hcon; cases hcon
              | err s2 e2 => exact finish_token_not_err _ _ _ _ hf
              | panicked s2 => rw [hf] at hcon; cases hcon

/-- Master specification of `string_loop` on the error path: the token is
untouched, the input unchanged, coherence is preserved, and the error is
one of the three string-specific variants (with the unterminated-string
error carrying the state's own position and token start). -/
theorem string_loop_err (s : Scanner) (clean : Option (List Char))
    (s' : Scanner) (e : ScanError) (h : string_loop s clean = .err s' e) :
    s'.token = s.token ∧ s'.input = s.input ∧ (Coherent s → Coherent s') ∧
    ((∃ o c, e = .UnexpectedCharacterInEscapeSequence o c) ∨
     (∃ o, e = .UnexpectedEndOfInputInEscapeSequence o) ∨
     (e = .UnexpectedEndOfInputInString s'.position s'.token.start ∧
      s'.current_char = none)) := by
  induction s, clean using string_loop.induct with
  | case1 s clean hcur =>
      rw [string_loop_quote s clean hcur] at h
      exact absurd h (string_close_not_err _ _ _ _)
  | case2 s clean c hcur1 hesc hbuf hcur hneq =>
      rw [string_loop_backslash_escape s clean c hcur hcur1 hesc] at h
      rw [hbuf] at h
      cases h
  | case3 s clean c hcur1 hesc str hbuf hcur hneq ih =>
      rw [string_loop_backslash_escape s clean c hcur hcur1 hesc] at h
      rw [hbuf] at h
      dsimp only at h
      obtain ⟨h1, h2, h3, h4⟩ := ih h
      refine ⟨?_, ?_, ?_, h4⟩
      · rw [h1, scan_char_token, scan_char_token]
      · rw [h2, scan_char_input, scan_char_input]
      · intro hcoh
        exact h3 (coherent_scan_char _
          (coherent_scan_char s hcoh (by simp [hcur])) (by simp [hcur1]))
  | case4 s clean c hcur1 hnesc hcur hneq =>
      rw [string_loop_backslash_bad s clean c hcur hcur1 (by simpa using hnesc)] at h
      injection h with ha hb
      subst ha
      subst hb
      exact ⟨scan_char_token s, scan_char_input s,
        fun hcoh => coherent_scan_char s hcoh (by simp [hcur]),
        Or.inl ⟨_, _, rfl⟩⟩
  | case5 s clean hcur1 hcur hneq =>
      rw [string_loop_backslash_eoi s clean hcur hcur1] at h
      injection h with ha hb
      subst ha
      subst hb
      exact ⟨scan_char_token s, scan_char_input s,
        fun hcoh => coherent_scan_char s hcoh (by simp [hcur]),
        Or.inr (Or.inl ⟨_, rfl⟩)⟩
  | case6 s clean ch hcur hnq hnb ih =>
      rw [string_loop_other s clean ch hcur hnq hnb] at h
      obtain ⟨h1, h2, h3, h4⟩ := ih h
      refine ⟨?_, ?_, ?_, h4⟩
      · rw [h1, scan_char_token]
      · rw [h2, scan_char_input]
      · intro hcoh
        exact h3 (coherent_scan_char s hcoh (by simp [hcur]))
  | case7 s clean hcur =>
      rw [string_loop_none s clean hcur] at h
      injection h with ha hb
      subst ha
      subst hb
      exact ⟨rfl, rfl, fun hcoh => hcoh, Or.inr (Or.inr ⟨rfl, hcur⟩)⟩

end Scanner


namespace Scanner

theorem string_close_ok (s1 : Scanner) (clean : Option (List Char)) (s' : Scanner)
    (h : string_close s1 clean = .ok s') :
    ∃ s2, finish_token s1 TokenKind.String = .ok s2 ∧
      s'.input = s2.input ∧ s'.chars = s2.chars ∧ s'.last_char = s2.last_char ∧
      s'.current_char = s2.current_char ∧ s'.position = s2.position ∧
      s'.token.kind = s2.token.kind ∧ s'.token.start = s2.token.start ∧
      s'.token.endPos = s2.token.endPos ∧ s'.token.raw_text = s2.token.raw_text ∧
      ((∃ cs, clean = some cs ∧ s'.token.text = cs) ∨
       (clean = none ∧
        byteSlice s2.token.raw_text 1 (byteLen s2.token.raw_text - 1) =
          some s'.token.text)) := by
  unfold string_close at h
  cases clean with
  | some cs =>
      cases hf : finish_token s1 TokenKind.String with
      | ok s2 =>
          rw [hf] at h
          dsimp only at h
          injection h with h2
          subst h2
          refine ⟨s2, rfl, ?_, ?_, ?_, ?_, ?_, ?_, ?_, ?_, ?_,
            Or.inl ⟨cs, rfl, ?_⟩⟩ <;> rfl
      | err s2 e2 => exact absurd hf (finish_token_not_err _ _ _ _)
      | panicked s2 => rw [hf] at h; cases h
  | none =>
      cases hct : current_text s1 with
      | none => rw [hct] at h; cases h
      | some ct =>
          rw [hct] at h
          dsimp only at h
          cases hsl : byteSlice ct 1 (byteLen ct - 1) with
          | none => rw [hsl] at h; cases h
          | some txt =>
              rw [hsl] at h
              dsimp only at h
              cases hf : finish_token s1 TokenKind.String with
              | ok s2 =>
                  rw [hf] at h
                  dsimp only at h
                  injection h with h2
                  subst h2
                  have hraw := (finish_token_ok s1 TokenKind.String s2 hf).2.2.2.2.2.2.2.2.1
                  have hctr : ct = s2.token.raw_text := by
                    unfold current_text at hct
                    rw [hct] at hraw
                    injection hraw
                  refine ⟨s2, rfl, ?_, ?_, ?_, ?_, ?_, ?_, ?_, ?_, ?_,
                    Or.inr ⟨rfl, ?_⟩⟩ <;>
                    first
                      | rfl
                      | (rw [← hctr]; exact hsl)
              | err s2 e2 => exact absurd hf (finish_token_not_err _ _ _ _)
              | panicked s2 => rw [hf] at h; cases h

theorem string_loop_ok (s : Scanner) (clean : Option (List Char)) (s' : Scanner)
    (hcoh : Coherent s) (h : string_loop s clean = .ok s') :
    s'.input = s.input ∧ Coherent s' ∧ s'.token.start = s.token.start ∧
    s'.token.endPos = s'.position ∧ s.position ≤ s'.position ∧
    s'.token.kind = TokenKind.String := by
  induction s, clean using string_loop.induct with
  | case1 s clean hcur =>
      rw [string_loop_quote s clean hcur] at h
      obtain ⟨s2, hf, g1, g2, g3, g4, g5, g6, g7, g8, g9, _⟩ :=
        string_close_ok (scan_char s) clean s' h
      obtain ⟨f1, f2, f3, f4, f5, f6, f7, f8, f9, f10⟩ :=
        finish_token_ok (scan_char s) TokenKind.String s2 hf
      have hcoh1 := coherent_scan_char s hcoh (by simp [hcur])
      have hcoh2 := coherent_congr (scan_char s) s2 f1 f2 f3 f4 f5 hcoh1
      refine ⟨?_, ?_, ?_, ?_, ?_, ?_⟩
      · rw [g1, f1, scan_char_input]
      · exact coherent_congr s2 s' g1 g2 g3 g4 g5 hcoh2
      · rw [g7, f7, scan_char_token]
      · rw [g8, f8, g5, f5]
      · rw [g5, f5]
        exact position_le_scan_char s hcoh
      · rw [g6, f6]
  | case2 s clean c hcur1 hesc hbuf hcur hneq =>
      rw [string_loop_backslash_escape s clean c hcur hcur1 hesc, hbuf] at h
      cases h
  | case3 s clean c hcur1 hesc str hbuf hcur hneq ih =>
      rw [string_loop_backslash_escape s clean c hcur hcur1 hesc, hbuf] at h
      dsimp only at h
      have hcoh1 := coherent_scan_char s hcoh (by simp [hcur])
      have hcoh2 := coherent_scan_char _ hcoh1 (by simp [hcur1])
      obtain ⟨h1, h2, h3, h4, h5, h6⟩ := ih hcoh2 h
      refine ⟨?_, h2, ?_, h4, ?_, h6⟩
      · rw [h1, scan_char_input, scan_char_input]
      · rw [h3, scan_char_token, scan_char_token]
      · calc s.position ≤ (scan_char s).position := position_le_scan_char s hcoh
          _ ≤ (scan_char (scan_char s)).position := position_le_scan_char _ hcoh1
          _ ≤ s'.position := h5
  | case4 s clean c hcur1 hnesc hcur hneq =>
      rw [string_loop_backslash_bad s clean c hcur hcur1 (by simpa using hnesc)] at h
      cases h
  | case5 s clean hcur1 hcur hneq =>
      rw [string_loop_backslash_eoi s clean hcur hcur1] at h
      cases h
  | case6 s clean ch hcur hnq hnb ih =>
      rw [string_loop_other s clean ch hcur hnq hnb] at h
      have hcoh1 := coherent_scan_char s hcoh (by simp [hcur])
      obtain ⟨h1, h2, h3, h4, h5, h6⟩ := ih hcoh1 h
      refine ⟨?_, h2, ?_, h4, ?_, h6⟩
      · rw [h1, scan_char_input]
      · rw [h3, scan_char_token]
      · exact le_trans (position_le_scan_char s hcoh) h5
  | case7 s clean hcur =>
      rw [string_loop_none s clean hcur] at h
      cases h

theorem number_loop_ok (t : Scanner) (s' : Scanner) (hcoh : Coherent t)
    (h : number_loop t = .ok s') :
    s'.input = t.input ∧ Coherent s' ∧ s'.token.start = t.token.start ∧
    s'.token.endPos = s'.position ∧ t.position ≤ s'.position ∧
    s'.token.kind = TokenKind.Number ∧
    s'.token.text = s'.token.raw_text.filter (fun c => is_digit_char c) := by
  induction t using number_loop.induct with
  | case1 t ch hc hnc ih =>
      rw [number_loop_cont t ch hc hnc] at h
      have hcoh2 := coherent_scan_char t hcoh (by simp [hc])
      have hpos := position_le_scan_char t hcoh
      obtain ⟨h1, h2, h3, h4, h5, h6, h7⟩ := ih hcoh2 h
      exact ⟨by rw [h1, scan_char_input], h2, by rw [h3, scan_char_token], h4,
        le_trans hpos h5, h6, h7⟩
  | case2 t ch hc hnc =>
      rw [number_loop_stop t ch hc hnc] at h
      obtain ⟨s1, hf, hs⟩ := finish_token_with_cleanup_ok t s' h
      obtain ⟨f1, f2, f3, f4, f5, f6, f7, f8, f9, f10⟩ :=
        finish_token_ok t TokenKind.Number s1 hf
      subst hs
      refine ⟨f1, ?_, f7, ?_, ?_, f6, rfl⟩
      · exact coherent_congr t _ f1 f2 f3 f4 f5 hcoh
      · show s1.token.endPos = s1.position
        rw [f8, f5]
      · show t.position ≤ s1.position
        rw [f5]
  | case3 t hc =>
      rw [number_loop_none t hc] at h
      obtain ⟨s1, hf, hs⟩ := finish_token_with_cleanup_ok t s' h
      obtain ⟨f1, f2, f3, f4, f5, f6, f7, f8, f9, f10⟩ :=
        finish_token_ok t TokenKind.Number s1 hf
      subst hs
      refine ⟨f1, ?_, f7, ?_, ?_, f6, rfl⟩
      · exact coherent_congr t _ f1 f2 f3 f4 f5 hcoh
      · show s1.token.endPos = s1.position
        rw [f8, f5]
      · show t.position ≤ s1.position
        rw [f5]

theorem ident_loop_ok (t : Scanner) (s' : Scanner) (hcoh : Coherent t)
    (h : ident_loop t = .ok s') :
    s'.input = t.input ∧ Coherent s' ∧ s'.token.start = t.token.start ∧
    s'.token.endPos = s'.position ∧ t.position ≤ s'.position ∧
    (s'.token.kind = TokenKind.Identifier ∨
     ∃ kw, s'.token.kind = TokenKind.Keyword kw) := by
  induction t using ident_loop.induct with
  | case1 t ch hc hic ih =>
      rw [ident_loop_cont t ch hc hic] at h
      have hcoh2 := coherent_scan_char t hcoh (by simp [hc])
      have hpos := position_le_scan_char t hcoh
      obtain ⟨h1, h2, h3, h4, h5, h6⟩ := ih hcoh2 h
      exact ⟨by rw [h1, scan_char_input], h2, by rw [h3, scan_char_token], h4,
        le_trans hpos h5, h6⟩
  | case2 t ch hc hic =>
      rw [ident_loop_stop t ch hc hic] at h
      obtain ⟨s1, hf, hs⟩ := finish_ident_ok t s' h
      obtain ⟨f1, f2, f3, f4, f5, f6, f7, f8, f9, f10⟩ :=
        finish_token_ok t TokenKind.Identifier s1 hf
      rcases hs with rfl | ⟨kw, hkw, hs⟩
      · refine ⟨f1, ?_, f7, ?_, ?_, Or.inl f6⟩
        · exact coherent_congr t _ f1 f2 f3 f4 f5 hcoh
        · rw [f8, f5]
        · rw [f5]
      · subst hs
        refine ⟨f1, ?_, f7, ?_, ?_, Or.inr ⟨kw, rfl⟩⟩
        · exact coherent_congr t _ f1 f2 f3 f4 f5 hcoh
        · show s1.token.endPos = s1.position
          rw [f8, f5]
        · show t.position ≤ s1.position
          rw [f5]
  | case3 t hc =>
      rw [ident_loop_none t hc] at h
      obtain ⟨f1, f2, f3, f4, f5, f6, f7, f8, f9, f10⟩ :=
        finish_token_ok t TokenKind.Identifier s' h
      refine ⟨f1, ?_, f7, ?_, ?_, Or.inl f6⟩
      · exact coherent_congr t _ f1 f2 f3 f4 f5 hcoh
      · rw [f8, f5]
      · rw [f5]

end Scanner


namespace Scanner

theorem single_symbol_not_err (t : Scanner) (sym : Symbol) (s' : Scanner)
    (e : ScanError) : single_symbol t sym ≠ .err s' e := by
  unfold single_symbol
  exact finish_token_not_err _ _ _ _

theorem maybe_double_symbol_not_err (t : Scanner) (exp : Char) (sy dy : Symbol)
    (s' : Scanner) (e : ScanError) :
    maybe_double_symbol t exp sy dy ≠ .err s' e := by
  intro hcon
  unfold maybe_double_symbol at hcon
  dsimp only at hcon
  cases hcc : (scan_char t).current_char with
  | some ch =>
      rw [hcc] at hcon
      dsimp only at hcon
      by_cases hexp : ch = exp
      · rw [if_pos hexp] at hcon
        exact single_symbol_not_err _ _ _ _ hcon
      · rw [if_neg hexp] at hcon
        exact finish_token_not_err _ _ _ _ hcon
  | none =>
      rw [hcc] at hcon
      exact finish_token_not_err _ _ _ _ hcon

theorem single_symbol_ok (t : Scanner) (sym : Symbol) (s' : Scanner)
    (hcoh : Coherent t) (hc : t.current_char.isSome)
    (h : single_symbol t sym = .ok s') :
    s'.input = t.input ∧ Coherent s' ∧ s'.token.start = t.token.start ∧
    s'.token.endPos = s'.position ∧ t.position ≤ s'.position ∧
    s'.token.kind = TokenKind.Symbol sym := by
  unfold single_symbol at h
  obtain ⟨f1, f2, f3, f4, f5, f6, f7, f8, f9, f10⟩ :=
    finish_token_ok (scan_char t) (TokenKind.Symbol sym) s' h
  have hcoh1 := coherent_scan_char t hcoh hc
  refine ⟨?_, ?_, ?_, ?_, ?_, f6⟩
  · rw [f1, scan_char_input]
  · exact coherent_congr (scan_char t) s' f1 f2 f3 f4 f5 hcoh1
  · rw [f7, scan_char_token]
  · rw [f8, f5]
  · rw [f5]
    exact position_le_scan_char t hcoh

theorem maybe_double_symbol_ok (t : Scanner) (exp : Char) (sy dy : Symbol)
    (s' : Scanner) (hcoh : Coherent t) (hc : t.current_char.isSome)
    (h : maybe_double_symbol t exp sy dy = .ok s') :
    s'.input = t.input ∧ Coherent s' ∧ s'.token.start = t.token.start ∧
    s'.token.endPos = s'.position ∧ t.position ≤ s'.position ∧
    (s'.token.kind = TokenKind.Symbol sy ∨ s'.token.kind = TokenKind.Symbol dy) := by
  unfold maybe_double_symbol at h
  dsimp only at h
  have hcoh1 := coherent_scan_char t hcoh hc
  have hpos1 := position_le_scan_char t hcoh
  cases hcc : (scan_char t).current_char with
  | some ch =>
      rw [hcc] at h
      dsimp only at h
      by_cases hexp : ch = exp
      · rw [if_pos hexp] at h
        obtain ⟨g1, g2, g3, g4, g5, g6⟩ :=
          single_symbol_ok (scan_char t) dy s' hcoh1 (by simp [hcc]) h
        refine ⟨?_, g2, ?_, g4, ?_, Or.inr g6⟩
        · rw [g1, scan_char_input]
        · rw [g3, scan_char_token]
        · exact le_trans hpos1 g5
      · rw [if_neg hexp] at h
        obtain ⟨f1, f2, f3, f4, f5, f6, f7, f8, f9, f10⟩ :=
          finish_token_ok (scan_char t) (TokenKind.Symbol sy) s' h
        refine ⟨?_, ?_, ?_, ?_, ?_, Or.inl f6⟩
        · rw [f1, scan_char_input]
        · exact coherent_congr (scan_char t) s' f1 f2 f3 f4 f5 hcoh1
        · rw [f7, scan_char_token]
        · rw [f8, f5]
        · rw [f5]
          exact hpos1
  | none =>
      rw [hcc] at h
      obtain ⟨f1, f2, f3, f4, f5, f6, f7, f8, f9, f10⟩ :=
        finish_token_ok (scan_char t) (TokenKind.Symbol sy) s' h
      refine ⟨?_, ?_, ?_, ?_, ?_, Or.inl f6⟩
      · rw [f1, scan_char_input]
      · exact coherent_congr (scan_char t) s' f1 f2 f3 f4 f5 hcoh1
      · rw [f7, scan_char_token]
      · rw [f8, f5]
      · rw [f5]
        exact hpos1

end Scanner


namespace Scanner

theorem begin_fields (s : Scanner) :
    (set_token_start (skip_whitespace s)).input = s.input ∧
    (set_token_start (skip_whitespace s)).token.kind = s.token.kind ∧
    (set_token_start (skip_whitespace s)).token.endPos = s.token.endPos ∧
    (set_token_start (skip_whitespace s)).token.raw_text = s.token.raw_text ∧
    (set_token_start (skip_whitespace s)).token.text = s.token.text := by
  refine ⟨?_, ?_, ?_, ?_, ?_⟩
  · exact skip_whitespace_input s
  · show (skip_whitespace s).token.kind = s.token.kind
    exact congrArg Token.kind (skip_whitespace_token s)
  · show (skip_whitespace s).token.endPos = s.token.endPos
    exact congrArg Token.endPos (skip_whitespace_token s)
  · show (skip_whitespace s).token.raw_text = s.token.raw_text
    exact congrArg Token.raw_text (skip_whitespace_token s)
  · show (skip_whitespace s).token.text = s.token.text
    exact congrArg Token.text (skip_whitespace_token s)

/-- On every failing `scan` call, the current token keeps its kind, end
position, raw text and decoded text (only `start` is overwritten by the
assignment at the top of the scan loop), and the error is one of the four
variants the scanner actually constructs. -/
theorem scan_err_spec (s : Scanner) : ∀ s' e, scan s = .err s' e →
    s'.input = s.input ∧ s'.token.kind = s.token.kind ∧
    s'.token.endPos = s.token.endPos ∧ s'.token.raw_text = s.token.raw_text ∧
    s'.token.text = s.token.text ∧
    ((∃ o c, e = .UnexpectedCharacter o c) ∨
     (∃ o c, e = .UnexpectedCharacterInEscapeSequence o c) ∨
     (∃ o, e = .UnexpectedEndOfInputInEscapeSequence o) ∨
     (∃ o st, e = .UnexpectedEndOfInputInString o st)) := by
  induction s using scan.induct with
  | case1 x hcc hcc2 ih =>
      intro s' e h
      rw [scan_comment_eq x hcc hcc2] at h
      obtain ⟨h1, h2, h3, h4, h5, h6⟩ := ih s' e h
      have htok : (skip_line_comment
          (scan_char (set_token_start (skip_whitespace x)))).token =
          (set_token_start (skip_whitespace x)).token := by
        rw [skip_line_comment_token, scan_char_token]
      have hin : (skip_line_comment
          (scan_char (set_token_start (skip_whitespace x)))).input = x.input := by
        rw [skip_line_comment_input, scan_char_input]
        exact (begin_fields x).1
      obtain ⟨b1, b2, b3, b4, b5⟩ := begin_fields x
      refine ⟨?_, ?_, ?_, ?_, ?_, h6⟩
      · rw [h1, hin]
      · rw [h2, htok, b2]
      · rw [h3, htok, b3]
      · rw [h4, htok, b4]
      · rw [h5, htok, b5]
  | case2 x c2 hcc2 hne hcc =>
      intro s' e h
      rw [scan_slash_some_eq x c2 hcc hcc2 hne] at h
      exact absurd h (finish_token_not_err _ _ _ _)
  | case3 x hcc2 hcc =>
      intro s' e h
      rw [scan_slash_none_eq x hcc hcc2] at h
      exact absurd h (finish_token_not_err _ _ _ _)
  | case4 x ch hcc hne1 hst =>
      intro s' e h
      rw [scan_ident_eq x ch hcc hst] at h
      unfold scan_identifier_or_keyword at h
      exact absurd h (ident_loop_no_err _ s' e)
  | case5 x ch hcc hne1 hnst hd =>
      intro s' e h
      rw [scan_digit_eq x ch hcc hd] at h
      unfold scan_number at h
      exact absurd h (number_loop_no_err _ s' e)
  | case6 x hcc hn1 hn2 hn3 =>
      intro s' e h
      rw [scan_colon_eq x hcc] at h
      exact absurd h (maybe_double_symbol_not_err _ _ _ _ _ _)
  | case7 x hcc hn1 hn2 hn3 hn4 =>
      intro s' e h
      rw [scan_equals_eq x hcc] at h
      exact absurd h (maybe_double_symbol_not_err _ _ _ _ _ _)
  | case8 x hcc hn1 hn2 hn3 hn4 hn5 =>
      intro s' e h
      rw [scan_semicolon_eq x hcc] at h
      exact absurd h (single_symbol_not_err _ _ _ _)
  | case9 x hcc hn1 hn2 hn3 hn4 hn5 hn6 =>
      intro s' e h
      rw [scan_comma_eq x hcc] at h
      exact absurd h (single_symbol_not_err _ _ _ _)
  | case10 x hcc hn1 hn2 hn3 hn4 hn5 hn6 hn7 =>
      intro s' e h
      rw [scan_dot_eq x hcc] at h
      exact absurd h (single_symbol_not_err _ _ _ _)
  | case11 x hcc hn1 hn2 hn3 hn4 hn5 hn6 hn7 hn8 =>
      intro s' e h
      rw [scan_plus_eq x hcc] at h
      exact absurd h (single_symbol_not_err _ _ _ _)
  | case12 x hcc hn1 hn2 hn3 hn4 hn5 hn6 hn7 hn8 hn9 =>
      intro s' e h
      rw [scan_star_eq x hcc] at h
      exact absurd h (single_symbol_not_err _ _ _ _)
  | case13 x hcc hn1 hn2 hn3 hn4 hn5 hn6 hn7 hn8 hn9 hn10 =>
      intro s' e h
      rw [scan_minus_eq x hcc] at h
      exact absurd h (maybe_double_symbol_not_err _ _ _ _ _ _)
  | case14 x hcc hn1 hn2 hn3 hn4 hn5 hn6 hn7 hn8 hn9 hn10 hn11 =>
      intro s' e h
      rw [scan_backslash_eq x hcc] at h
      exact absurd h (single_symbol_not_err _ _ _ _)
  | case15 x hcc hn1 hn2 hn3 hn4 hn5 hn6 hn7 hn8 hn9 hn10 hn11 hn12 =>
      intro s' e h
      rw [scan_quote_eq x hcc] at h
      unfold scan_string at h
      obtain ⟨ht, hi, hco, hsh⟩ := string_loop_err _ none s' e h
      have htok : (scan_char (set_token_start (skip_whitespace x))).token =
          (set_token_start (skip_whitespace x)).token := scan_char_token _
      obtain ⟨b1, b2, b3, b4, b5⟩ := begin_fields x
      refine ⟨?_, ?_, ?_, ?_, ?_, ?_⟩
      · rw [hi, scan_char_input, b1]
      · rw [ht, htok, b2]
      · rw [ht, htok, b3]
      · rw [ht, htok, b4]
      · rw [ht, htok, b5]
      · rcases hsh with ⟨o, c, rfl⟩ | ⟨o, rfl⟩ | ⟨rfl, _⟩
        · exact Or.inr (Or.inl ⟨o, c, rfl⟩)
        · exact Or.inr (Or.inr (Or.inl ⟨o, rfl⟩))
        · exact Or.inr (Or.inr (Or.inr ⟨_, _, rfl⟩))
  | case16 x ch hcc hn1 hn2 hn3 hn4 hn5 hn6 hn7 hn8 hn9 hn10 hn11 hn12 hn13 =>
      intro s' e h
      rw [scan_unexpected_eq x ch hcc hn1 hn2 hn3 hn4 hn5 hn6 hn7 hn8 hn9
        hn10 hn11 hn12 hn13] at h
      injection h with ha hb
      subst ha
      obtain ⟨b1, b2, b3, b4, b5⟩ := begin_fields x
      exact ⟨b1, b2, b3, b4, b5, Or.inl ⟨_, _, hb.symm⟩⟩
  | case17 x hcc =>
      intro s' e h
      rw [scan_eof_eq x hcc] at h
      exact absurd h (finish_token_not_err _ _ _ _)

end Scanner


namespace Scanner

/-- On every successful `scan` call from a coherent state: the result is
coherent, the new token starts at or after the old position, and its span
is well formed with `endPos` equal to the scanner's position. -/
theorem scan_ok_spec (s : Scanner) : Coherent s → ∀ s', scan s = .ok s' →
    s'.input = s.input ∧ Coherent s' ∧ s.position ≤ s'.token.start ∧
    s'.token.start ≤ s'.token.endPos ∧ s'.token.endPos = s'.position := by
  induction s using scan.induct with
  | case1 x hcc hcc2 ih =>
      intro hcoh s' h
      rw [scan_comment_eq x hcc hcc2] at h
      have hcohB : Coherent (set_token_start (skip_whitespace x)) :=
        coherent_set_token_start _ (skip_whitespace_spec x hcoh).1
      have hcoh1 := coherent_scan_char _ hcohB (by simp [hcc])
      have hcoh2 := (skip_line_comment_spec _ hcoh1).1
      obtain ⟨h1, h2, h3, h4, h5⟩ := ih hcoh2 s' h
      refine ⟨?_, h2, ?_, h4, h5⟩
      · rw [h1, skip_line_comment_input, scan_char_input]
        exact (begin_fields x).1
      · calc x.position ≤ (skip_whitespace x).position :=
              (skip_whitespace_spec x hcoh).2
          _ ≤ (scan_char (set_token_start (skip_whitespace x))).position :=
              position_le_scan_char _ hcohB
          _ ≤ (skip_line_comment
              (scan_char (set_token_start (skip_whitespace x)))).position :=
              (skip_line_comment_spec _ hcoh1).2
          _ ≤ s'.token.start := h3
  | case2 x c2 hcc2 hne hcc =>
      intro hcoh s' h
      rw [scan_slash_some_eq x c2 hcc hcc2 hne] at h
      have hcohB : Coherent (set_token_start (skip_whitespace x)) :=
        coherent_set_token_start _ (skip_whitespace_spec x hcoh).1
      obtain ⟨f1, f2, f3, f4, f5, f6, f7, f8, f9, f10⟩ :=
        finish_token_ok _ _ s' h
      have hcoh1 := coherent_scan_char _ hcohB (by simp [hcc])
      refine ⟨?_, ?_, ?_, ?_, ?_⟩
      · rw [f1, scan_char_input]
        exact (begin_fields x).1
      · exact coherent_congr _ s' f1 f2 f3 f4 f5 hcoh1
      · rw [f7, scan_char_token]
        exact (skip_whitespace_spec x hcoh).2
      · rw [f7, scan_char_token, f8]
        show (skip_whitespace x).position ≤ _
        exact position_le_scan_char _ hcohB
      · rw [f8, f5]
  | case3 x hcc2 hcc =>
      intro hcoh s' h
      rw [scan_slash_none_eq x hcc hcc2] at h
      have hcohB : Coherent (set_token_start (skip_whitespace x)) :=
        coherent_set_token_start _ (skip_whitespace_spec x hcoh).1
      obtain ⟨f1, f2, f3, f4, f5, f6, f7, f8, f9, f10⟩ :=
        finish_token_ok _ _ s' h
      have hcoh1 := coherent_scan_char _ hcohB (by simp [hcc])
      refine ⟨?_, ?_, ?_, ?_, ?_⟩
      · rw [f1, scan_char_input]
        exact (begin_fields x).1
      · exact coherent_congr _ s' f1 f2 f3 f4 f5 hcoh1
      · rw [f7, scan_char_token]
        exact (skip_whitespace_spec x hcoh).2
      · rw [f7, scan_char_token, f8]
        show (skip_whitespace x).position ≤ _
        exact position_le_scan_char _ hcohB
      · rw [f8, f5]
  | case4 x ch hcc hne1 hst =>
      intro hcoh s' h
      rw [scan_ident_eq x ch hcc hst] at h
      unfold scan_identifier_or_keyword at h
      have hcohB : Coherent (set_token_start (skip_whitespace x)) :=
        coherent_set_token_start _ (skip_whitespace_spec x hcoh).1
      have hcoh1 := coherent_scan_char _ hcohB (by simp [hcc])
      obtain ⟨h1, h2, h3, h4, h5, h6⟩ := ident_loop_ok _ s' hcoh1 h
      refine ⟨?_, h2, ?_, ?_, h4⟩
      · rw [h1, scan_char_input]
        exact (begin_fields x).1
      · rw [h3, scan_char_token]
        exact (skip_whitespace_spec x hcoh).2
      · rw [h3, scan_char_token, h4]
        show (skip_whitespace x).position ≤ _
        calc (skip_whitespace x).position
            ≤ (scan_char (set_token_start (skip_whitespace x))).position :=
              position_le_scan_char _ hcohB
          _ ≤ s'.position := h5
  | case5 x ch hcc hne1 hnst hd =>
      intro hcoh s' h
      rw [scan_digit_eq x ch hcc hd] at h
      unfold scan_number at h
      have hcohB : Coherent (set_token_start (skip_whitespace x)) :=
        coherent_set_token_start _ (skip_whitespace_spec x hcoh).1
      have hcoh1 := coherent_scan_char _ hcohB (by simp [hcc])
      obtain ⟨h1, h2, h3, h4, h5, h6, h7⟩ := number_loop_ok _ s' hcoh1 h
      refine ⟨?_, h2, ?_, ?_, h4⟩
      · rw [h1, scan_char_input]
        exact (begin_fields x).1
      · rw [h3, scan_char_token]
        exact (skip_whitespace_spec x hcoh).2
      · rw [h3, scan_char_token, h4]
        show (skip_whitespace x).position ≤ _
        calc (skip_whitespace x).position
            ≤ (scan_char (set_token_start (skip_whitespace x))).position :=
              position_le_scan_char _ hcohB
          _ ≤ s'.position := h5
  | case15 x hcc hn1 hn2 hn3 hn4 hn5 hn6 hn7 hn8 hn9 hn10 hn11 hn12 =>
      intro hcoh s' h
      rw [scan_quote_eq x hcc] at h
      unfold scan_string at h
      have hcohB : Coherent (set_token_start (skip_whitespace x)) :=
        coherent_set_token_start _ (skip_whitespace_spec x hcoh).1
      have hcoh1 := coherent_scan_char _ hcohB (by simp [hcc])
      obtain ⟨h1, h2, h3, h4, h5, h6⟩ := string_loop_ok _ none s' hcoh1 h
      refine ⟨?_, h2, ?_, ?_, h4⟩
      · rw [h1, scan_char_input]
        exact (begin_fields x).1
      · rw [h3, scan_char_token]
        exact (skip_whitespace_spec x hcoh).2
      · rw [h3, scan_char_token, h4]
        show (skip_whitespace x).position ≤ _
        calc (skip_whitespace x).position
            ≤ (scan_char (set_token_start (skip_whitespace x))).position :=
              position_le_scan_char _ hcohB
          _ ≤ s'.position := h5
  | case16 x ch hcc hn1 hn2 hn3 hn4 hn5 hn6 hn7 hn8 hn9 hn10 hn11 hn12 hn13 =>
      intro hcoh s' h
      rw [scan_unexpected_eq x ch hcc hn1 hn2 hn3 hn4 hn5 hn6 hn7 hn8 hn9
        hn10 hn11 hn12 hn13] at h
      cases h
  | case17 x hcc =>
      intro hcoh s' h
      rw [scan_eof_eq x hcc] at h
      have hcohB : Coherent (set_token_start (skip_whitespace x)) :=
        coherent_set_token_start _ (skip_whitespace_spec x hcoh).1
      obtain ⟨f1, f2, f3, f4, f5, f6, f7, f8, f9, f10⟩ :=
        finish_token_ok _ _ s' h
      refine ⟨?_, ?_, ?_, ?_, ?_⟩
      · rw [f1]
        exact (begin_fields x).1
      · exact coherent_congr _ s' f1 f2 f3 f4 f5 hcohB
      · rw [f7]
        exact (skip_whitespace_spec x hcoh).2
      · rw [f7, f8]
        exact le_refl _
      · rw [f8, f5]
  | case6 x hcc hn1 hn2 hn3 =>
      intro hcoh s' h
      rw [scan_colon_eq x hcc] at h
      have hcohB : Coherent (set_token_start (skip_whitespace x)) :=
        coherent_set_token_start _ (skip_whitespace_spec x hcoh).1
      obtain ⟨h1, h2, h3, h4, h5, h6⟩ :=
        maybe_double_symbol_ok _ _ _ _ s' hcohB (by simp [hcc]) h
      refine ⟨?_, h2, ?_, ?_, h4⟩
      · rw [h1]
        exact (begin_fields x).1
      · rw [h3]
        exact (skip_whitespace_spec x hcoh).2
      · rw [h3, h4]
        exact h5
  | case7 x hcc hn1 hn2 hn3 hn4 =>
      intro hcoh s' h
      rw [scan_equals_eq x hcc] at h
      have hcohB : Coherent (set_token_start (skip_whitespace x)) :=
        coherent_set_token_start _ (skip_whitespace_spec x hcoh).1
      obtain ⟨h1, h2, h3, h4, h5, h6⟩ :=
        maybe_double_symbol_ok _ _ _ _ s' hcohB (by simp [hcc]) h
      refine ⟨?_, h2, ?_, ?_, h4⟩
      · rw [h1]
        exact (begin_fields x).1
      · rw [h3]
        exact (skip_whitespace_spec x hcoh).2
      · rw [h3, h4]
        exact h5
  | case8 x hcc hn1 hn2 hn3 hn4 hn5 =>
      intro hcoh s' h
      rw [scan_semicolon_eq x hcc] at h
      have hcohB : Coherent (set_token_start (skip_whitespace x)) :=
        coherent_set_token_start _ (skip_whitespace_spec x hcoh).1
      obtain ⟨h1, h2, h3, h4, h5, h6⟩ :=
        single_symbol_ok _ _ s' hcohB (by simp [hcc]) h
      refine ⟨?_, h2, ?_, ?_, h4⟩
      · rw [h1]
        exact (begin_fields x).1
      · rw [h3]
        exact (skip_whitespace_spec x hcoh).2
      · rw [h3, h4]
        exact h5
  | case9 x hcc hn1 hn2 hn3 hn4 hn5 hn6 =>
      intro hcoh s' h
      rw [scan_comma_eq x hcc] at h
      have hcohB : Coherent (set_token_start (skip_whitespace x)) :=
        coherent_set_token_start _ (skip_whitespace_spec x hcoh).1
      obtain ⟨h1, h2, h3, h4, h5, h6⟩ :=
        single_symbol_ok _ _ s' hcohB (by simp [hcc]) h
      refine ⟨?_, h2, ?_, ?_, h4⟩
      · rw [h1]
        exact (begin_fields x).1
      · rw [h3]
        exact (skip_whitespace_spec x hcoh).2
      · rw [h3, h4]
        exact h5
  | case10 x hcc hn1 hn2 hn3 hn4 hn5 hn6 hn7 =>
      intro hcoh s' h
      rw [scan_dot_eq x hcc] at h
      have hcohB : Coherent (set_token_start (skip_whitespace x)) :=
        coherent_set_token_start _ (skip_whitespace_spec x hcoh).1
      obtain ⟨h1, h2, h3, h4, h5, h6⟩ :=
        single_symbol_ok _ _ s' hcohB (by simp [hcc]) h
      refine ⟨?_, h2, ?_, ?_, h4⟩
      · rw [h1]
        exact (begin_fields x).1
      · rw [h3]
        exact (skip_whitespace_spec x hcoh).2
      · rw [h3, h4]
        exact h5
  | case11 x hcc hn1 hn2 hn3 hn4 hn5 hn6 hn7 hn8 =>
      intro hcoh s' h
      rw [scan_plus_eq x hcc] at h
      have hcohB : Coherent (set_token_start (skip_whitespace x)) :=
        coherent_set_token_start _ (skip_whitespace_spec x hcoh).1
      obtain ⟨h1, h2, h3, h4, h5, h6⟩ :=
        single_symbol_ok _ _ s' hcohB (by simp [hcc]) h
      refine ⟨?_, h2, ?_, ?_, h4⟩
      · rw [h1]
        exact (begin_fields x).1
      · rw [h3]
        exact (skip_whitespace_spec x hcoh).2
      · rw [h3, h4]
        exact h5
  | case12 x hcc hn1 hn2 hn3 hn4 hn5 hn6 hn7 hn8 hn9 =>
      intro hcoh s' h
      rw [scan_star_eq x hcc] at h
      have hcohB : Coherent (set_token_start (skip_whitespace x)) :=
        coherent_set_token_start _ (skip_whitespace_spec x hcoh).1
      obtain ⟨h1, h2, h3, h4, h5, h6⟩ :=
        single_symbol_ok _ _ s' hcohB (by simp [hcc]) h
      refine ⟨?_, h2, ?_, ?_, h4⟩
      · rw [h1]
        exact (begin_fields x).1
      · rw [h3]
        exact (skip_whitespace_spec x hcoh).2
      · rw [h3, h4]
        exact h5
  | case13 x hcc hn1 hn2 hn3 hn4 hn5 hn6 hn7 hn8 hn9 hn10 =>
      intro hcoh s' h
      rw [scan_minus_eq x hcc] at h
      have hcohB : Coherent (set_token_start (skip_whitespace x)) :=
        coherent_set_token_start _ (skip_whitespace_spec x hcoh).1
      obtain ⟨h1, h2, h3, h4, h5, h6⟩ :=
        maybe_double_symbol_ok _ _ _ _ s' hcohB (by simp [hcc]) h
      refine ⟨?_, h2, ?_, ?_, h4⟩
      · rw [h1]
        exact (begin_fields x).1
      · rw [h3]
        exact (skip_whitespace_spec x hcoh).2
      · rw [h3, h4]
        exact h5
  | case14 x hcc hn1 hn2 hn3 hn4 hn5 hn6 hn7 hn8 hn9 hn10 hn11 =>
      intro hcoh s' h
      rw [scan_backslash_eq x hcc] at h
      have hcohB : Coherent (set_token_start (skip_whitespace x)) :=
        coherent_set_token_start _ (skip_whitespace_spec x hcoh).1
      obtain ⟨h1, h2, h3, h4, h5, h6⟩ :=
        single_symbol_ok _ _ s' hcohB (by simp [hcc]) h
      refine ⟨?_, h2, ?_, ?_, h4⟩
      · rw [h1]
        exact (begin_fields x).1
      · rw [h3]
        exact (skip_whitespace_spec x hcoh).2
      · rw [h3, h4]
        exact h5

end Scanner


namespace Scanner

/-- Strict position increase of `scan_char` when another character follows. -/
theorem position_lt_scan_char (s : Scanner) (c : Char) (hcoh : Coherent s)
    (h2 : (scan_char s).current_char = some c) :
    s.position < (scan_char s).position := by
  cases hch : s.chars with
  | nil =>
      rw [scan_char_nil s hch] at h2
      cases h2
  | cons pc rest =>
      obtain ⟨p2, c2⟩ := pc
      rw [scan_char_cons s p2 c2 rest hch]
      rcases hcoh with ⟨c0, pre, hcur, hidx, hlast⟩ | ⟨hcur, hchars, hpos⟩
      · rw [hch] at hidx
        have hc2 := charIndices_consecutive s.input pre rest s.position p2 c0 c2 hidx
        have hw := c0.utf8Size_pos
        show s.position < p2
        omega
      · rw [hch] at hchars
        cases hchars

/-- Through the number loop, every codepoint of the finished token's raw
text is a digit or an underscore: the loop only ever consumes such
characters, and the final slice reproduces exactly the consumed span. -/
theorem number_loop_raw (t : Scanner) :
    ∀ (a : Nat) (pre mid : List (Nat × Char)), Coherent t → t.token.start = a →
    (∀ c, t.current_char = some c →
      charIndices t.input = pre ++ mid ++ (t.position, c) :: t.chars) →
    (t.current_char = none → charIndices t.input = pre ++ mid) →
    (∀ x ∈ pre, x.1 < a) → (∀ x ∈ mid, a ≤ x.1 ∧ is_number_char x.2) →
    isBoundary t.input a → a ≤ t.position →
    ∀ s', number_loop t = .ok s' →
    ∀ c2 ∈ s'.token.raw_text, is_number_char c2 := by
  induction t using number_loop.induct with
  | case1 t ch hc hnc ih =>
      intro a pre mid hcoh hstart hdec hdecn hpre hmid hba hale s' h c2m hc2m
      rw [number_loop_cont t ch hc hnc] at h
      have hidx := hdec ch hc
      have hcoh2 := coherent_scan_char t hcoh (by simp [hc])
      have hpos2 := position_le_scan_char t hcoh
      refine ih a pre (mid ++ [(t.position, ch)]) hcoh2 ?_ ?_ ?_ hpre ?_ ?_ ?_
        s' h c2m hc2m
      · rw [scan_char_token]
        exact hstart
      · intro c hcc
        cases hch : t.chars with
        | nil =>
            rw [scan_char_nil t hch] at hcc
            cases hcc
        | cons pc rest =>
            obtain ⟨p2, cc2⟩ := pc
            rw [scan_char_cons t p2 cc2 rest hch] at hcc ⊢
            injection hcc with hcc2
            subst hcc2
            show charIndices t.input = _
            rw [hidx, hch]
            simp
      · intro hcc
        cases hch : t.chars with
        | nil =>
            rw [scan_char_nil t hch]
            show charIndices t.input = _
            rw [hidx, hch]
            simp
        | cons pc rest =>
            obtain ⟨p2, cc2⟩ := pc
            rw [scan_char_cons t p2 cc2 rest hch] at hcc
            cases hcc
      · intro x hx
        rcases List.mem_append.mp hx with hx1 | hx2
        · exact hmid x hx1
        · simp only [List.mem_singleton] at hx2
          subst hx2
          exact ⟨hale, hnc⟩
      · rw [scan_char_input]
        exact hba
      · exact le_trans hale hpos2
  | case2 t ch hc hnc =>
      intro a pre mid hcoh hstart hdec hdecn hpre hmid hba hale s' h c2m hc2m
      rw [number_loop_stop t ch hc hnc] at h
      obtain ⟨s1, hf, hs⟩ := finish_token_with_cleanup_ok t s' h
      obtain ⟨f1, f2, f3, f4, f5, f6, f7, f8, f9, f10⟩ :=
        finish_token_ok t TokenKind.Number s1 hf
      have hidx := hdec ch hc
      have hraw : byteSlice t.input a t.position = some (mid.map Prod.snd) := by
        refine byteSlice_decomp t.input pre mid ((t.position, ch) :: t.chars)
          a t.position hidx hpre ?_ ?_ hale ?_ hba ?_
        · intro x hx
          refine ⟨(hmid x hx).1, ?_⟩
          have hge := charIndices_head_ge t.input (pre ++ mid) t.chars
            t.position ch (by rw [hidx]) x (by simp [hx])
          have hw := x.2.utf8Size_pos
          omega
        · intro x hx
          rcases List.mem_cons.mp hx with hx1 | hx2
          · subst hx1
            exact le_refl _
          · have := charIndices_tail_ge t.input (pre ++ mid) t.chars
              t.position ch (by rw [hidx]) x hx2
            have hw := ch.utf8Size_pos
            omega
        · have := mem_charIndices_bound t.input t.position ch
            (by rw [hidx]; simp)
          omega
        · exact isBoundary_offset t.input t.position ch (by rw [hidx]; simp)
      rw [hstart] at f9
      rw [f9] at hraw
      injection hraw with hraw2
      have hrs : s'.token.raw_text = s1.token.raw_text := by rw [hs]
      have hrawmem : c2m ∈ mid.map Prod.snd := by
        rw [← hraw2, ← hrs]
        exact hc2m
      obtain ⟨x, hxm, hxe⟩ := List.mem_map.mp hrawmem
      rw [← hxe]
      exact (hmid x hxm).2
  | case3 t hc =>
      intro a pre mid hcoh hstart hdec hdecn hpre hmid hba hale s' h c2m hc2m
      rw [number_loop_none t hc] at h
      obtain ⟨s1, hf, hs⟩ := finish_token_with_cleanup_ok t s' h
      obtain ⟨f1, f2, f3, f4, f5, f6, f7, f8, f9, f10⟩ :=
        finish_token_ok t TokenKind.Number s1 hf
      have hidx := hdecn hc
      have hposeof : t.position = eofPosition t.input := by
        rcases hcoh with ⟨c0, pre2, hcur, _, _⟩ | ⟨hcur, hchars, hpos⟩
        · rw [hc] at hcur
          cases hcur
        · exact hpos
      rw [hstart] at f9
      have hvalid := byteSlice_some t.input a t.position s1.token.raw_text f9
      have hbl : t.position = byteLen t.input := by
        rw [hposeof]
        exact eofPosition_boundary t.input (hposeof ▸ hvalid.2.2.2)
      have hraw : byteSlice t.input a t.position = some (mid.map Prod.snd) := by
        have hidx2 : charIndices t.input = pre ++ mid ++ [] := by
          rw [hidx]
          simp
        refine byteSlice_decomp t.input pre mid [] a t.position hidx2 hpre ?_
          (by intro x hx; cases hx) hale ?_ hba ?_
        · intro x hx
          refine ⟨(hmid x hx).1, ?_⟩
          have := mem_charIndicesFrom_bounds 0 t.input x
            (by show x ∈ charIndices t.input; rw [hidx]; simp [hx])
          have hw := x.2.utf8Size_pos
          omega
        · omega
        · rw [hbl]
          exact isBoundary_byteLen t.input
      rw [f9] at hraw
      injection hraw with hraw2
      have hrs : s'.token.raw_text = s1.token.raw_text := by rw [hs]
      have hrawmem : c2m ∈ mid.map Prod.snd := by
        rw [← hraw2, ← hrs]
        exact hc2m
      obtain ⟨x, hxm, hxe⟩ := List.mem_map.mp hrawmem
      rw [← hxe]
      exact (hmid x hxm).2

end Scanner


namespace Scanner

/-- Every Number token produced by a successful `scan` from a coherent
state has decoded text equal to the raw text filtered to digits, and raw
text consisting solely of digits and underscores. -/
theorem scan_number_spec (s : Scanner) : Coherent s → ∀ s', scan s = .ok s' →
    s'.token.kind = TokenKind.Number →
    s'.token.text = s'.token.raw_text.filter (fun c => is_digit_char c) ∧
    ∀ c ∈ s'.token.raw_text, is_number_char c := by
  induction s using scan.induct with
  | case1 x hcc hcc2 ih =>
      intro hcoh s' h hk
      rw [scan_comment_eq x hcc hcc2] at h
      have hcohB : Coherent (set_token_start (skip_whitespace x)) :=
        coherent_set_token_start _ (skip_whitespace_spec x hcoh).1
      have hcoh1 := coherent_scan_char _ hcohB (by simp [hcc])
      have hcoh2 := (skip_line_comment_spec _ hcoh1).1
      exact ih hcoh2 s' h hk
  | case2 x c2 hcc2 hne hcc =>
      intro hcoh s' h hk
      rw [scan_slash_some_eq x c2 hcc hcc2 hne] at h
      have f6 := (finish_token_ok _ _ s' h).2.2.2.2.2.1
      rw [f6] at hk
      cases hk
  | case3 x hcc2 hcc =>
      intro hcoh s' h hk
      rw [scan_slash_none_eq x hcc hcc2] at h
      have f6 := (finish_token_ok _ _ s' h).2.2.2.2.2.1
      rw [f6] at hk
      cases hk
  | case4 x ch hcc hne1 hst =>
      intro hcoh s' h hk
      rw [scan_ident_eq x ch hcc hst] at h
      unfold scan_identifier_or_keyword at h
      have hcohB : Coherent (set_token_start (skip_whitespace x)) :=
        coherent_set_token_start _ (skip_whitespace_spec x hcoh).1
      have hcoh1 := coherent_scan_char _ hcohB (by simp [hcc])
      rcases (ident_loop_ok _ s' hcoh1 h).2.2.2.2.2 with h6 | ⟨kw, h6⟩ <;>
        rw [h6] at hk <;> cases hk
  | case5 x ch hcc hne1 hnst hd =>
      intro hcoh s' h hk
      rw [scan_digit_eq x ch hcc hd] at h
      unfold scan_number at h
      have hcohB : Coherent (set_token_start (skip_whitespace x)) :=
        coherent_set_token_start _ (skip_whitespace_spec x hcoh).1
      have hcoh1 := coherent_scan_char _ hcohB (by simp [hcc])
      refine ⟨(number_loop_ok _ s' hcoh1 h).2.2.2.2.2.2, ?_⟩
      rcases hcohB with ⟨ch0, preB, hcurB, hidxB, hlastB⟩ | ⟨hcurB, _, _⟩
      · rw [hcc] at hcurB
        injection hcurB with hch0
        subst hch0
        refine number_loop_raw (scan_char (set_token_start (skip_whitespace x)))
          (set_token_start (skip_whitespace x)).position preB
          [((set_token_start (skip_whitespace x)).position, ch)]
          (coherent_scan_char _
            (coherent_set_token_start _ (skip_whitespace_spec x hcoh).1)
            (by simp [hcc]))
          ?_ ?_ ?_ ?_ ?_ ?_ ?_ s' h
        · rw [scan_char_token]
          rfl
        · intro c hcc3
          cases hch : (set_token_start (skip_whitespace x)).chars with
          | nil =>
              rw [scan_char_nil _ hch] at hcc3
              cases hcc3
          | cons pc rest =>
              obtain ⟨p2, cc2⟩ := pc
              rw [scan_char_cons _ p2 cc2 rest hch] at hcc3 ⊢
              injection hcc3 with hcc4
              subst hcc4
              show charIndices (set_token_start (skip_whitespace x)).input = _
              rw [hidxB, hch]
              simp
        · intro hcc3
          cases hch : (set_token_start (skip_whitespace x)).chars with
          | nil =>
              rw [scan_char_nil _ hch]
              show charIndices (set_token_start (skip_whitespace x)).input = _
              rw [hidxB, hch]
          | cons pc rest =>
              obtain ⟨p2, cc2⟩ := pc
              rw [scan_char_cons _ p2 cc2 rest hch] at hcc3
              cases hcc3
        · intro y hy
          have := charIndices_head_ge _ preB _ _ _ hidxB y hy
          have hw := y.2.utf8Size_pos
          omega
        · intro y hy
          simp only [List.mem_singleton] at hy
          subst hy
          refine ⟨le_refl _, ?_⟩
          simp [is_number_char, hd]
        · rw [scan_char_input]
          exact isBoundary_offset _ _ ch (by rw [hidxB]; simp)
        · exact position_le_scan_char _
            (coherent_set_token_start _ (skip_whitespace_spec x hcoh).1)
      · rw [hcc] at hcurB
        cases hcurB
  | case15 x hcc hn1 hn2 hn3 hn4 hn5 hn6 hn7 hn8 hn9 hn10 hn11 hn12 =>
      intro hcoh s' h hk
      rw [scan_quote_eq x hcc] at h
      unfold scan_string at h
      have hcohB : Coherent (set_token_start (skip_whitespace x)) :=
        coherent_set_token_start _ (skip_whitespace_spec x hcoh).1
      have hcoh1 := coherent_scan_char _ hcohB (by simp [hcc])
      have h6 := (string_loop_ok _ none s' hcoh1 h).2.2.2.2.2
      rw [h6] at hk
      cases hk
  | case16 x ch hcc hn1 hn2 hn3 hn4 hn5 hn6 hn7 hn8 hn9 hn10 hn11 hn12 hn13 =>
      intro hcoh s' h hk
      rw [scan_unexpected_eq x ch hcc hn1 hn2 hn3 hn4 hn5 hn6 hn7 hn8 hn9
        hn10 hn11 hn12 hn13] at h
      cases h
  | case17 x hcc =>
      intro hcoh s' h hk
      rw [scan_eof_eq x hcc] at h
      have f6 := (finish_token_ok _ _ s' h).2.2.2.2.2.1
      rw [f6] at hk
      cases hk
  | case6 x hcc hn1 hn2 hn3 =>
      intro hcoh s' h hk
      rw [scan_colon_eq x hcc] at h
      have hcohB : Coherent (set_token_start (skip_whitespace x)) :=
        coherent_set_token_start _ (skip_whitespace_spec x hcoh).1
      rcases (maybe_double_symbol_ok _ _ _ _ s' hcohB (by simp [hcc]) h).2.2.2.2.2
        with h6 | h6 <;> rw [h6] at hk <;> cases hk
  | case7 x hcc hn1 hn2 hn3 hn4 =>
      intro hcoh s' h hk
      rw [scan_equals_eq x hcc] at h
      have hcohB : Coherent (set_token_start (skip_whitespace x)) :=
        coherent_set_token_start _ (skip_whitespace_spec x hcoh).1
      rcases (maybe_double_symbol_ok _ _ _ _ s' hcohB (by simp [hcc]) h).2.2.2.2.2
        with h6 | h6 <;> rw [h6] at hk <;> cases hk
  | case8 x hcc hn1 hn2 hn3 hn4 hn5 =>
      intro hcoh s' h hk
      rw [scan_semicolon_eq x hcc] at h
      have hcohB : Coherent (set_token_start (skip_whitespace x)) :=
        coherent_set_token_start _ (skip_whitespace_spec x hcoh).1
      have h6 := (single_symbol_ok _ _ s' hcohB (by simp [hcc]) h).2.2.2.2.2
      rw [h6] at hk
      cases hk
  | case9 x hcc hn1 hn2 hn3 hn4 hn5 hn6 =>
      intro hcoh s' h hk
      rw [scan_comma_eq x hcc] at h
      have hcohB : Coherent (set_token_start (skip_whitespace x)) :=
        coherent_set_token_start _ (skip_whitespace_spec x hcoh).1
      have h6 := (single_symbol_ok _ _ s' hcohB (by simp [hcc]) h).2.2.2.2.2
      rw [h6] at hk
      cases hk
  | case10 x hcc hn1 hn2 hn3 hn4 hn5 hn6 hn7 =>
      intro hcoh s' h hk
      rw [scan_dot_eq x hcc] at h
      have hcohB : Coherent (set_token_start (skip_whitespace x)) :=
        coherent_set_token_start _ (skip_whitespace_spec x hcoh).1
      have h6 := (single_symbol_ok _ _ s' hcohB (by simp [hcc]) h).2.2.2.2.2
      rw [h6] at hk
      cases hk
  | case11 x hcc hn1 hn2 hn3 hn4 hn5 hn6 hn7 hn8 =>
      intro hcoh s' h hk
      rw [scan_plus_eq x hcc] at h
      have hcohB : Coherent (set_token_start (skip_whitespace x)) :=
        coherent_set_token_start _ (skip_whitespace_spec x hcoh).1
      have h6 := (single_symbol_ok _ _ s' hcohB (by simp [hcc]) h).2.2.2.2.2
      rw [h6] at hk
      cases hk
  | case12 x hcc hn1 hn2 hn3 hn4 hn5 hn6 hn7 hn8 hn9 =>
      intro hcoh s' h hk
      rw [scan_star_eq x hcc] at h
      have hcohB : Coherent (set_token_start (skip_whitespace x)) :=
        coherent_set_token_start _ (skip_whitespace_spec x hcoh).1
      have h6 := (single_symbol_ok _ _ s' hcohB (by simp [hcc]) h).2.2.2.2.2
      rw [h6] at hk
      cases hk
  | case13 x hcc hn1 hn2 hn3 hn4 hn5 hn6 hn7 hn8 hn9 hn10 =>
      intro hcoh s' h hk
      rw [scan_minus_eq x hcc] at h
      have hcohB : Coherent (set_token_start (skip_whitespace x)) :=
        coherent_set_token_start _ (skip_whitespace_spec x hcoh).1
      rcases (maybe_double_symbol_ok _ _ _ _ s' hcohB (by simp [hcc]) h).2.2.2.2.2
        with h6 | h6 <;> rw [h6] at hk <;> cases hk
  | case14 x hcc hn1 hn2 hn3 hn4 hn5 hn6 hn7 hn8 hn9 hn10 hn11 =>
      intro hcoh s' h hk
      rw [scan_backslash_eq x hcc] at h
      have hcohB : Coherent (set_token_start (skip_whitespace x)) :=
        coherent_set_token_start _ (skip_whitespace_spec x hcoh).1
      have h6 := (single_symbol_ok _ _ s' hcohB (by simp [hcc]) h).2.2.2.2.2
      rw [h6] at hk
      cases hk

end Scanner


namespace Scanner

/-- Through the string loop: if the `clean_string` buffer is live then a
backslash has already been consumed between the token start and the cursor;
hence a finished String token whose raw text has no backslash was closed on
the trim path, and its decoded text is the raw text with its first and last
characters removed. -/
theorem string_loop_clean (t : Scanner) (clean : Option (List Char)) :
    Coherent t → t.token.start ≤ t.position →
    (∀ cs, clean = some cs → ∃ p, (p, backslashChar) ∈ charIndices t.input ∧
        t.token.start ≤ p ∧ p < t.position) →
    ∀ s', string_loop t clean = .ok s' →
    backslashChar ∉ s'.token.raw_text →
    s'.token.text = (s'.token.raw_text.drop 1).dropLast := by
  induction t, clean using string_loop.induct with
  | case1 s clean hcur =>
      intro hcoh hsp hbs s' h hnb
      rw [string_loop_quote s clean hcur] at h
      obtain ⟨s2, hf, g1, g2, g3, g4, g5, g6, g7, g8, g9, gtext⟩ :=
        string_close_ok (scan_char s) clean s' h
      obtain ⟨f1, f2, f3, f4, f5, f6, f7, f8, f9, f10⟩ :=
        finish_token_ok (scan_char s) TokenKind.String s2 hf
      rcases gtext with ⟨cs, hcl, htext⟩ | ⟨hcl, hslice⟩
      · obtain ⟨p, hmem, hp1, hp2⟩ := hbs cs hcl
        exfalso
        apply hnb
        rw [g9]
        refine mem_byteSlice _ _ _ _ p backslashChar f9 ?_ ?_ ?_
        · rw [scan_char_input]
          exact hmem
        · rw [scan_char_token]
          exact hp1
        · exact lt_of_lt_of_le hp2 (position_le_scan_char s hcoh)
      · rw [g9]
        exact byteSlice_trim _ _ hslice
  | case2 s clean c hcur1 hesc hbuf hcur hneq =>
      intro hcoh hsp hbs s' h hnb
      rw [string_loop_backslash_escape s clean c hcur hcur1 hesc, hbuf] at h
      cases h
  | case3 s clean c hcur1 hesc str hbuf hcur hneq ih =>
      intro hcoh hsp hbs s' h hnb
      rw [string_loop_backslash_escape s clean c hcur hcur1 hesc, hbuf] at h
      dsimp only at h
      have hcoh1 := coherent_scan_char s hcoh (by simp [hcur])
      have hcoh2 := coherent_scan_char _ hcoh1 (by simp [hcur1])
      refine ih hcoh2 ?_ ?_ s' h hnb
      · rw [scan_char_token, scan_char_token]
        calc s.token.start ≤ s.position := hsp
          _ ≤ (scan_char s).position := position_le_scan_char s hcoh
          _ ≤ (scan_char (scan_char s)).position := position_le_scan_char _ hcoh1
      · intro cs hcl
        refine ⟨s.position, ?_, ?_, ?_⟩
        · rw [scan_char_input, scan_char_input]
          rcases hcoh with ⟨c0, pre, hcur0, hidx, hlast⟩ | ⟨hcur0, _, _⟩
          · rw [hcur] at hcur0
            injection hcur0 with he
            subst he
            rw [hidx]
            simp
          · rw [hcur] at hcur0
            cases hcur0
        · rw [scan_char_token, scan_char_token]
          exact hsp
        · have h1 : s.position < (scan_char s).position :=
            position_lt_scan_char s c hcoh hcur1
          have h2 : (scan_char s).position ≤ (scan_char (scan_char s)).position :=
            position_le_scan_char _ hcoh1
          omega
  | case4 s clean c hcur1 hnesc hcur hneq =>
      intro hcoh hsp hbs s' h hnb
      rw [string_loop_backslash_bad s clean c hcur hcur1 (by simpa using hnesc)] at h
      cases h
  | case5 s clean hcur1 hcur hneq =>
      intro hcoh hsp hbs s' h hnb
      rw [string_loop_backslash_eoi s clean hcur hcur1] at h
      cases h
  | case6 s clean ch hcur hnq hnbs ih =>
      intro hcoh hsp hbs s' h hnb
      rw [string_loop_other s clean ch hcur hnq hnbs] at h
      have hcoh1 := coherent_scan_char s hcoh (by simp [hcur])
      refine ih hcoh1 ?_ ?_ s' h hnb
      · rw [scan_char_token]
        exact le_trans hsp (position_le_scan_char s hcoh)
      · intro cs hcl
        cases clean with
        | none => cases hcl
        | some str =>
            obtain ⟨p, hmem, hp1, hp2⟩ := hbs str rfl
            refine ⟨p, ?_, ?_, ?_⟩
            · rw [scan_char_input]
              exact hmem
            · rw [scan_char_token]
              exact hp1
            · exact lt_of_lt_of_le hp2 (position_le_scan_char s hcoh)
  | case7 s clean hcur =>
      intro hcoh hsp hbs s' h hnb
      rw [string_loop_none s clean hcur] at h
      cases h

/-- Every escape-free String token produced by a successful `scan` from a
coherent state decodes to its raw text with the surrounding quotes
stripped. -/
theorem scan_string_spec (s : Scanner) : Coherent s → ∀ s', scan s = .ok s' →
    s'.token.kind = TokenKind.String →
    backslashChar ∉ s'.token.raw_text →
    s'.token.text = (s'.token.raw_text.drop 1).dropLast := by
  induction s using scan.induct with
  | case1 x hcc hcc2 ih =>
      intro hcoh s' h hk hnb
      rw [scan_comment_eq x hcc hcc2] at h
      have hcohB : Coherent (set_token_start (skip_whitespace x)) :=
        coherent_set_token_start _ (skip_whitespace_spec x hcoh).1
      have hcoh1 := coherent_scan_char _ hcohB (by simp [hcc])
      have hcoh2 := (skip_line_comment_spec _ hcoh1).1
      exact ih hcoh2 s' h hk hnb
  | case2 x c2 hcc2 hne hcc =>
      intro hcoh s' h hk hnb
      rw [scan_slash_some_eq x c2 hcc hcc2 hne] at h
      have f6 := (finish_token_ok _ _ s' h).2.2.2.2.2.1
      rw [f6] at hk
      cases hk
  | case3 x hcc2 hcc =>
      intro hcoh s' h hk hnb
      rw [scan_slash_none_eq x hcc hcc2] at h
      have f6 := (finish_token_ok _ _ s' h).2.2.2.2.2.1
      rw [f6] at hk
      cases hk
  | case4 x ch hcc hne1 hst =>
      intro hcoh s' h hk hnb
      rw [scan_ident_eq x ch hcc hst] at h
      unfold scan_identifier_or_keyword at h
      have hcohB : Coherent (set_token_start (skip_whitespace x)) :=
        coherent_set_token_start _ (skip_whitespace_spec x hcoh).1
      have hcoh1 := coherent_scan_char _ hcohB (by simp [hcc])
      rcases (ident_loop_ok _ s' hcoh1 h).2.2.2.2.2 with h6 | ⟨kw, h6⟩ <;>
        rw [h6] at hk <;> cases hk
  | case5 x ch hcc hne1 hnst hd =>
      intro hcoh s' h hk hnb
      rw [scan_digit_eq x ch hcc hd] at h
      unfold scan_number at h
      have hcohB : Coherent (set_token_start (skip_whitespace x)) :=
        coherent_set_token_start _ (skip_whitespace_spec x hcoh).1
      have hcoh1 := coherent_scan_char _ hcohB (by simp [hcc])
      have h6 := (number_loop_ok _ s' hcoh1 h).2.2.2.2.2.1
      rw [h6] at hk
      cases hk
  | case15 x hcc hn1 hn2 hn3 hn4 hn5 hn6 hn7 hn8 hn9 hn10 hn11 hn12 =>
      intro hcoh s' h hk hnb
      rw [scan_quote_eq x hcc] at h
      unfold scan_string at h
      have hcohB : Coherent (set_token_start (skip_whitespace x)) :=
        coherent_set_token_start _ (skip_whitespace_spec x hcoh).1
      have hcoh1 := coherent_scan_char _ hcohB (by simp [hcc])
      refine string_loop_clean _ none hcoh1 ?_ ?_ s' h hnb
      · rw [scan_char_token]
        show (set_token_start (skip_whitespace x)).position ≤ _
        exact position_le_scan_char _ hcohB
      · intro cs hcl
        cases hcl
  | case16 x ch hcc hn1 hn2 hn3 hn4 hn5 hn6 hn7 hn8 hn9 hn10 hn11 hn12 hn13 =>
      intro hcoh s' h hk hnb
      rw [scan_unexpected_eq x ch hcc hn1 hn2 hn3 hn4 hn5 hn6 hn7 hn8 hn9
        hn10 hn11 hn12 hn13] at h
      cases h
  | case17 x hcc =>
      intro hcoh s' h hk hnb
      rw [scan_eof_eq x hcc] at h
      have f6 := (finish_token_ok _ _ s' h).2.2.2.2.2.1
      rw [f6] at hk
      cases hk
  | case6 x hcc hn1 hn2 hn3 =>
      intro hcoh s' h hk hnb
      rw [scan_colon_eq x hcc] at h
      have hcohB : Coherent (set_token_start (skip_whitespace x)) :=
        coherent_set_token_start _ (skip_whitespace_spec x hcoh).1
      rcases (maybe_double_symbol_ok _ _ _ _ s' hcohB (by simp [hcc]) h).2.2.2.2.2
        with h6 | h6 <;> rw [h6] at hk <;> cases hk
  | case7 x hcc hn1 hn2 hn3 hn4 =>
      intro hcoh s' h hk hnb
      rw [scan_equals_eq x hcc] at h
      have hcohB : Coherent (set_token_start (skip_whitespace x)) :=
        coherent_set_token_start _ (skip_whitespace_spec x hcoh).1
      rcases (maybe_double_symbol_ok _ _ _ _ s' hcohB (by simp [hcc]) h).2.2.2.2.2
        with h6 | h6 <;> rw [h6] at hk <;> cases hk
  | case8 x hcc hn1 hn2 hn3 hn4 hn5 =>
      intro hcoh s' h hk hnb
      rw [scan_semicolon_eq x hcc] at h
      have hcohB : Coherent (set_token_start (skip_whitespace x)) :=
        coherent_set_token_start _ (skip_whitespace_spec x hcoh).1
      have h6 := (single_symbol_ok _ _ s' hcohB (by simp [hcc]) h).2.2.2.2.2
      rw [h6] at hk
      cases hk
  | case9 x hcc hn1 hn2 hn3 hn4 hn5 hn6 =>
      intro hcoh s' h hk hnb
      rw [scan_comma_eq x hcc] at h
      have hcohB : Coherent (set_token_start (skip_whitespace x)) :=
        coherent_set_token_start _ (skip_whitespace_spec x hcoh).1
      have h6 := (single_symbol_ok _ _ s' hcohB (by simp [hcc]) h).2.2.2.2.2
      rw [h6] at hk
      cases hk
  | case10 x hcc hn1 hn2 hn3 hn4 hn5 hn6 hn7 =>
      intro hcoh s' h hk hnb
      rw [scan_dot_eq x hcc] at h
      have hcohB : Coherent (set_token_start (skip_whitespace x)) :=
        coherent_set_token_start _ (skip_whitespace_spec x hcoh).1
      have h6 := (single_symbol_ok _ _ s' hcohB (by simp [hcc]) h).2.2.2.2.2
      rw [h6] at hk
      cases hk
  | case11 x hcc hn1 hn2 hn3 hn4 hn5 hn6 hn7 hn8 =>
      intro hcoh s' h hk hnb
      rw [scan_plus_eq x hcc] at h
      have hcohB : Coherent (set_token_start (skip_whitespace x)) :=
        coherent_set_token_start _ (skip_whitespace_spec x hcoh).1
      have h6 := (single_symbol_ok _ _ s' hcohB (by simp [hcc]) h).2.2.2.2.2
      rw [h6] at hk
      cases hk
  | case12 x hcc hn1 hn2 hn3 hn4 hn5 hn6 hn7 hn8 hn9 =>
      intro hcoh s' h hk hnb
      rw [scan_star_eq x hcc] at h
      have hcohB : Coherent (set_token_start (skip_whitespace x)) :=
        coherent_set_token_start _ (skip_whitespace_spec x hcoh).1
      have h6 := (single_symbol_ok _ _ s' hcohB (by simp [hcc]) h).2.2.2.2.2
      rw [h6] at hk
      cases hk
  | case13 x hcc hn1 hn2 hn3 hn4 hn5 hn6 hn7 hn8 hn9 hn10 =>
      intro hcoh s' h hk hnb
      rw [scan_minus_eq x hcc] at h
      have hcohB : Coherent (set_token_start (skip_whitespace x)) :=
        coherent_set_token_start _ (skip_whitespace_spec x hcoh).1
      rcases (maybe_double_symbol_ok _ _ _ _ s' hcohB (by simp [hcc]) h).2.2.2.2.2
        with h6 | h6 <;> rw [h6] at hk <;> cases hk
  | case14 x hcc hn1 hn2 hn3 hn4 hn5 hn6 hn7 hn8 hn9 hn10 hn11 =>
      intro hcoh s' h hk hnb
      rw [scan_backslash_eq x hcc] at h
      have hcohB : Coherent (set_token_start (skip_whitespace x)) :=
        coherent_set_token_start _ (skip_whitespace_spec x hcoh).1
      have h6 := (single_symbol_ok _ _ s' hcohB (by simp [hcc]) h).2.2.2.2.2
      rw [h6] at hk
      cases hk

end Scanner


/-- Trimming one single-byte character off each end of a list by byte
slicing recovers the middle. -/
theorem byteSlice_trim_some (ms : List Char) (q b : Char)
    (hq : q.utf8Size = 1) (hb : b.utf8Size = 1) :
    byteSlice (q :: (ms ++ [b])) 1 (byteLen (q :: (ms ++ [b])) - 1) = some ms := by
  have hidx : charIndices (q :: (ms ++ [b])) =
      [(0, q)] ++ charIndicesFrom 1 ms ++ [(1 + byteLen ms, b)] := by
    show charIndicesFrom 0 (q :: (ms ++ [b])) = _
    simp only [charIndicesFrom, charIndicesFrom_append, hq]
    simp [charIndicesFrom]
  have hlen : byteLen (q :: (ms ++ [b])) = 1 + byteLen ms + 1 := by
    show byteLen (q :: (ms ++ [b])) = _
    simp only [byteLen, byteLen_append, hq, hb]
    omega
  have hdec := byteSlice_decomp (q :: (ms ++ [b])) [(0, q)] (charIndicesFrom 1 ms)
      [(1 + byteLen ms, b)] 1 (1 + byteLen ms) hidx
      (by
        intro x hx
        simp only [List.mem_singleton] at hx
        subst hx
        show (0 : Nat) < 1
        omega)
      (by
        intro x hx
        have h2 := mem_charIndicesFrom_bounds 1 ms x hx
        have hw := x.2.utf8Size_pos
        omega)
      (by
        intro x hx
        simp only [List.mem_singleton] at hx
        subst hx
        show 1 + byteLen ms ≤ 1 + byteLen ms
        omega)
      (by omega)
      (by rw [hlen]; omega)
      (by
        cases ms with
        | nil =>
            refine isBoundary_offset _ _ b ?_
            rw [hidx]
            simp [byteLen]
        | cons c ms2 =>
            refine isBoundary_offset _ _ c ?_
            rw [hidx]
            simp [charIndicesFrom])
      (by
        refine isBoundary_offset _ _ b ?_
        rw [hidx]
        simp)
  have h2 : byteLen (q :: (ms ++ [b])) - 1 = 1 + byteLen ms := by
    rw [hlen]
    omega
  rw [h2, hdec, charIndicesFrom_map_snd]

namespace Scanner

/-- The codepoints the cursor has yet to deliver: the current character (if
any) followed by the tail of the iterator. -/
def remaining (s : Scanner) : List Char :=
  (match s.current_char with
   | some c => [c]
   | none => []) ++ s.chars.map Prod.snd

/-- The condition under which `scan_string` runs its loop off the end of the
input: no closing quote is reached, and every escape sequence encountered is
complete and well-formed (so that no escape-related error fires first). -/
def runs_out_in_string : List Char → Bool
  | [] => true
  | c :: rest =>
      if c = quoteChar then false
      else if c = backslashChar then
        match rest with
        | [] => false
        | c2 :: rest2 => is_escape_char c2 && runs_out_in_string rest2
      else runs_out_in_string rest

theorem remaining_some (s : Scanner) (c : Char) (h : s.current_char = some c) :
    remaining s = c :: s.chars.map Prod.snd := by
  unfold remaining
  rw [h]
  rfl

theorem remaining_none (s : Scanner) (h : s.current_char = none) :
    remaining s = s.chars.map Prod.snd := by
  unfold remaining
  rw [h]
  rfl

theorem remaining_scan_char (s : Scanner) :
    remaining (scan_char s) = s.chars.map Prod.snd := by
  cases hch : s.chars with
  | nil =>
      rw [scan_char_nil s hch]
      unfold remaining
      simp [hch]
  | cons pc rest =>
      obtain ⟨p, c⟩ := pc
      rw [scan_char_cons s p c rest hch]
      unfold remaining
      simp [hch]

theorem runs_out_quote (l : List Char) :
    runs_out_in_string (quoteChar :: l) = false := by
  cases l with
  | nil =>
      rw [runs_out_in_string]
      rw [if_pos rfl]
  | cons c2 l2 =>
      rw [runs_out_in_string]
      rw [if_pos rfl]

theorem runs_out_backslash_cons (c2 : Char) (l : List Char) :
    runs_out_in_string (backslashChar :: c2 :: l) =
      (is_escape_char c2 && runs_out_in_string l) := by
  rw [runs_out_in_string]
  rw [if_neg (by decide), if_pos rfl]

theorem runs_out_backslash_nil :
    runs_out_in_string [backslashChar] = false := by
  rw [runs_out_in_string]
  rw [if_neg (by decide), if_pos rfl]

theorem runs_out_other (c : Char) (l : List Char) (hq : c ≠ quoteChar)
    (hb : c ≠ backslashChar) :
    runs_out_in_string (c :: l) = runs_out_in_string l := by
  cases l with
  | nil =>
      rw [runs_out_in_string, runs_out_in_string, if_neg hq, if_neg hb,
        runs_out_in_string]
  | cons c2 l2 =>
      rw [runs_out_in_string]
      rw [if_neg hq, if_neg hb]

end Scanner


namespace Scanner

/-- If the remaining input runs out before a closing quote (with all escape
sequences intact), the string loop fails with the string-specific
end-of-input error, reporting the scanner's computed end-of-input offset and
the byte offset `a` of the opening quote. -/
theorem string_loop_runs_out (t : Scanner) (clean : Option (List Char)) :
    ∀ (a : Nat) (pre mid : List (Nat × Char)),
    Coherent t →
    t.token.start = a →
    (∀ c, t.current_char = some c →
        charIndices t.input =
          pre ++ (a, quoteChar) :: (mid ++ (t.position, c) :: t.chars)) →
    (t.current_char = none → charIndices t.input = pre ++ (a, quoteChar) :: mid) →
    (∀ x ∈ pre, x.1 < a) →
    runs_out_in_string (remaining t) = true →
    ∃ s', string_loop t clean =
      .err s' (.UnexpectedEndOfInputInString (eofPosition t.input) a) := by
  induction t, clean using string_loop.induct with
  | case1 s clean hcur =>
      intro a pre mid hcoh hstart hsome hnone hpre hro
      exfalso
      rw [remaining_some s quoteChar hcur, runs_out_quote] at hro
      cases hro
  | case2 s clean c hcur1 hesc hbuf hcur hneq =>
      intro a pre mid hcoh hstart hsome hnone hpre hro
      exfalso
      cases hch : s.chars with
      | nil =>
          rw [scan_char_nil s hch] at hcur1
          cases hcur1
      | cons pc r =>
          obtain ⟨p2, c2⟩ := pc
          have hcur1b := hcur1
          rw [scan_char_cons s p2 c2 r hch] at hcur1b
          injection hcur1b with hc2
          subst hc2
          cases clean with
          | some str => simp [escape_buffer] at hbuf
          | none =>
              have hd := hsome backslashChar hcur
              rw [hch] at hd
              have hd2 : charIndices s.input =
                  pre ++ ((a, quoteChar) :: (mid ++ [(s.position, backslashChar)])) ++
                    ((p2, c2) :: r) := by
                rw [hd]
                simp
              have hd3 : charIndices s.input =
                  (pre ++ (a, quoteChar) :: (mid ++ [(s.position, backslashChar)])) ++
                    (p2, c2) :: r := by
                rw [hd]
                simp
              have htail := charIndices_tail_ge s.input pre
                (mid ++ (s.position, backslashChar) :: (p2, c2) :: r) a quoteChar hd
              have hhead := charIndices_head_ge s.input
                (pre ++ (a, quoteChar) :: (mid ++ [(s.position, backslashChar)]))
                r p2 c2 hd3
              have hqw : quoteChar.utf8Size = 1 := by decide
              have hap2 : a + 1 ≤ p2 := by
                have := hhead (a, quoteChar) (by simp)
                simp only [] at this
                rw [hqw] at this
                exact this
              have hslice : byteSlice s.input a p2 =
                  some (((a, quoteChar) ::
                    (mid ++ [(s.position, backslashChar)])).map Prod.snd) := by
                refine byteSlice_decomp s.input pre _ _ a p2 hd2 hpre ?_ ?_ ?_ ?_ ?_ ?_
                · intro x hx
                  constructor
                  · rcases List.mem_cons.mp hx with rfl | hx2
                    · exact le_refl _
                    · have := htail x (by
                        simp only [List.mem_append, List.mem_cons,
                          List.mem_singleton] at hx2 ⊢
                        tauto)
                      omega
                  · have := hhead x (by
                      simp only [List.mem_append, List.mem_cons,
                        List.mem_singleton] at hx ⊢
                      tauto)
                    have hw := x.2.utf8Size_pos
                    omega
                · intro x hx
                  rcases List.mem_cons.mp hx with rfl | hx2
                  · exact le_refl _
                  · have := charIndices_tail_ge s.input
                      (pre ++ (a, quoteChar) :: (mid ++ [(s.position, backslashChar)]))
                      r p2 c2 hd3 x hx2
                    have hw := c2.utf8Size_pos
                    omega
                · omega
                · have := mem_charIndices_bound s.input p2 c2 (by rw [hd]; simp)
                  omega
                · exact isBoundary_offset _ _ quoteChar (by rw [hd]; simp)
                · exact isBoundary_offset _ _ c2 (by rw [hd]; simp)
              have hct : current_text (scan_char s) = byteSlice s.input a p2 := by
                unfold current_text
                rw [scan_char_cons s p2 c2 r hch]
                dsimp only
                rw [hstart]
              have hmap : (((a, quoteChar) ::
                  (mid ++ [(s.position, backslashChar)])).map Prod.snd) =
                  quoteChar :: (mid.map Prod.snd ++ [backslashChar]) := by
                simp
              have hctv : current_text (scan_char s) =
                  some (quoteChar :: (mid.map Prod.snd ++ [backslashChar])) := by
                rw [hct, hslice, hmap]
              have hbuf2 : escape_buffer (scan_char s) none =
                  some (mid.map Prod.snd) := by
                unfold escape_buffer
                rw [hctv]
                dsimp only
                rw [byteSlice_trim_some (mid.map Prod.snd) quoteChar backslashChar
                  (by decide) (by decide)]
              rw [hbuf2] at hbuf
              cases hbuf
  | case3 s clean c hcur1 hesc str hbuf hcur hneq ih =>
      intro a pre mid hcoh hstart hsome hnone hpre hro
      cases hch : s.chars with
      | nil =>
          rw [scan_char_nil s hch] at hcur1
          cases hcur1
      | cons pc r =>
          obtain ⟨p2, c2⟩ := pc
          have hcur1b := hcur1
          rw [scan_char_cons s p2 c2 r hch] at hcur1b
          injection hcur1b with hc2
          subst hc2
          have hcoh1 : Coherent (scan_char s) :=
            coherent_scan_char s hcoh (by simp [hcur])
          have hcoh2 : Coherent (scan_char (scan_char s)) :=
            coherent_scan_char _ hcoh1 (by simp [hcur1])
          have hch3 : (scan_char s).chars = r := by
            rw [scan_char_cons s p2 c2 r hch]
          have hro2 : runs_out_in_string (r.map Prod.snd) = true := by
            rw [remaining_some s backslashChar hcur, hch] at hro
            simp only [List.map_cons] at hro
            rw [runs_out_backslash_cons] at hro
            simp only [hesc, Bool.true_and] at hro
            exact hro
          have hd := hsome backslashChar hcur
          rw [hch] at hd
          obtain ⟨s', herr⟩ := ih a pre
            (mid ++ [(s.position, backslashChar), (p2, c2)]) hcoh2
            (by rw [scan_char_token, scan_char_token]; exact hstart)
            (by
              intro c3 hc3
              cases hr : r with
              | nil =>
                  rw [scan_char_nil _ (hch3.trans hr)] at hc3
                  cases hc3
              | cons pc3 r2 =>
                  obtain ⟨p3, c4⟩ := pc3
                  rw [scan_char_cons _ p3 c4 r2 (hch3.trans hr)] at hc3 ⊢
                  injection hc3 with hc4
                  subst hc4
                  show charIndices (scan_char s).input = _
                  rw [scan_char_input, hd, hr]
                  simp)
            (by
              intro hc3
              cases hr : r with
              | cons pc3 r2 =>
                  obtain ⟨p3, c4⟩ := pc3
                  rw [scan_char_cons _ p3 c4 r2 (hch3.trans hr)] at hc3
                  cases hc3
              | nil =>
                  rw [scan_char_nil _ (hch3.trans hr)]
                  show charIndices (scan_char s).input = _
                  rw [scan_char_input, hd, hr])
            hpre
            (by
              rw [remaining_scan_char, hch3]
              exact hro2)
          rw [scan_char_input, scan_char_input] at herr
          refine ⟨s', ?_⟩
          rw [string_loop_backslash_escape s clean c2 hcur hcur1 hesc, hbuf]
          exact herr
  | case4 s clean c hcur1 hnesc hcur hneq =>
      intro a pre mid hcoh hstart hsome hnone hpre hro
      exfalso
      cases hch : s.chars with
      | nil =>
          rw [scan_char_nil s hch] at hcur1
          cases hcur1
      | cons pc r =>
          obtain ⟨p2, c2⟩ := pc
          have hcur1b := hcur1
          rw [scan_char_cons s p2 c2 r hch] at hcur1b
          injection hcur1b with hc2
          subst hc2
          have hf : is_escape_char c2 = false := by
            revert hnesc
            cases is_escape_char c2 <;> simp
          rw [remaining_some s backslashChar hcur, hch] at hro
          simp only [List.map_cons] at hro
          rw [runs_out_backslash_cons, hf] at hro
          simp at hro
  | case5 s clean hcur1 hcur hneq =>
      intro a pre mid hcoh hstart hsome hnone hpre hro
      exfalso
      cases hch : s.chars with
      | cons pc r =>
          obtain ⟨p2, c2⟩ := pc
          rw [scan_char_cons s p2 c2 r hch] at hcur1
          cases hcur1
      | nil =>
          rw [remaining_some s backslashChar hcur, hch] at hro
          simp only [List.map_nil] at hro
          rw [runs_out_backslash_nil] at hro
          cases hro
  | case6 s clean ch hcur hnq hnbs ih =>
      intro a pre mid hcoh hstart hsome hnone hpre hro
      have hcoh1 : Coherent (scan_char s) :=
        coherent_scan_char s hcoh (by simp [hcur])
      have hd := hsome ch hcur
      obtain ⟨s', herr⟩ := ih a pre (mid ++ [(s.position, ch)]) hcoh1
        (by rw [scan_char_token]; exact hstart)
        (by
          intro c3 hc3
          cases hch : s.chars with
          | nil =>
              rw [scan_char_nil s hch] at hc3
              cases hc3
          | cons pc r =>
              obtain ⟨p2, c2⟩ := pc
              rw [scan_char_cons s p2 c2 r hch] at hc3 ⊢
              injection hc3 with hc4
              subst hc4
              show charIndices s.input = _
              rw [hd, hch]
              simp)
        (by
          intro hc3
          cases hch : s.chars with
          | cons pc r =>
              obtain ⟨p2, c2⟩ := pc
              rw [scan_char_cons s p2 c2 r hch] at hc3
              cases hc3
          | nil =>
              rw [scan_char_nil s hch]
              show charIndices s.input = _
              rw [hd, hch])
        hpre
        (by
          rw [remaining_scan_char]
          rw [remaining_some s ch hcur, runs_out_other ch _ hnq hnbs] at hro
          exact hro)
      rw [scan_char_input] at herr
      refine ⟨s', ?_⟩
      rw [string_loop_other s clean ch hcur hnq hnbs]
      exact herr
  | case7 s clean hcur =>
      intro a pre mid hcoh hstart hsome hnone hpre hro
      refine ⟨s, ?_⟩
      rw [string_loop_none s clean hcur]
      rcases hcoh with ⟨c0, pre0, hcur0, _, _⟩ | ⟨_, _, hpos⟩
      · rw [hcur] at hcur0
        cases hcur0
      · rw [hpos, hstart]

end Scanner


namespace Scanner

/-- Reaching end of input inside an open string literal: if the cursor sits
on an opening quote and the rest of the stream runs out before a closing
quote (with all escape sequences intact), `scan` fails with
`UnexpectedEndOfInputInString`, carrying the scanner's computed end-of-input
offset and the byte offset of the opening quote. -/
theorem scan_runs_out_spec (s : Scanner) (hcoh : Coherent s)
    (hq : s.current_char = some quoteChar)
    (hro : runs_out_in_string (s.chars.map Prod.snd) = true) :
    ∃ s', scan s = .err s'
      (.UnexpectedEndOfInputInString (eofPosition s.input) s.position) := by
  have hsw : skip_whitespace s = s := skip_whitespace_stop s quoteChar hq (by decide)
  have hccB : (set_token_start (skip_whitespace s)).current_char = some quoteChar := by
    rw [hsw]
    exact hq
  rw [scan_quote_eq s hccB]
  unfold scan_string
  rw [hsw]
  have hcoh2 := hcoh
  rcases hcoh2 with ⟨c0, pre0, hcur0, hidx, hlast⟩ | ⟨hcur0, _, _⟩
  · rw [hq] at hcur0
    injection hcur0 with hc0
    subst hc0
    have hcohB : Coherent (set_token_start s) := coherent_set_token_start s hcoh
    have hcoh1 : Coherent (scan_char (set_token_start s)) :=
      coherent_scan_char _ hcohB (by
        show s.current_char.isSome
        rw [hq]
        rfl)
    obtain ⟨s', herr⟩ := string_loop_runs_out (scan_char (set_token_start s)) none
      s.position pre0 [] hcoh1
      (by rw [scan_char_token]; rfl)
      (by
        intro c3 hc3
        cases hch : s.chars with
        | nil =>
            rw [scan_char_nil (set_token_start s) hch] at hc3
            cases hc3
        | cons pc r =>
            obtain ⟨p2, c2⟩ := pc
            rw [scan_char_cons (set_token_start s) p2 c2 r hch] at hc3 ⊢
            injection hc3 with hc4
            subst hc4
            show charIndices s.input = _
            rw [hidx, hch]
            simp)
      (by
        intro hc3
        cases hch : s.chars with
        | cons pc r =>
            obtain ⟨p2, c2⟩ := pc
            rw [scan_char_cons (set_token_start s) p2 c2 r hch] at hc3
            cases hc3
        | nil =>
            rw [scan_char_nil (set_token_start s) hch]
            show charIndices s.input = _
            rw [hidx, hch])
      (by
        intro x hx
        have := charIndices_head_ge s.input pre0 s.chars s.position quoteChar hidx x hx
        have hw := x.2.utf8Size_pos
        omega)
      (by
        rw [remaining_scan_char]
        exact hro)
    rw [scan_char_input] at herr
    exact ⟨s', herr⟩
  · rw [hq] at hcur0
    cases hcur0

end Scanner


namespace Scanner

theorem string_loop_eq (s : Scanner) (clean : Option (List Char)) :
    string_loop s clean =
    match s.current_char with
    | some ch =>
        if ch = quoteChar then string_close (scan_char s) clean
        else if ch = backslashChar then
          match (scan_char s).current_char with
          | some c =>
              if is_escape_char c then
                match escape_buffer (scan_char s) clean with
                | none => .panicked (scan_char s)
                | some str =>
                    string_loop (scan_char (scan_char s))
                      (some (str ++ [escape_result c]))
              else .err (scan_char s)
                (.UnexpectedCharacterInEscapeSequence (scan_char s).position c)
          | none => .err (scan_char s)
              (.UnexpectedEndOfInputInEscapeSequence (scan_char s).position)
        else
          string_loop (scan_char s)
            (match clean with
             | some str => some (str ++ [ch])
             | none => none)
    | none => .err s (.UnexpectedEndOfInputInString s.position s.token.start) := by
  rw [string_loop]
  split
  · rename_i ch heq
    simp only [heq]
    by_cases hq : ch = quoteChar
    · simp only [if_pos hq]
    · simp only [if_neg hq]
      by_cases hb : ch = backslashChar
      · simp only [if_pos hb]
        split
        · rename_i c heq2
          simp only [heq2]
        · rename_i heq2
          simp only [heq2]
      · simp only [if_neg hb]
  · rename_i heq
    simp only [heq]

end Scanner


namespace Scanner

/-- Exact spans for the one-codepoint-lookahead symbol scan, from a coherent
state whose cursor sits on the (single-byte) leading character: the double
symbol is emitted spanning two bytes exactly when the next codepoint is the
expected one; otherwise only the leading character is consumed and the
single symbol spans one byte. -/
theorem maybe_double_exact (s : Scanner) (exp : Char) (sy dy : Symbol)
    (lead : Char) (hcoh : Coherent s) (hc : s.current_char = some lead)
    (hlw : lead.utf8Size = 1) (hexpw : exp.utf8Size = 1)
    (s' : Scanner)
    (h : maybe_double_symbol (set_token_start s) exp sy dy = .ok s') :
    ((∃ p r, s.chars = (p, exp) :: r) →
        s'.token.kind = TokenKind.Symbol dy ∧ s'.token.start = s.position ∧
        s'.token.endPos = s.position + 2 ∧ s'.position = s.position + 2) ∧
    (∀ p c2 r, s.chars = (p, c2) :: r → c2 ≠ exp →
        s'.token.kind = TokenKind.Symbol sy ∧ s'.token.start = s.position ∧
        s'.token.endPos = s.position + 1 ∧ s'.position = s.position + 1) ∧
    (s.chars = [] →
        s'.token.kind = TokenKind.Symbol sy ∧ s'.token.start = s.position ∧
        s'.token.endPos = s'.position) := by
  unfold maybe_double_symbol at h
  dsimp only at h
  rcases hcoh with ⟨c0, pre, hcur0, hidx, hlast⟩ | ⟨hcur0, _, _⟩
  case inr =>
    rw [hc] at hcur0
    cases hcur0
  case inl =>
  rw [hc] at hcur0
  injection hcur0 with hc0
  subst hc0
  refine ⟨?_, ?_, ?_⟩
  · rintro ⟨p, r, hch⟩
    have hcur1 : (scan_char (set_token_start s)).current_char = some exp := by
      rw [scan_char_cons (set_token_start s) p exp r hch]
    have hpos1 : (scan_char (set_token_start s)).position = p := by
      rw [scan_char_cons (set_token_start s) p exp r hch]
    have hchars1 : (scan_char (set_token_start s)).chars = r := by
      rw [scan_char_cons (set_token_start s) p exp r hch]
    have hlast1 : (scan_char (set_token_start s)).last_char = some lead := by
      rw [scan_char_cons (set_token_start s) p exp r hch]
      exact hc
    rw [hcur1] at h
    dsimp only at h
    rw [if_pos rfl] at h
    unfold single_symbol at h
    rw [hch] at hidx
    have hp : p = s.position + 1 := by
      have := charIndices_consecutive s.input pre r s.position p lead exp hidx
      omega
    have hpos2 : (scan_char (scan_char (set_token_start s))).position =
        s.position + 2 := by
      cases hr : r with
      | nil =>
          rw [scan_char_nil _ (hchars1.trans hr)]
          show (scan_char (set_token_start s)).position +
            (match (scan_char (set_token_start s)).last_char with
             | some c => c.utf8Size
             | none => 1) = s.position + 2
          rw [hpos1, hlast1]
          dsimp only
          omega
      | cons pc3 r3 =>
          obtain ⟨p3, c3⟩ := pc3
          rw [scan_char_cons _ p3 c3 r3 (hchars1.trans hr)]
          show p3 = s.position + 2
          rw [hr] at hidx
          have hidx2 : charIndices s.input =
              (pre ++ [(s.position, lead)]) ++ (p, exp) :: (p3, c3) :: r3 := by
            rw [hidx]
            simp
          have := charIndices_consecutive s.input (pre ++ [(s.position, lead)])
            r3 p p3 exp c3 hidx2
          omega
    obtain ⟨f1, f2, f3, f4, f5, f6, f7, f8, f9, f10⟩ :=
      finish_token_ok _ (TokenKind.Symbol dy) s' h
    refine ⟨f6, ?_, ?_, ?_⟩
    · rw [f7, scan_char_token, scan_char_token]
      rfl
    · rw [f8, hpos2]
    · rw [f5, hpos2]
  · intro p c2 r hch hne
    have hcur1 : (scan_char (set_token_start s)).current_char = some c2 := by
      rw [scan_char_cons (set_token_start s) p c2 r hch]
    have hpos1 : (scan_char (set_token_start s)).position = p := by
      rw [scan_char_cons (set_token_start s) p c2 r hch]
    rw [hcur1] at h
    dsimp only at h
    rw [if_neg hne] at h
    rw [hch] at hidx
    have hp : p = s.position + 1 := by
      have := charIndices_consecutive s.input pre r s.position p lead c2 hidx
      omega
    obtain ⟨f1, f2, f3, f4, f5, f6, f7, f8, f9, f10⟩ :=
      finish_token_ok _ (TokenKind.Symbol sy) s' h
    refine ⟨f6, ?_, ?_, ?_⟩
    · rw [f7, scan_char_token]
      rfl
    · rw [f8, hpos1, hp]
    · rw [f5, hpos1, hp]
  · intro hch
    have hcur1 : (scan_char (set_token_start s)).current_char = none := by
      rw [scan_char_nil (set_token_start s) hch]
    rw [hcur1] at h
    dsimp only at h
    obtain ⟨f1, f2, f3, f4, f5, f6, f7, f8, f9, f10⟩ :=
      finish_token_ok _ (TokenKind.Symbol sy) s' h
    refine ⟨f6, ?_, ?_⟩
    · rw [f7, scan_char_token]
      rfl
    · rw [f8, f5]

end Scanner


namespace Scanner

/-- The pairs of single- and double-character symbols sharing a leading
character, exactly as dispatched by `scan` to `maybe_double_symbol`. -/
def doubleSymbolTable : List (Char × Char × Symbol × Symbol) :=
  [(':', ':', Symbol.Colon, Symbol.DoubleColon),
   ('=', '=', Symbol.Eq, Symbol.EqEq),
   ('-', '>', Symbol.Minus, Symbol.Arrow)]

/-- Maximal munch at the `scan` level: for each table entry, a successful
scan from a cursor on the leading character emits the double symbol exactly
when the next codepoint is the expected second character (consuming both,
two bytes), and otherwise the single symbol (consuming one byte). -/
theorem scan_double_symbol_spec (s : Scanner) (lead exp : Char) (sy dy : Symbol)
    (htab : (lead, exp, sy, dy) ∈ doubleSymbolTable)
    (hcoh : Coherent s) (hc : s.current_char = some lead)
    (s' : Scanner) (h : scan s = .ok s') :
    ((∃ p r, s.chars = (p, exp) :: r) →
        s'.token.kind = TokenKind.Symbol dy ∧ s'.token.start = s.position ∧
        s'.token.endPos = s.position + 2 ∧ s'.position = s.position + 2) ∧
    (∀ p c2 r, s.chars = (p, c2) :: r → c2 ≠ exp →
        s'.token.kind = TokenKind.Symbol sy ∧ s'.token.start = s.position ∧
        s'.token.endPos = s.position + 1 ∧ s'.position = s.position + 1) ∧
    (s.chars = [] →
        s'.token.kind = TokenKind.Symbol sy ∧ s'.token.start = s.position ∧
        s'.token.endPos = s'.position) := by
  simp only [doubleSymbolTable, List.mem_cons, List.mem_singleton,
    Prod.mk.injEq, List.not_mem_nil, or_false] at htab
  rcases htab with ⟨h1, h2, h3, h4⟩ | ⟨h1, h2, h3, h4⟩ | ⟨h1, h2, h3, h4⟩ <;>
    subst h1 <;> subst h2 <;> subst h3 <;> subst h4
  · have hsw : skip_whitespace s = s := skip_whitespace_stop s ':' hc (by decide)
    have hccB : (set_token_start (skip_whitespace s)).current_char = some ':' := by
      rw [hsw]
      exact hc
    have heq := scan_colon_eq s hccB
    rw [heq, hsw] at h
    exact maybe_double_exact s ':' Symbol.Colon Symbol.DoubleColon ':' hcoh hc
      (by decide) (by decide) s' h
  · have hsw : skip_whitespace s = s := skip_whitespace_stop s '=' hc (by decide)
    have hccB : (set_token_start (skip_whitespace s)).current_char = some '=' := by
      rw [hsw]
      exact hc
    have heq := scan_equals_eq s hccB
    rw [heq, hsw] at h
    exact maybe_double_exact s '=' Symbol.Eq Symbol.EqEq '=' hcoh hc
      (by decide) (by decide) s' h
  · have hsw : skip_whitespace s = s := skip_whitespace_stop s '-' hc (by decide)
    have hccB : (set_token_start (skip_whitespace s)).current_char = some '-' := by
      rw [hsw]
      exact hc
    have heq := scan_minus_eq s hccB
    rw [heq, hsw] at h
    exact maybe_double_exact s '>' Symbol.Minus Symbol.Arrow '-' hcoh hc
      (by decide) (by decide) s' h

end Scanner


namespace Scanner

/-- Whitespace transparency: when the cursor sits on a whitespace
character, `scan` behaves exactly as on the state with that character
consumed. -/
theorem scan_ws_transparent (s : Scanner) (ch : Char)
    (h : s.current_char = some ch) (hws : rustIsWhitespace ch) :
    scan s = scan (scan_char s) := by
  conv_lhs => rw [scan_eq]
  conv_rhs => rw [scan_eq]
  rw [skip_whitespace_ws s ch h hws]

/-- Whenever a successful `scan` from a coherent state emits the `Eof`
token, its span is `[byteLen input, byteLen input)`: the slice taken by
`finish_token` only succeeds when the computed end-of-input offset is a
boundary, which forces it to equal the byte length. -/
theorem scan_eof_spec (s : Scanner) : Coherent s → ∀ s', scan s = .ok s' →
    s'.token.kind = TokenKind.Eof →
    s'.token.start = byteLen s.input ∧ s'.token.endPos = byteLen s.input := by
  induction s using scan.induct with
  | case1 x hcc hcc2 ih =>
      intro hcoh s' h hk
      rw [scan_comment_eq x hcc hcc2] at h
      have hcohB : Coherent (set_token_start (skip_whitespace x)) :=
        coherent_set_token_start _ (skip_whitespace_spec x hcoh).1
      have hcoh1 := coherent_scan_char _ hcohB (by simp [hcc])
      have hcoh2 := (skip_line_comment_spec _ hcoh1).1
      have hin : (skip_line_comment
          (scan_char (set_token_start (skip_whitespace x)))).input = x.input := by
        rw [skip_line_comment_input, scan_char_input]
        exact skip_whitespace_input x
      have := ih hcoh2 s' h hk
      rw [hin] at this
      exact this
  | case2 x c2 hcc2 hne hcc =>
      intro hcoh s' h hk
      rw [scan_slash_some_eq x c2 hcc hcc2 hne] at h
      have f6 := (finish_token_ok _ _ s' h).2.2.2.2.2.1
      rw [f6] at hk
      cases hk
  | case3 x hcc2 hcc =>
      intro hcoh s' h hk
      rw [scan_slash_none_eq x hcc hcc2] at h
      have f6 := (finish_token_ok _ _ s' h).2.2.2.2.2.1
      rw [f6] at hk
      cases hk
  | case4 x ch hcc hne1 hst =>
      intro hcoh s' h hk
      rw [scan_ident_eq x ch hcc hst] at h
      unfold scan_identifier_or_keyword at h
      have hcohB : Coherent (set_token_start (skip_whitespace x)) :=
        coherent_set_token_start _ (skip_whitespace_spec x hcoh).1
      have hcoh1 := coherent_scan_char _ hcohB (by simp [hcc])
      rcases (ident_loop_ok _ s' hcoh1 h).2.2.2.2.2 with h6 | ⟨kw, h6⟩ <;>
        rw [h6] at hk <;> cases hk
  | case5 x ch hcc hne1 hnst hd =>
      intro hcoh s' h hk
      rw [scan_digit_eq x ch hcc hd] at h
      unfold scan_number at h
      have hcohB : Coherent (set_token_start (skip_whitespace x)) :=
        coherent_set_token_start _ (skip_whitespace_spec x hcoh).1
      have hcoh1 := coherent_scan_char _ hcohB (by simp [hcc])
      have h6 := (number_loop_ok _ s' hcoh1 h).2.2.2.2.2.1
      rw [h6] at hk
      cases hk
  | case15 x hcc hn1 hn2 hn3 hn4 hn5 hn6 hn7 hn8 hn9 hn10 hn11 hn12 =>
      intro hcoh s' h hk
      rw [scan_quote_eq x hcc] at h
      unfold scan_string at h
      have hcohB : Coherent (set_token_start (skip_whitespace x)) :=
        coherent_set_token_start _ (skip_whitespace_spec x hcoh).1
      have hcoh1 := coherent_scan_char _ hcohB (by simp [hcc])
      have h6 := (string_loop_ok _ none s' hcoh1 h).2.2.2.2.2
      rw [h6] at hk
      cases hk
  | case16 x ch hcc hn1 hn2 hn3 hn4 hn5 hn6 hn7 hn8 hn9 hn10 hn11 hn12 hn13 =>
      intro hcoh s' h hk
      rw [scan_unexpected_eq x ch hcc hn1 hn2 hn3 hn4 hn5 hn6 hn7 hn8 hn9
        hn10 hn11 hn12 hn13] at h
      cases h
  | case17 x hcc =>
      intro hcoh s' h hk
      rw [scan_eof_eq x hcc] at h
      have hcohB : Coherent (set_token_start (skip_whitespace x)) :=
        coherent_set_token_start _ (skip_whitespace_spec x hcoh).1
      obtain ⟨f1, f2, f3, f4, f5, f6, f7, f8, f9, f10⟩ :=
        finish_token_ok _ TokenKind.Eof s' h
      rcases hcohB with ⟨c0, pre0, hcur0, _, _⟩ | ⟨hcur0, hch0, hpos0⟩
      · rw [hcc] at hcur0
        cases hcur0
      · have hbd := (byteSlice_some _ _ _ _ f9).2.2.2
        rw [hpos0] at hbd
        have hble := eofPosition_boundary _ hbd
        have hbi : (set_token_start (skip_whitespace x)).input = x.input :=
          skip_whitespace_input x
        constructor
        · rw [f7]
          show (set_token_start (skip_whitespace x)).position = byteLen x.input
          rw [hpos0, ← hbi]
          exact hble
        · rw [f8]
          rw [hpos0, ← hbi]
          exact hble
  | case6 x hcc hn1 hn2 hn3 =>
      intro hcoh s' h hk
      rw [scan_colon_eq x hcc] at h
      have hcohB : Coherent (set_token_start (skip_whitespace x)) :=
        coherent_set_token_start _ (skip_whitespace_spec x hcoh).1
      rcases (maybe_double_symbol_ok _ _ _ _ s' hcohB (by simp [hcc]) h).2.2.2.2.2
        with h6 | h6 <;> rw [h6] at hk <;> cases hk
  | case7 x hcc hn1 hn2 hn3 hn4 =>
      intro hcoh s' h hk
      rw [scan_equals_eq x hcc] at h
      have hcohB : Coherent (set_token_start (skip_whitespace x)) :=
        coherent_set_token_start _ (skip_whitespace_spec x hcoh).1
      rcases (maybe_double_symbol_ok _ _ _ _ s' hcohB (by simp [hcc]) h).2.2.2.2.2
        with h6 | h6 <;> rw [h6] at hk <;> cases hk
  | case8 x hcc hn1 hn2 hn3 hn4 hn5 =>
      intro hcoh s' h hk
      rw [scan_semicolon_eq x hcc] at h
      have hcohB : Coherent (set_token_start (skip_whitespace x)) :=
        coherent_set_token_start _ (skip_whitespace_spec x hcoh).1
      have h6 := (single_symbol_ok _ _ s' hcohB (by simp [hcc]) h).2.2.2.2.2
      rw [h6] at hk
      cases hk
  | case9 x hcc hn1 hn2 hn3 hn4 hn5 hn6 =>
      intro hcoh s' h hk
      rw [scan_comma_eq x hcc] at h
      have hcohB : Coherent (set_token_start (skip_whitespace x)) :=
        coherent_set_token_start _ (skip_whitespace_spec x hcoh).1
      have h6 := (single_symbol_ok _ _ s' hcohB (by simp [hcc]) h).2.2.2.2.2
      rw [h6] at hk
      cases hk
  | case10 x hcc hn1 hn2 hn3 hn4 hn5 hn6 hn7 =>
      intro hcoh s' h hk
      rw [scan_dot_eq x hcc] at h
      have hcohB : Coherent (set_token_start (skip_whitespace x)) :=
        coherent_set_token_start _ (skip_whitespace_spec x hcoh).1
      have h6 := (single_symbol_ok _ _ s' hcohB (by simp [hcc]) h).2.2.2.2.2
      rw [h6] at hk
      cases hk
  | case11 x hcc hn1 hn2 hn3 hn4 hn5 hn6 hn7 hn8 =>
      intro hcoh s' h hk
      rw [scan_plus_eq x hcc] at h
      have hcohB : Coherent (set_token_start (skip_whitespace x)) :=
        coherent_set_token_start _ (skip_whitespace_spec x hcoh).1
      have h6 := (single_symbol_ok _ _ s' hcohB (by simp [hcc]) h).2.2.2.2.2
      rw [h6] at hk
      cases hk
  | case12 x hcc hn1 hn2 hn3 hn4 hn5 hn6 hn7 hn8 hn9 =>
      intro hcoh s' h hk
      rw [scan_star_eq x hcc] at h
      have hcohB : Coherent (set_token_start (skip_whitespace x)) :=
        coherent_set_token_start _ (skip_whitespace_spec x hcoh).1
      have h6 := (single_symbol_ok _ _ s' hcohB (by simp [hcc]) h).2.2.2.2.2
      rw [h6] at hk
      cases hk
  | case13 x hcc hn1 hn2 hn3 hn4 hn5 hn6 hn7 hn8 hn9 hn10 =>
      intro hcoh s' h hk
      rw [scan_minus_eq x hcc] at h
      have hcohB : Coherent (set_token_start (skip_whitespace x)) :=
        coherent_set_token_start _ (skip_whitespace_spec x hcoh).1
      rcases (maybe_double_symbol_ok _ _ _ _ s' hcohB (by simp [hcc]) h).2.2.2.2.2
        with h6 | h6 <;> rw [h6] at hk <;> cases hk
  | case14 x hcc hn1 hn2 hn3 hn4 hn5 hn6 hn7 hn8 hn9 hn10 hn11 =>
      intro hcoh s' h hk
      rw [scan_backslash_eq x hcc] at h
      have hcohB : Coherent (set_token_start (skip_whitespace x)) :=
        coherent_set_token_start _ (skip_whitespace_spec x hcoh).1
      have h6 := (single_symbol_ok _ _ s' hcohB (by simp [hcc]) h).2.2.2.2.2
      rw [h6] at hk
      cases hk

end Scanner



open Scanner

/-! Concrete example states used by the claim witnesses below: for each
input, the scanner state at a point of interest and the state or outcome
the next `scan` produces (checked by evaluation in the proofs). -/

def exQmark : Scanner :=
  { input := ['?'], chars := [], last_char := none, current_char := some '?', position := 0, token := Token.new TokenKind.Eof }

def exQmarkErr : Scanner :=
  { input := ['?'], chars := [], last_char := none, current_char := some '?', position := 0, token := { kind := TokenKind.Eof, start := 0, endPos := 0, raw_text := [], text := [] } }

def exXq1 : Scanner :=
  { input := ['x', ' ', '?'], chars := [(2, '?')], last_char := some 'x', current_char := some ' ', position := 1, token := { kind := TokenKind.Identifier, start := 0, endPos := 1, raw_text := ['x'], text := ['x'] } }

def exXq2 : Scanner :=
  { input := ['x', ' ', '?'], chars := [], last_char := some ' ', current_char := some '?', position := 2, token := { kind := TokenKind.Identifier, start := 2, endPos := 1, raw_text := ['x'], text := ['x'] } }

def exNum0 : Scanner :=
  { input := ['1', '_', '0', '0', '0'], chars := [(1, '_'), (2, '0'), (3, '0'), (4, '0')], last_char := none, current_char := some '1', position := 0, token := Token.new TokenKind.Eof }

def exNum1 : Scanner :=
  { input := ['1', '_', '0', '0', '0'], chars := [], last_char := some '0', current_char := none, position := 5, token := { kind := TokenKind.Number, start := 0, endPos := 5, raw_text := ['1', '_', '0', '0', '0'], text := ['1', '0', '0', '0'] } }

def exColon0 : Scanner :=
  { input := [':', ':'], chars := [(1, ':')], last_char := none, current_char := some ':', position := 0, token := Token.new TokenKind.Eof }

def exColon1 : Scanner :=
  { input := [':', ':'], chars := [], last_char := some ':', current_char := none, position := 2, token := { kind := TokenKind.Symbol Symbol.DoubleColon, start := 0, endPos := 2, raw_text := [':', ':'], text := [':', ':'] } }

def exStr0 : Scanner :=
  { input := [quoteChar, 'a', 'b', quoteChar], chars := [(1, 'a'), (2, 'b'), (3, quoteChar)], last_char := none, current_char := some quoteChar, position := 0, token := Token.new TokenKind.Eof }

def exStr1 : Scanner :=
  { input := [quoteChar, 'a', 'b', quoteChar], chars := [], last_char := some 'b', current_char := none, position := 4, token := { kind := TokenKind.String, start := 0, endPos := 4, raw_text := [quoteChar, 'a', 'b', quoteChar], text := ['a', 'b'] } }

def exQuoteE : Scanner :=
  { input := [quoteChar, 'é'], chars := [], last_char := some quoteChar, current_char := none, position := 2, token := { kind := TokenKind.Eof, start := 0, endPos := 0, raw_text := [], text := [] } }

def exQuote1 : Scanner :=
  { input := [quoteChar], chars := [], last_char := none, current_char := some quoteChar, position := 0, token := Token.new TokenKind.Eof }

def exQuote1Err : Scanner :=
  { input := [quoteChar], chars := [], last_char := none, current_char := none, position := 1, token := { kind := TokenKind.Eof, start := 0, endPos := 0, raw_text := [], text := [] } }

def exWs0 : Scanner :=
  { input := [' ', 'z'], chars := [(1, 'z')], last_char := none, current_char := some ' ', position := 0, token := Token.new TokenKind.Eof }

def exA0 : Scanner :=
  { input := ['a'], chars := [], last_char := none, current_char := none, position := 1, token := { kind := TokenKind.Identifier, start := 0, endPos := 1, raw_text := ['a'], text := ['a'] } }

def exA1 : Scanner :=
  { input := ['a'], chars := [], last_char := none, current_char := none, position := 1, token := { kind := TokenKind.Eof, start := 1, endPos := 1, raw_text := [], text := [] } }

def exXY0 : Scanner :=
  { input := ['x', ' ', 'y'], chars := [(1, ' '), (2, 'y')], last_char := none, current_char := some 'x', position := 0, token := Token.new TokenKind.Eof }

def exXY1 : Scanner :=
  { input := ['x', ' ', 'y'], chars := [(2, 'y')], last_char := some 'x', current_char := some ' ', position := 1, token := { kind := TokenKind.Identifier, start := 0, endPos := 1, raw_text := ['x'], text := ['x'] } }

def exXY2 : Scanner :=
  { input := ['x', ' ', 'y'], chars := [], last_char := some ' ', current_char := none, position := 3, token := { kind := TokenKind.Identifier, start := 2, endPos := 3, raw_text := ['y'], text := ['y'] } }


/-- C1: Refutation of the no-panic guarantee: on the empty input string the
scanner panics.  `Scanner::new` scans the first character, the end-of-input
fallback advances the position to `last_position + 1 = 1`, and finishing
the Eof token slices the empty input at `[1..1]`, which is out of bounds
(modelled by the `panicked` outcome). -/
theorem C1_new_panics_on_empty_input :
    (new ([] : List Char)).isPanicked = true := by
  simp +decide [run, runAux, new, scan_eq, skip_whitespace_eq, skip_line_comment_eq,
    scan_char, set_token_start, finish_token, finish_token_with,
    finish_ident, keyword_of, cleanup_number, ident_loop_eq,
    number_loop_eq, string_loop_eq, string_close, escape_buffer,
    escape_result, is_escape_char, scan_identifier_or_keyword,
    scan_number, scan_string, single_symbol, maybe_double_symbol,
    current_text, is_ident_start, is_ident_char, is_digit_char,
    is_number_char, rustIsWhitespace, byteSlice, charIndices,
    charIndicesFrom, byteLen, isBoundary, eofPosition, Token.new,
    quoteChar, backslashChar, apostropheChar, newlineChar, crChar,
    tabChar, ScanOutcome.isPanicked, exQmark, exQmarkErr, exXq1,
    exXq2, exNum0, exNum1, exColon0, exColon1, exStr0, exStr1,
    exQuoteE, exQuote1, exQuote1Err, exWs0, exA0, exA1, exXY0,
    exXY1, exXY2]

/-- C2: Whenever `scan` does emit an `Eof` token from a coherent state its
span is `[byteLen input, byteLen input)`; but the scanner does not always
get that far: on the input `//é`, which reaches end of input without any
error, it panics instead of emitting `Eof` (and on the empty input — the
claim's own instance — it panics as well, rather than yielding span
`[0, 0)`). -/
theorem C2_eof_token_span :
    (∀ s s', Scanner.Coherent s → scan s = ScanOutcome.ok s' →
        s'.token.kind = TokenKind.Eof →
        s'.token.start = byteLen s.input ∧ s'.token.endPos = byteLen s.input) ∧
    (new ['/', '/', 'é']).isPanicked = true := by
  refine ⟨fun s s' hcoh h hk => scan_eof_spec s hcoh s' h hk, ?_⟩
  simp +decide [run, runAux, new, scan_eq, skip_whitespace_eq, skip_line_comment_eq,
    scan_char, set_token_start, finish_token, finish_token_with,
    finish_ident, keyword_of, cleanup_number, ident_loop_eq,
    number_loop_eq, string_loop_eq, string_close, escape_buffer,
    escape_result, is_escape_char, scan_identifier_or_keyword,
    scan_number, scan_string, single_symbol, maybe_double_symbol,
    current_text, is_ident_start, is_ident_char, is_digit_char,
    is_number_char, rustIsWhitespace, byteSlice, charIndices,
    charIndicesFrom, byteLen, isBoundary, eofPosition, Token.new,
    quoteChar, backslashChar, apostropheChar, newlineChar, crChar,
    tabChar, ScanOutcome.isPanicked, exQmark, exQmarkErr, exXq1,
    exXq2, exNum0, exNum1, exColon0, exColon1, exStr0, exStr1,
    exQuoteE, exQuote1, exQuote1Err, exWs0, exA0, exA1, exXY0,
    exXY1, exXY2]

theorem C2_eof_token_span_witness :
    Scanner.Coherent exA0 ∧
    exA1.token.start = byteLen exA0.input ∧
    exA1.token.endPos = byteLen exA0.input := by
  refine ⟨Or.inr ⟨rfl, rfl, by decide⟩, ?_, ?_⟩
  · exact (C2_eof_token_span.1 exA0 exA1 (Or.inr ⟨rfl, rfl, by decide⟩)
      (by simp +decide [run, runAux, new, scan_eq, skip_whitespace_eq, skip_line_comment_eq,
    scan_char, set_token_start, finish_token, finish_token_with,
    finish_ident, keyword_of, cleanup_number, ident_loop_eq,
    number_loop_eq, string_loop_eq, string_close, escape_buffer,
    escape_result, is_escape_char, scan_identifier_or_keyword,
    scan_number, scan_string, single_symbol, maybe_double_symbol,
    current_text, is_ident_start, is_ident_char, is_digit_char,
    is_number_char, rustIsWhitespace, byteSlice, charIndices,
    charIndicesFrom, byteLen, isBoundary, eofPosition, Token.new,
    quoteChar, backslashChar, apostropheChar, newlineChar, crChar,
    tabChar, ScanOutcome.isPanicked, exQmark, exQmarkErr, exXq1,
    exXq2, exNum0, exNum1, exColon0, exColon1, exStr0, exStr1,
    exQuoteE, exQuote1, exQuote1Err, exWs0, exA0, exA1, exXY0,
    exXY1, exXY2]) rfl).1
  · exact (C2_eof_token_span.1 exA0 exA1 (Or.inr ⟨rfl, rfl, by decide⟩)
      (by simp +decide [run, runAux, new, scan_eq, skip_whitespace_eq, skip_line_comment_eq,
    scan_char, set_token_start, finish_token, finish_token_with,
    finish_ident, keyword_of, cleanup_number, ident_loop_eq,
    number_loop_eq, string_loop_eq, string_close, escape_buffer,
    escape_result, is_escape_char, scan_identifier_or_keyword,
    scan_number, scan_string, single_symbol, maybe_double_symbol,
    current_text, is_ident_start, is_ident_char, is_digit_char,
    is_number_char, rustIsWhitespace, byteSlice, charIndices,
    charIndicesFrom, byteLen, isBoundary, eofPosition, Token.new,
    quoteChar, backslashChar, apostropheChar, newlineChar, crChar,
    tabChar, ScanOutcome.isPanicked, exQmark, exQmarkErr, exXq1,
    exXq2, exNum0, exNum1, exColon0, exColon1, exStr0, exStr1,
    exQuoteE, exQuote1, exQuote1Err, exWs0, exA0, exA1, exXY0,
    exXY1, exXY2]) rfl).2

/-- C3: Counterexample: on the input `x ?` the first advance succeeds and
the second fails with `UnexpectedCharacter`, but the failed call has
already overwritten the token's start offset (from 0 to 2), so the token is
not exactly what it was before the failed call. -/
theorem C3_counterexample :
    ∃ s1 s2 e, new ['x', ' ', '?'] = ScanOutcome.ok s1 ∧
      scan s1 = ScanOutcome.err s2 e ∧ s2.token.start ≠ s1.token.start := by
  refine ⟨exXq1, exXq2, ScanError.UnexpectedCharacter 2 '?', ?_, ?_, by decide⟩
  · simp +decide [run, runAux, new, scan_eq, skip_whitespace_eq, skip_line_comment_eq,
    scan_char, set_token_start, finish_token, finish_token_with,
    finish_ident, keyword_of, cleanup_number, ident_loop_eq,
    number_loop_eq, string_loop_eq, string_close, escape_buffer,
    escape_result, is_escape_char, scan_identifier_or_keyword,
    scan_number, scan_string, single_symbol, maybe_double_symbol,
    current_text, is_ident_start, is_ident_char, is_digit_char,
    is_number_char, rustIsWhitespace, byteSlice, charIndices,
    charIndicesFrom, byteLen, isBoundary, eofPosition, Token.new,
    quoteChar, backslashChar, apostropheChar, newlineChar, crChar,
    tabChar, ScanOutcome.isPanicked, exQmark, exQmarkErr, exXq1,
    exXq2, exNum0, exNum1, exColon0, exColon1, exStr0, exStr1,
    exQuoteE, exQuote1, exQuote1Err, exWs0, exA0, exA1, exXY0,
    exXY1, exXY2]
  · simp +decide [run, runAux, new, scan_eq, skip_whitespace_eq, skip_line_comment_eq,
    scan_char, set_token_start, finish_token, finish_token_with,
    finish_ident, keyword_of, cleanup_number, ident_loop_eq,
    number_loop_eq, string_loop_eq, string_close, escape_buffer,
    escape_result, is_escape_char, scan_identifier_or_keyword,
    scan_number, scan_string, single_symbol, maybe_double_symbol,
    current_text, is_ident_start, is_ident_char, is_digit_char,
    is_number_char, rustIsWhitespace, byteSlice, charIndices,
    charIndicesFrom, byteLen, isBoundary, eofPosition, Token.new,
    quoteChar, backslashChar, apostropheChar, newlineChar, crChar,
    tabChar, ScanOutcome.isPanicked, exQmark, exQmarkErr, exXq1,
    exXq2, exNum0, exNum1, exColon0, exColon1, exStr0, exStr1,
    exQuoteE, exQuote1, exQuote1Err, exWs0, exA0, exA1, exXY0,
    exXY1, exXY2]

/-- C3: amended: when `scan` returns a `ScanError`, the current token's
kind, end offset, raw text and decoded text are exactly what they were
before the failed call; the start offset is not preserved, because `scan`
overwrites it with the cursor position before any error return. -/
theorem C3_error_leaves_token_amended (s s' : Scanner) (e : ScanError)
    (h : scan s = ScanOutcome.err s' e) :
    s'.token.kind = s.token.kind ∧ s'.token.endPos = s.token.endPos ∧
    s'.token.raw_text = s.token.raw_text ∧ s'.token.text = s.token.text := by
  obtain ⟨h1, h2, h3, h4, h5, h6⟩ := scan_err_spec s s' e h
  exact ⟨h2, h3, h4, h5⟩

theorem C3_error_leaves_token_amended_witness :
    exQmarkErr.token.kind = exQmark.token.kind ∧
    exQmarkErr.token.endPos = exQmark.token.endPos ∧
    exQmarkErr.token.raw_text = exQmark.token.raw_text ∧
    exQmarkErr.token.text = exQmark.token.text :=
  C3_error_leaves_token_amended exQmark exQmarkErr
    (ScanError.UnexpectedCharacter 0 '?')
    (by simp +decide [run, runAux, new, scan_eq, skip_whitespace_eq, skip_line_comment_eq,
    scan_char, set_token_start, finish_token, finish_token_with,
    finish_ident, keyword_of, cleanup_number, ident_loop_eq,
    number_loop_eq, string_loop_eq, string_close, escape_buffer,
    escape_result, is_escape_char, scan_identifier_or_keyword,
    scan_number, scan_string, single_symbol, maybe_double_symbol,
    current_text, is_ident_start, is_ident_char, is_digit_char,
    is_number_char, rustIsWhitespace, byteSlice, charIndices,
    charIndicesFrom, byteLen, isBoundary, eofPosition, Token.new,
    quoteChar, backslashChar, apostropheChar, newlineChar, crChar,
    tabChar, ScanOutcome.isPanicked, exQmark, exQmarkErr, exXq1,
    exXq2, exNum0, exNum1, exColon0, exColon1, exStr0, exStr1,
    exQuoteE, exQuote1, exQuote1Err, exWs0, exA0, exA1, exXY0,
    exXY1, exXY2])

/-- C4: For every Number token produced by a successful scan from a
coherent state, the decoded text is the raw text with every underscore
removed (in order) and consists only of digits; concretely, scanning
`1_000` yields one Number token with raw text `1_000`, decoded text `1000`
and span `[0, 5)`, followed by `Eof`. -/
theorem C4_number_decoding :
    (∀ s s', Scanner.Coherent s → scan s = ScanOutcome.ok s' →
        s'.token.kind = TokenKind.Number →
        s'.token.text = s'.token.raw_text.filter (fun c => decide (¬ c = '_')) ∧
        ∀ c ∈ s'.token.text, is_digit_char c = true) ∧
    run 50 ['1', '_', '0', '0', '0'] = RunResult.ok
      [{ kind := TokenKind.Number, start := 0, endPos := 5,
         raw_text := ['1', '_', '0', '0', '0'],
         text := ['1', '0', '0', '0'] },
       { kind := TokenKind.Eof, start := 5, endPos := 5, raw_text := [],
         text := [] }] := by
  constructor
  · intro s s' hcoh h hk
    obtain ⟨ht, hall⟩ := scan_number_spec s hcoh s' h hk
    refine ⟨?_, ?_⟩
    · rw [ht]
      refine List.filter_congr ?_
      intro c hc
      have hnc := hall c hc
      by_cases he : c = '_'
      · subst he
        decide
      · have hd : is_digit_char c = true := by
          have h2 := hnc
          simp only [is_number_char, Bool.or_eq_true, beq_iff_eq] at h2
          rcases h2 with hd | he2
          · exact hd
          · exact absurd he2 he
        simp [hd, he]
    · rw [ht]
      intro c hc
      exact (List.mem_filter.mp hc).2
  · simp +decide [run, runAux, new, scan_eq, skip_whitespace_eq, skip_line_comment_eq,
    scan_char, set_token_start, finish_token, finish_token_with,
    finish_ident, keyword_of, cleanup_number, ident_loop_eq,
    number_loop_eq, string_loop_eq, string_close, escape_buffer,
    escape_result, is_escape_char, scan_identifier_or_keyword,
    scan_number, scan_string, single_symbol, maybe_double_symbol,
    current_text, is_ident_start, is_ident_char, is_digit_char,
    is_number_char, rustIsWhitespace, byteSlice, charIndices,
    charIndicesFrom, byteLen, isBoundary, eofPosition, Token.new,
    quoteChar, backslashChar, apostropheChar, newlineChar, crChar,
    tabChar, ScanOutcome.isPanicked, exQmark, exQmarkErr, exXq1,
    exXq2, exNum0, exNum1, exColon0, exColon1, exStr0, exStr1,
    exQuoteE, exQuote1, exQuote1Err, exWs0, exA0, exA1, exXY0,
    exXY1, exXY2]

theorem C4_number_decoding_witness :
    Scanner.Coherent exNum0 ∧
    (exNum1.token.text =
      exNum1.token.raw_text.filter (fun c => decide (¬ c = '_')) ∧
     ∀ c ∈ exNum1.token.text, is_digit_char c = true) := by
  refine ⟨Or.inl ⟨'1', [], rfl, by decide, rfl⟩, ?_⟩
  exact C4_number_decoding.1 exNum0 exNum1
    (Or.inl ⟨'1', [], rfl, by decide, rfl⟩)
    (by simp +decide [run, runAux, new, scan_eq, skip_whitespace_eq, skip_line_comment_eq,
    scan_char, set_token_start, finish_token, finish_token_with,
    finish_ident, keyword_of, cleanup_number, ident_loop_eq,
    number_loop_eq, string_loop_eq, string_close, escape_buffer,
    escape_result, is_escape_char, scan_identifier_or_keyword,
    scan_number, scan_string, single_symbol, maybe_double_symbol,
    current_text, is_ident_start, is_ident_char, is_digit_char,
    is_number_char, rustIsWhitespace, byteSlice, charIndices,
    charIndicesFrom, byteLen, isBoundary, eofPosition, Token.new,
    quoteChar, backslashChar, apostropheChar, newlineChar, crChar,
    tabChar, ScanOutcome.isPanicked, exQmark, exQmarkErr, exXq1,
    exXq2, exNum0, exNum1, exColon0, exColon1, exStr0, exStr1,
    exQuoteE, exQuote1, exQuote1Err, exWs0, exA0, exA1, exXY0,
    exXY1, exXY2]) rfl


/-- C5: Maximal munch with one codepoint of lookahead: for each
single/double symbol pair sharing a leading character (colon, equals,
minus), a successful scan from the leading character emits the double
symbol (consuming two bytes) exactly when the next codepoint is the
expected second character, and otherwise the single symbol (consuming only
the leading byte); concretely, scanning the thirteen-character input
`:: : = == , \x5c` yields DoubleColon, Colon, Eq, EqEq, Comma, Backslash
with exact one- and two-byte spans, followed by Eof. -/
theorem C5_maximal_munch :
    (∀ s lead exp sy dy, (lead, exp, sy, dy) ∈ doubleSymbolTable →
        Scanner.Coherent s → s.current_char = some lead →
        ∀ s', scan s = ScanOutcome.ok s' →
        ((∃ p r, s.chars = (p, exp) :: r) →
            s'.token.kind = TokenKind.Symbol dy ∧ s'.token.start = s.position ∧
            s'.token.endPos = s.position + 2 ∧ s'.position = s.position + 2) ∧
        (∀ p c2 r, s.chars = (p, c2) :: r → c2 ≠ exp →
            s'.token.kind = TokenKind.Symbol sy ∧ s'.token.start = s.position ∧
            s'.token.endPos = s.position + 1 ∧ s'.position = s.position + 1) ∧
        (s.chars = [] →
            s'.token.kind = TokenKind.Symbol sy ∧ s'.token.start = s.position ∧
            s'.token.endPos = s'.position)) ∧
    run 50 [':', ':', ' ', ':', ' ', '=', ' ', '=', '=', ' ', ',', ' ',
        backslashChar] =
      RunResult.ok
        [{ kind := TokenKind.Symbol Symbol.DoubleColon, start := 0,
           endPos := 2, raw_text := [':', ':'], text := [':', ':'] },
         { kind := TokenKind.Symbol Symbol.Colon, start := 3, endPos := 4,
           raw_text := [':'], text := [':'] },
         { kind := TokenKind.Symbol Symbol.Eq, start := 5, endPos := 6,
           raw_text := ['='], text := ['='] },
         { kind := TokenKind.Symbol Symbol.EqEq, start := 7, endPos := 9,
           raw_text := ['=', '='], text := ['=', '='] },
         { kind := TokenKind.Symbol Symbol.Comma, start := 10, endPos := 11,
           raw_text := [','], text := [','] },
         { kind := TokenKind.Symbol Symbol.Backslash, start := 12,
           endPos := 13, raw_text := [backslashChar],
           text := [backslashChar] },
         { kind := TokenKind.Eof, start := 13, endPos := 13, raw_text := [],
           text := [] }] := by
  refine ⟨fun s lead exp sy dy htab hcoh hc s' h =>
    scan_double_symbol_spec s lead exp sy dy htab hcoh hc s' h, ?_⟩
  simp +decide [run, runAux, new, scan_eq, skip_whitespace_eq, skip_line_comment_eq,
    scan_char, set_token_start, finish_token, finish_token_with,
    finish_ident, keyword_of, cleanup_number, ident_loop_eq,
    number_loop_eq, string_loop_eq, string_close, escape_buffer,
    escape_result, is_escape_char, scan_identifier_or_keyword,
    scan_number, scan_string, single_symbol, maybe_double_symbol,
    current_text, is_ident_start, is_ident_char, is_digit_char,
    is_number_char, rustIsWhitespace, byteSlice, charIndices,
    charIndicesFrom, byteLen, isBoundary, eofPosition, Token.new,
    quoteChar, backslashChar, apostropheChar, newlineChar, crChar,
    tabChar, ScanOutcome.isPanicked, exQmark, exQmarkErr, exXq1,
    exXq2, exNum0, exNum1, exColon0, exColon1, exStr0, exStr1,
    exQuoteE, exQuote1, exQuote1Err, exWs0, exA0, exA1, exXY0,
    exXY1, exXY2]

theorem C5_maximal_munch_witness :
    (':', ':', Symbol.Colon, Symbol.DoubleColon) ∈ doubleSymbolTable ∧
    Scanner.Coherent exColon0 ∧
    (exColon1.token.kind = TokenKind.Symbol Symbol.DoubleColon ∧
     exColon1.token.start = exColon0.position ∧
     exColon1.token.endPos = exColon0.position + 2 ∧
     exColon1.position = exColon0.position + 2) := by
  refine ⟨by decide, Or.inl ⟨':', [], rfl, by decide, rfl⟩, ?_⟩
  exact (C5_maximal_munch.1 exColon0 ':' ':' Symbol.Colon Symbol.DoubleColon
    (by decide) (Or.inl ⟨':', [], rfl, by decide, rfl⟩) rfl exColon1
    (by simp +decide [run, runAux, new, scan_eq, skip_whitespace_eq, skip_line_comment_eq,
    scan_char, set_token_start, finish_token, finish_token_with,
    finish_ident, keyword_of, cleanup_number, ident_loop_eq,
    number_loop_eq, string_loop_eq, string_close, escape_buffer,
    escape_result, is_escape_char, scan_identifier_or_keyword,
    scan_number, scan_string, single_symbol, maybe_double_symbol,
    current_text, is_ident_start, is_ident_char, is_digit_char,
    is_number_char, rustIsWhitespace, byteSlice, charIndices,
    charIndicesFrom, byteLen, isBoundary, eofPosition, Token.new,
    quoteChar, backslashChar, apostropheChar, newlineChar, crChar,
    tabChar, ScanOutcome.isPanicked, exQmark, exQmarkErr, exXq1,
    exXq2, exNum0, exNum1, exColon0, exColon1, exStr0, exStr1,
    exQuoteE, exQuote1, exQuote1Err, exWs0, exA0, exA1, exXY0,
    exXY1, exXY2])).1 ⟨1, [], rfl⟩

/-- C6: For every String token produced by a successful scan from a
coherent state whose raw text contains no backslash (hence no escape
sequence between the quotes), the decoded text is the raw text with
exactly its first and last characters — the surrounding quotes —
removed. -/
theorem C6_escape_free_string_decoding :
    ∀ s s', Scanner.Coherent s → scan s = ScanOutcome.ok s' →
      s'.token.kind = TokenKind.String →
      backslashChar ∉ s'.token.raw_text →
      s'.token.text = (s'.token.raw_text.drop 1).dropLast :=
  fun s s' hcoh h hk hnb => scan_string_spec s hcoh s' h hk hnb

theorem C6_escape_free_string_decoding_witness :
    Scanner.Coherent exStr0 ∧
    backslashChar ∉ exStr1.token.raw_text ∧
    exStr1.token.text = (exStr1.token.raw_text.drop 1).dropLast := by
  refine ⟨Or.inl ⟨quoteChar, [], rfl, by decide, rfl⟩, by decide, ?_⟩
  exact C6_escape_free_string_decoding exStr0 exStr1
    (Or.inl ⟨quoteChar, [], rfl, by decide, rfl⟩)
    (by simp +decide [run, runAux, new, scan_eq, skip_whitespace_eq, skip_line_comment_eq,
    scan_char, set_token_start, finish_token, finish_token_with,
    finish_ident, keyword_of, cleanup_number, ident_loop_eq,
    number_loop_eq, string_loop_eq, string_close, escape_buffer,
    escape_result, is_escape_char, scan_identifier_or_keyword,
    scan_number, scan_string, single_symbol, maybe_double_symbol,
    current_text, is_ident_start, is_ident_char, is_digit_char,
    is_number_char, rustIsWhitespace, byteSlice, charIndices,
    charIndicesFrom, byteLen, isBoundary, eofPosition, Token.new,
    quoteChar, backslashChar, apostropheChar, newlineChar, crChar,
    tabChar, ScanOutcome.isPanicked, exQmark, exQmarkErr, exXq1,
    exXq2, exNum0, exNum1, exColon0, exColon1, exStr0, exStr1,
    exQuoteE, exQuote1, exQuote1Err, exWs0, exA0, exA1, exXY0,
    exXY1, exXY2]) rfl (by decide)

/-- C7: Counterexample: on the two-codepoint input consisting of a double
quote followed by `é` (3 bytes in total), input runs out inside the open
string, and the error does report the string start 0, but the offset it
carries is 2 — the position of the last codepoint plus the width of the
codepoint before it — not the offset 3 at which the input actually ran
out. -/
theorem C7_counterexample :
    (new [quoteChar, 'é'] = ScanOutcome.err exQuoteE
      (ScanError.UnexpectedEndOfInputInString 2 0)) ∧
    byteLen [quoteChar, 'é'] = 3 := by
  constructor
  · simp +decide [run, runAux, new, scan_eq, skip_whitespace_eq, skip_line_comment_eq,
    scan_char, set_token_start, finish_token, finish_token_with,
    finish_ident, keyword_of, cleanup_number, ident_loop_eq,
    number_loop_eq, string_loop_eq, string_close, escape_buffer,
    escape_result, is_escape_char, scan_identifier_or_keyword,
    scan_number, scan_string, single_symbol, maybe_double_symbol,
    current_text, is_ident_start, is_ident_char, is_digit_char,
    is_number_char, rustIsWhitespace, byteSlice, charIndices,
    charIndicesFrom, byteLen, isBoundary, eofPosition, Token.new,
    quoteChar, backslashChar, apostropheChar, newlineChar, crChar,
    tabChar, ScanOutcome.isPanicked, exQmark, exQmarkErr, exXq1,
    exXq2, exNum0, exNum1, exColon0, exColon1, exStr0, exStr1,
    exQuoteE, exQuote1, exQuote1Err, exWs0, exA0, exA1, exXY0,
    exXY1, exXY2]
  · decide

/-- C7: amended: reaching end of input inside an open string literal (with
every escape sequence intact) fails with `UnexpectedEndOfInputInString`
carrying the byte offset where the string began and the scanner's computed
end-of-input offset (which equals the byte length of the input only when
the last two codepoints have equal widths); in particular the
one-character input consisting of a single double quote fails with string
start 0 and offset 1. -/
theorem C7_unterminated_string_amended :
    (∀ s, Scanner.Coherent s → s.current_char = some quoteChar →
        runs_out_in_string (s.chars.map Prod.snd) = true →
        ∃ s', scan s = ScanOutcome.err s'
          (ScanError.UnexpectedEndOfInputInString (eofPosition s.input)
            s.position)) ∧
    new [quoteChar] = ScanOutcome.err exQuote1Err
      (ScanError.UnexpectedEndOfInputInString 1 0) := by
  refine ⟨fun s hcoh hq hro => scan_runs_out_spec s hcoh hq hro, ?_⟩
  simp +decide [run, runAux, new, scan_eq, skip_whitespace_eq, skip_line_comment_eq,
    scan_char, set_token_start, finish_token, finish_token_with,
    finish_ident, keyword_of, cleanup_number, ident_loop_eq,
    number_loop_eq, string_loop_eq, string_close, escape_buffer,
    escape_result, is_escape_char, scan_identifier_or_keyword,
    scan_number, scan_string, single_symbol, maybe_double_symbol,
    current_text, is_ident_start, is_ident_char, is_digit_char,
    is_number_char, rustIsWhitespace, byteSlice, charIndices,
    charIndicesFrom, byteLen, isBoundary, eofPosition, Token.new,
    quoteChar, backslashChar, apostropheChar, newlineChar, crChar,
    tabChar, ScanOutcome.isPanicked, exQmark, exQmarkErr, exXq1,
    exXq2, exNum0, exNum1, exColon0, exColon1, exStr0, exStr1,
    exQuoteE, exQuote1, exQuote1Err, exWs0, exA0, exA1, exXY0,
    exXY1, exXY2]

theorem C7_unterminated_string_amended_witness :
    Scanner.Coherent exQuote1 ∧
    runs_out_in_string (exQuote1.chars.map Prod.snd) = true ∧
    ∃ s', scan exQuote1 = ScanOutcome.err s'
      (ScanError.UnexpectedEndOfInputInString (eofPosition exQuote1.input)
        exQuote1.position) := by
  refine ⟨Or.inl ⟨quoteChar, [], rfl, by decide, rfl⟩, by decide, ?_⟩
  exact C7_unterminated_string_amended.1 exQuote1
    (Or.inl ⟨quoteChar, [], rfl, by decide, rfl⟩) rfl (by decide)

/-- C8: Whitespace and line comments are transparent: scanning from a
whitespace character behaves exactly as from the state past it, a `//`
comment makes `scan` restart after skipping to the end of the line (so any
interleaving is absorbed within one advance), and concretely the input
consisting of two spaces, `// c`, a newline, two spaces and `x` yields
exactly one Identifier token `x` (span `[9, 10)`) followed by Eof. -/
theorem C8_whitespace_comment_transparency :
    (∀ s ch, s.current_char = some ch → rustIsWhitespace ch = true →
        scan s = scan (scan_char s)) ∧
    (∀ s, (set_token_start (skip_whitespace s)).current_char = some '/' →
        (scan_char (set_token_start (skip_whitespace s))).current_char =
          some '/' →
        scan s = scan (skip_line_comment
          (scan_char (set_token_start (skip_whitespace s))))) ∧
    run 50 [' ', ' ', '/', '/', ' ', 'c', newlineChar, ' ', ' ', 'x'] =
      RunResult.ok
        [{ kind := TokenKind.Identifier, start := 9, endPos := 10,
           raw_text := ['x'], text := ['x'] },
         { kind := TokenKind.Eof, start := 10, endPos := 10, raw_text := [],
           text := [] }] := by
  refine ⟨fun s ch h hws => scan_ws_transparent s ch h hws,
    fun s h1 h2 => scan_comment_eq s h1 h2, ?_⟩
  simp +decide [run, runAux, new, scan_eq, skip_whitespace_eq, skip_line_comment_eq,
    scan_char, set_token_start, finish_token, finish_token_with,
    finish_ident, keyword_of, cleanup_number, ident_loop_eq,
    number_loop_eq, string_loop_eq, string_close, escape_buffer,
    escape_result, is_escape_char, scan_identifier_or_keyword,
    scan_number, scan_string, single_symbol, maybe_double_symbol,
    current_text, is_ident_start, is_ident_char, is_digit_char,
    is_number_char, rustIsWhitespace, byteSlice, charIndices,
    charIndicesFrom, byteLen, isBoundary, eofPosition, Token.new,
    quoteChar, backslashChar, apostropheChar, newlineChar, crChar,
    tabChar, ScanOutcome.isPanicked, exQmark, exQmarkErr, exXq1,
    exXq2, exNum0, exNum1, exColon0, exColon1, exStr0, exStr1,
    exQuoteE, exQuote1, exQuote1Err, exWs0, exA0, exA1, exXY0,
    exXY1, exXY2]

theorem C8_whitespace_comment_transparency_witness :
    exWs0.current_char = some ' ' ∧ rustIsWhitespace ' ' = true ∧
    scan exWs0 = scan (scan_char exWs0) :=
  ⟨rfl, by decide,
   C8_whitespace_comment_transparency.1 exWs0 ' ' rfl (by decide)⟩

/-- C9: No scanner operation returns the generic `UnexpectedEndOfInput`
error: every error produced by `scan` (and hence by `Scanner::new`, which
scans the first token) is one of `UnexpectedCharacter`,
`UnexpectedCharacterInEscapeSequence`,
`UnexpectedEndOfInputInEscapeSequence` or `UnexpectedEndOfInputInString`,
so the generic variant is unreachable. -/
theorem C9_no_generic_end_of_input_error :
    (∀ s s' e, scan s = ScanOutcome.err s' e →
        ∀ o, e ≠ ScanError.UnexpectedEndOfInput o) ∧
    (∀ input s' e, new input = ScanOutcome.err s' e →
        ∀ o, e ≠ ScanError.UnexpectedEndOfInput o) := by
  have h1 : ∀ s s' e, scan s = ScanOutcome.err s' e →
      ∀ o, e ≠ ScanError.UnexpectedEndOfInput o := by
    intro s s' e h o
    rcases (scan_err_spec s s' e h).2.2.2.2.2 with ⟨o2, c2, rfl⟩ |
      ⟨o2, c2, rfl⟩ | ⟨o2, rfl⟩ | ⟨o2, st2, rfl⟩ <;>
      intro hcon <;> cases hcon
  refine ⟨h1, ?_⟩
  intro input s' e h o
  refine h1 (scan_char
    { input := input, chars := charIndices input, last_char := none,
      current_char := none, position := 0,
      token := Token.new TokenKind.Eof }) s' e ?_ o
  exact h

theorem C9_no_generic_end_of_input_error_witness :
    ScanError.UnexpectedCharacter 2 '?' ≠ ScanError.UnexpectedEndOfInput 3 :=
  C9_no_generic_end_of_input_error.1 exXq1 exXq2
    (ScanError.UnexpectedCharacter 2 '?')
    (by simp +decide [run, runAux, new, scan_eq, skip_whitespace_eq, skip_line_comment_eq,
    scan_char, set_token_start, finish_token, finish_token_with,
    finish_ident, keyword_of, cleanup_number, ident_loop_eq,
    number_loop_eq, string_loop_eq, string_close, escape_buffer,
    escape_result, is_escape_char, scan_identifier_or_keyword,
    scan_number, scan_string, single_symbol, maybe_double_symbol,
    current_text, is_ident_start, is_ident_char, is_digit_char,
    is_number_char, rustIsWhitespace, byteSlice, charIndices,
    charIndicesFrom, byteLen, isBoundary, eofPosition, Token.new,
    quoteChar, backslashChar, apostropheChar, newlineChar, crChar,
    tabChar, ScanOutcome.isPanicked, exQmark, exQmarkErr, exXq1,
    exXq2, exNum0, exNum1, exColon0, exColon1, exStr0, exStr1,
    exQuoteE, exQuote1, exQuote1Err, exWs0, exA0, exA1, exXY0,
    exXY1, exXY2]) 3

/-- C10: Token spans are well-formed and ordered: every token produced by a
successful scan from a coherent state has `start ≤ end`, and when a second
scan also succeeds, the first token's end is at most the second token's
start (the byte position never decreases). -/
theorem C10_token_spans_ordered :
    ∀ s, Scanner.Coherent s → ∀ s', scan s = ScanOutcome.ok s' →
      s'.token.start ≤ s'.token.endPos ∧
      ∀ s2, scan s' = ScanOutcome.ok s2 → s'.token.endPos ≤ s2.token.start := by
  intro s hcoh s' h
  obtain ⟨hin, hcoh2, hps, hse, hep⟩ := scan_ok_spec s hcoh s' h
  refine ⟨hse, ?_⟩
  intro s2 h2
  obtain ⟨hin2, hcoh3, hps2, hse2, hep2⟩ := scan_ok_spec s' hcoh2 s2 h2
  rw [hep]
  exact hps2

theorem C10_token_spans_ordered_witness :
    Scanner.Coherent exXY0 ∧
    exXY1.token.start ≤ exXY1.token.endPos ∧
    exXY1.token.endPos ≤ exXY2.token.start := by
  refine ⟨Or.inl ⟨'x', [], rfl, by decide, rfl⟩, ?_, ?_⟩
  · exact (C10_token_spans_ordered exXY0
      (Or.inl ⟨'x', [], rfl, by decide, rfl⟩) exXY1
      (by simp +decide [run, runAux, new, scan_eq, skip_whitespace_eq, skip_line_comment_eq,
    scan_char, set_token_start, finish_token, finish_token_with,
    finish_ident, keyword_of, cleanup_number, ident_loop_eq,
    number_loop_eq, string_loop_eq, string_close, escape_buffer,
    escape_result, is_escape_char, scan_identifier_or_keyword,
    scan_number, scan_string, single_symbol, maybe_double_symbol,
    current_text, is_ident_start, is_ident_char, is_digit_char,
    is_number_char, rustIsWhitespace, byteSlice, charIndices,
    charIndicesFrom, byteLen, isBoundary, eofPosition, Token.new,
    quoteChar, backslashChar, apostropheChar, newlineChar, crChar,
    tabChar, ScanOutcome.isPanicked, exQmark, exQmarkErr, exXq1,
    exXq2, exNum0, exNum1, exColon0, exColon1, exStr0, exStr1,
    exQuoteE, exQuote1, exQuote1Err, exWs0, exA0, exA1, exXY0,
    exXY1, exXY2])).1
  · exact (C10_token_spans_ordered exXY0
      (Or.inl ⟨'x', [], rfl, by decide, rfl⟩) exXY1
      (by simp +decide [run, runAux, new, scan_eq, skip_whitespace_eq, skip_line_comment_eq,
    scan_char, set_token_start, finish_token, finish_token_with,
    finish_ident, keyword_of, cleanup_number, ident_loop_eq,
    number_loop_eq, string_loop_eq, string_close, escape_buffer,
    escape_result, is_escape_char, scan_identifier_or_keyword,
    scan_number, scan_string, single_symbol, maybe_double_symbol,
    current_text, is_ident_start, is_ident_char, is_digit_char,
    is_number_char, rustIsWhitespace, byteSlice, charIndices,
    charIndicesFrom, byteLen, isBoundary, eofPosition, Token.new,
    quoteChar, backslashChar, apostropheChar, newlineChar, crChar,
    tabChar, ScanOutcome.isPanicked, exQmark, exQmarkErr, exXq1,
    exXq2, exNum0, exNum1, exColon0, exColon1, exStr0, exStr1,
    exQuoteE, exQuote1, exQuote1Err, exWs0, exA0, exA1, exXY0,
    exXY1, exXY2])).2 exXY2
      (by simp +decide [run, runAux, new, scan_eq, skip_whitespace_eq, skip_line_comment_eq,
    scan_char, set_token_start, finish_token, finish_token_with,
    finish_ident, keyword_of, cleanup_number, ident_loop_eq,
    number_loop_eq, string_loop_eq, string_close, escape_buffer,
    escape_result, is_escape_char, scan_identifier_or_keyword,
    scan_number, scan_string, single_symbol, maybe_double_symbol,
    current_text, is_ident_start, is_ident_char, is_digit_char,
    is_number_char, rustIsWhitespace, byteSlice, charIndices,
    charIndicesFrom, byteLen, isBoundary, eofPosition, Token.new,
    quoteChar, backslashChar, apostropheChar, newlineChar, crChar,
    tabChar, ScanOutcome.isPanicked, exQmark, exQmarkErr, exXq1,
    exXq2, exNum0, exNum1, exColon0, exColon1, exStr0, exStr1,
    exQuoteE, exQuote1, exQuote1Err, exWs0, exA0, exA1, exXY0,
    exXY1, exXY2])

end Lcubed
